import Mathlib

/-!
# Openvis3d `ImageT<T>`: a shallow embedding

Source: `src/algorithms/stereo_matching/openvis3d/ImageT.hpp`.

Conventions of the embedding.

* C++ `int` is modelled by `Int`.  The products of dimensions
  (`mWidth*mHeight*mChannels`, `mWidth*mHeight`, `height*width*nColorChannels`,
  `filterHeight*filterWidth`) are taken as the compiled program takes them, in
  32-bit two's-complement arithmetic (`wrapInt`).  Every other `int`
  expression of the modelled functions stays within the range of `int` on the
  inputs the theorems cover.  The members of an object are `int`s; the
  theorems that size a new buffer from the members of an operand say so by the
  hypothesis `IntMembers`.
* The owned buffer `T *mData` is modelled by `Option (List T)`: `none` is the
  null pointer, `some d` a live allocation holding the elements `d`.
* `new T[n]` never yields a null pointer (a failing `new` throws), so
  `newArray` always returns `some`; the null checks of the source are kept in
  the model although they are never taken.  Exceptions are not modelled: the
  theorems cover the runs in which `new` succeeds.  A negative `n`, for which
  `new` always throws, can only reach `new` in `medianFilter2D`, and the
  theorems on its filtering branch exclude it.
* Member functions that mutate `*this` are functions from the old object to
  the new one.  Arguments passed by `const &` are read only and are therefore
  not returned.
* A read or write through `operator()` or `mData[i]` outside the allocation is
  undefined behaviour in C++.  Reads are `Option`-valued (`none` outside the
  buffer) and a statement that would perform such an access is skipped; the
  theorems carry the hypotheses under which no such access occurs.
* Scalars are an abstract type `T` with the operations a function needs; a
  theorem that relies on exact arithmetic says so by its type class (a
  semiring, an ordered commutative ring, ...).  The type `Double` evaluates
  `ImageT<double>` with the rounding of every addition and multiplication,
  and `intSqrt` is the square root as `ImageT<int>` receives it.
* A `double` argument that is not an image element (the `scale` of the resize
  functions, the argument of `ov_round`) is an exact rational; the conversion
  `(int) value` truncates toward zero.  Library functions such as `sqrt` and
  `exp` enter as parameters.
-/

namespace Openvis3d

/-- Value of an `int` expression that the program computes in 32 bits: the
mathematical value reduced to `[-2^31, 2^31)` modulo `2^32`. -/
def wrapInt (v : Int) : Int := (v + 2147483648) % 4294967296 - 2147483648

/-- The value is representable as an `int`: it lies in `[-2^31, 2^31 - 1]`. -/
def InInt (v : Int) : Prop := -2147483648 ≤ v ∧ v ≤ 2147483647

instance (v : Int) : Decidable (InInt v) := by
  unfold InInt; infer_instance

/-- Counted loop `for (int i = 0; i < n; i++) body`: the body runs for
`i = 0, 1, ..., n-1` in this order, and not at all when `n <= 0`. -/
def forLoop {σ : Type} (n : Int) (body : Nat → σ → σ) (s : σ) : σ :=
  (List.range n.toNat).foldl (fun acc i => body i acc) s

/-- Counted loop `for (i = lo; i < hi; i++) body` with an arbitrary start; the
inclusive form `for (i = lo; i <= hi; i++)` is `forFrom lo (hi + 1)`. -/
def forFrom {σ : Type} (lo hi : Int) (body : Int → σ → σ) (s : σ) : σ :=
  forLoop (hi - lo) (fun n acc => body (lo + (n : Int)) acc) s

/-- Storage obtained from `new T[n]`: `n` elements of indeterminate content
(the model fills them with the `default` of `T`, a value no operation below
relies on).  The result is never the null pointer. -/
def newArray {T : Type} [Inhabited T] (n : Int) : Option (List T) :=
  some (List.replicate n.toNat default)

/-- Statement `d[i] = f(d[i], rhs[i])` on two buffers, as in the bodies of the
compound operators.  An index outside either buffer is undefined behaviour in
C++; the model leaves the buffer as it is. -/
def combineAt {T : Type} (f : T → T → T) (rhs : List T) (i : Nat) (d : List T) : List T :=
  match d[i]?, rhs[i]? with
  | some x, some y => d.set i (f x y)
  | _, _ => d

/-- Statement `d[i] = rhs[i]` on two buffers (the copy loops). An index outside
`rhs` leaves the buffer as it is. -/
def copyAt {T : Type} (rhs : List T) (i : Nat) (d : List T) : List T :=
  match rhs[i]? with
  | some y => d.set i y
  | none => d

/-- State of an `ImageT<T>` object: the six data members of the class. -/
structure ImageT (T : Type) where
  mHeight : Int
  mWidth : Int
  mChannels : Int
  mHeightTimesWidth : Int
  mSize : Int
  mData : Option (List T)

namespace ImageT

variable {T : Type}

/-- Elements of the buffer, in storage order; the empty list for a null `mData`. -/
def elems (img : ImageT T) : List T := img.mData.getD []

/-- Default constructor `ImageT()`: every member is 0, no allocation. -/
def new : ImageT T :=
  { mHeight := 0, mWidth := 0, mChannels := 0, mHeightTimesWidth := 0, mSize := 0, mData := none }

/-- Constructor `ImageT(int height, int width, int nColorChannels)`.  The
products `mWidth*mHeight*mChannels` and `mWidth*mHeight` are `int` products
(`wrapInt` after each multiplication). -/
def newDims [Inhabited T] [Zero T] (height width nColorChannels : Int) : ImageT T :=
  let s : ImageT T := new
  let s := if height > 0 then { s with mHeight := height } else s
  let s := if width > 0 then { s with mWidth := width } else s
  let s := if nColorChannels > 0 then { s with mChannels := nColorChannels } else s
  let s := { s with mSize := wrapInt (wrapInt (s.mWidth * s.mHeight) * s.mChannels) }
  let s :=
    if s.mSize > 0 then
      match newArray s.mSize with
      | none => { s with mHeight := 0, mWidth := 0, mChannels := 0, mSize := 0, mData := none }
      | some d => { s with mData := some (forLoop s.mSize (fun i d => d.set i 0) d) }
    else s
  { s with mHeightTimesWidth := wrapInt (s.mWidth * s.mHeight) }

/-- Copy constructor `ImageT(const ImageT<T>& srcImage, bool copyData)`. -/
def newCopy [Inhabited T] [Zero T] (srcImage : ImageT T) (copyData : Bool) : ImageT T :=
  let s : ImageT T :=
    { mHeight := srcImage.mHeight, mWidth := srcImage.mWidth, mChannels := srcImage.mChannels,
      mHeightTimesWidth := srcImage.mHeightTimesWidth, mSize := srcImage.mSize, mData := none }
  match srcImage.mData with
  | some src =>
    if srcImage.mSize > 0 then
      match newArray s.mSize with
      | none => new
      | some d =>
        if copyData then { s with mData := some (forLoop s.mSize (copyAt src) d) }
        else { s with mData := some (forLoop s.mSize (fun i d => d.set i 0) d) }
    else new
  | none => new

/-- Member `resetDimensions(int height, int width, int nColorChannels)`.
The `else` branches of the three tests assign the *parameter*
(`else height = 0;`), which is not read again, so they leave the object as
it is.  The products `mWidth*mHeight*mChannels` and `mWidth*mHeight` are `int`
products (`wrapInt` after each multiplication). -/
def resetDimensions [Inhabited T] [Zero T] (img : ImageT T)
    (height width nColorChannels : Int) : ImageT T :=
  let s : ImageT T := { img with mData := none }
  let s := if height > 0 then { s with mHeight := height } else s
  let s := if width > 0 then { s with mWidth := width } else s
  let s := if nColorChannels > 0 then { s with mChannels := nColorChannels } else s
  let s := { s with mSize := wrapInt (wrapInt (s.mWidth * s.mHeight) * s.mChannels) }
  let s :=
    if s.mSize > 0 then
      match newArray s.mSize with
      | none => { s with mHeight := 0, mWidth := 0, mChannels := 0, mSize := 0 }
      | some d => { s with mData := some (forLoop s.mSize (fun i d => d.set i 0) d) }
    else s
  { s with mHeightTimesWidth := wrapInt (s.mWidth * s.mHeight) }

/-- Member `reshape(int height, int width, int nColorChannels)`.  The guard
compares the `int` product `height*width*nColorChannels` with `mSize`. -/
def reshape (img : ImageT T) (height width nColorChannels : Int) : ImageT T :=
  if wrapInt (wrapInt (height * width) * nColorChannels) = img.mSize then
    { img with mHeight := height, mWidth := width, mChannels := nColorChannels,
               mHeightTimesWidth := wrapInt (width * height) }
  else img

/-- Offset computed by `operator()(int row, int column, int channel)`: the
returned reference is `*(mData + channel*mHeightTimesWidth + column*mHeight + row)`. -/
def operatorCall (img : ImageT T) (row column channel : Int) : Int :=
  channel * img.mHeightTimesWidth + column * img.mHeight + row

/-- Offset computed by the `const` overload of `operator()`; same expression. -/
def operatorCallConst (img : ImageT T) (row column channel : Int) : Int :=
  channel * img.mHeightTimesWidth + column * img.mHeight + row

/-- Reading through a reference `*(mData + off)`; `none` stands for an access
outside the allocation (undefined behaviour in C++). -/
def load (img : ImageT T) (off : Int) : Option T :=
  match img.mData with
  | some d => if 0 ≤ off then d[off.toNat]? else none
  | none => none

/-- Writing `v` through a reference `*(mData + off)`; an access outside the
allocation leaves the object as it is. -/
def store (img : ImageT T) (off : Int) (v : T) : ImageT T :=
  match img.mData with
  | some d => if 0 ≤ off then { img with mData := some (d.set off.toNat v) } else img
  | none => img

/-- Expression `img(row, column, channel)` used as an rvalue on a `const` image. -/
def get (img : ImageT T) (row column channel : Int) : Option T :=
  img.load (img.operatorCallConst row column channel)

/-- Statement `img(row, column, channel) = v`. -/
def set (img : ImageT T) (row column channel : Int) (v : T) : ImageT T :=
  img.store (img.operatorCall row column channel) v

/-- Assignment `operator=(const ImageT<T>& rhsImage)`.  `sameObject` is the
outcome of the test `this == &rhsImage`. -/
def opAssign [Inhabited T] (self rhsImage : ImageT T) (sameObject : Bool) : ImageT T :=
  if sameObject then self
  else
    match rhsImage.mData with
    | some src =>
      if rhsImage.mSize > 0 then
        let s :=
          if self.mSize ≠ rhsImage.mSize then
            { self with mSize := rhsImage.mSize, mData := newArray rhsImage.mSize }
          else self
        match s.mData with
        | none =>
          { s with mHeight := 0, mWidth := 0, mChannels := 0, mSize := 0, mHeightTimesWidth := 0 }
        | some d =>
          { s with mHeight := rhsImage.mHeight, mWidth := rhsImage.mWidth,
                   mChannels := rhsImage.mChannels,
                   mHeightTimesWidth := rhsImage.mHeightTimesWidth,
                   mData := some (forLoop s.mSize (copyAt src) d) }
      else self
    | none => self

/-- Shape test shared by the four compound operators:
`(mHeight==rhs.mHeight)&&(mWidth==rhs.mWidth)&&(mChannels==rhs.mChannels)`. -/
def sameShape {U : Type} (a : ImageT T) (b : ImageT U) : Bool :=
  decide (a.mHeight = b.mHeight) && decide (a.mWidth = b.mWidth) &&
    decide (a.mChannels = b.mChannels)

/-- Loop `for(int i=0; i<mSize; i++) mData[i] = f(mData[i], rhs.mData[i]);`. -/
def zipLoop (f : T → T → T) (self rhs : ImageT T) : ImageT T :=
  { self with mData := self.mData.map (forLoop self.mSize (combineAt f rhs.elems)) }

/-- Compound `operator+=(const ImageT<T>& rhs)`. -/
def opAddAssign [Add T] (self rhs : ImageT T) : ImageT T :=
  if sameShape self rhs then zipLoop (fun x y => x + y) self rhs else self

/-- Compound `operator-=(const ImageT<T>& rhs)`. -/
def opSubAssign [Sub T] (self rhs : ImageT T) : ImageT T :=
  if sameShape self rhs then zipLoop (fun x y => x - y) self rhs else self

/-- Compound `operator*=(const ImageT<T>& rhs)`. -/
def opMulAssign [Mul T] (self rhs : ImageT T) : ImageT T :=
  if sameShape self rhs then zipLoop (fun x y => x * y) self rhs else self

/-- Compound `operator/=(const ImageT<T>& rhs)`. -/
def opDivAssign [Div T] (self rhs : ImageT T) : ImageT T :=
  if sameShape self rhs then zipLoop (fun x y => x / y) self rhs else self

/-- Binary `operator+(const ImageT<T>& i1, const ImageT<T>& i2)`:
`ImageT<T> result; result = i1; result += i2; return result;`. -/
def opAdd [Inhabited T] [Add T] (i1 i2 : ImageT T) : ImageT T :=
  let result : ImageT T := new
  let result := result.opAssign i1 false
  let result := result.opAddAssign i2
  result

/-- The three equations tying the members together: `mSize` is the product of
the dimensions, `mHeightTimesWidth` is `mHeight*mWidth`, and the buffer holds
`mSize` elements. -/
def SizeInv (img : ImageT T) : Prop :=
  img.mSize = img.mHeight * img.mWidth * img.mChannels ∧
  img.mHeightTimesWidth = img.mHeight * img.mWidth ∧
  (img.elems.length : Int) = img.mSize

/-- All three dimensions are non-negative. -/
def NonNegDims (img : ImageT T) : Prop :=
  0 ≤ img.mHeight ∧ 0 ≤ img.mWidth ∧ 0 ≤ img.mChannels

instance (img : ImageT T) : Decidable (SizeInv img) := by
  unfold SizeInv; infer_instance

instance (img : ImageT T) : Decidable (NonNegDims img) := by
  unfold NonNegDims; infer_instance

/-- The five `int` members of the object hold values of the type `int`. -/
def IntMembers (img : ImageT T) : Prop :=
  InInt img.mHeight ∧ InInt img.mWidth ∧ InInt img.mChannels ∧
  InInt img.mHeightTimesWidth ∧ InInt img.mSize

instance (img : ImageT T) : Decidable (IntMembers img) := by
  unfold IntMembers; infer_instance

/-- Specification-side closed form of the object left by the 3-argument constructor and by
`resetDimensions`, in terms of the dimensions `H`, `W`, `C` in force when
`mSize` is computed. -/
def zeroImage [Zero T] (H W C : Int) : ImageT T :=
  { mHeight := H, mWidth := W, mChannels := C, mHeightTimesWidth := W * H,
    mSize := W * H * C,
    mData := if W * H * C > 0 then some (List.replicate (W * H * C).toNat 0) else none }

/-! ### Pixel access and the common loop nest -/

/-- Coordinates inside the image: `0 <= row < mHeight`, `0 <= column < mWidth`,
`0 <= channel < mChannels`. -/
def InRange (img : ImageT T) (row column channel : Int) : Prop :=
  0 ≤ row ∧ row < img.mHeight ∧ 0 ≤ column ∧ column < img.mWidth ∧
    0 ≤ channel ∧ channel < img.mChannels

instance (img : ImageT T) (row column channel : Int) :
    Decidable (InRange img row column channel) := by
  unfold InRange; infer_instance

/-- Frame relation used for loops that only write pixels: `s` has the
dimensions of `r0` and a buffer of the same length. -/
def SameFrame (s r0 : ImageT T) : Prop :=
  s.mHeight = r0.mHeight ∧ s.mWidth = r0.mWidth ∧ s.mChannels = r0.mChannels ∧
  s.mHeightTimesWidth = r0.mHeightTimesWidth ∧ s.mSize = r0.mSize ∧
  s.elems.length = r0.elems.length

/-- Value of the pixel `img(row, column, channel)` as a total function, used to
state results; meaningful at coordinates inside the image. -/
def pix [Inhabited T] (img : ImageT T) (row column channel : Int) : T :=
  (img.get row column channel).getD default

/-- Statement `img(row, column, channel) = e;` where `e` is an expression that
reads through other references.  When such a read leaves its allocation
(undefined behaviour in C++, `none` here) the model skips the statement. -/
def assign (img : ImageT T) (row column channel : Int) (e : Option T) : ImageT T :=
  match e with
  | some v => img.set row column channel v
  | none => img

/-- Statement `acc += e;` with the same convention for `e` as in `assign`. -/
def accum [Add T] (acc : T) (e : Option T) : T :=
  match e with
  | some v => acc + v
  | none => acc

/-- Expression `a * b` of two values read through references. -/
def mulRead [Mul T] (a b : Option T) : Option T :=
  match a, b with
  | some x, some y => some (x * y)
  | _, _ => none

/-- Loop nest shared by `transpose`, `flipLR`, `flipUD` and the filters:
`for(k=0;k<result.mChannels;k++) for(j=0;j<result.mWidth;j++)
 for(i=0;i<result.mHeight;i++) result(i,j,k) = e(i,j,k);`
The body never changes the dimensions of `result`, so the three bounds are
those of `result` on entry. -/
def fillPixels (result : ImageT T) (e : Int → Int → Int → Option T) : ImageT T :=
  forLoop result.mChannels (fun k r =>
    forLoop result.mWidth (fun j r =>
      forLoop result.mHeight (fun i r => r.assign i j k (e i j k)) r) r) result

/-! ### Scalar forms -/

/-- Statement `d[i] = f(d[i])` on a buffer; an index outside the buffer leaves
it as it is. -/
def updateAt (f : T → T) (i : Nat) (d : List T) : List T :=
  match d[i]? with
  | some x => d.set i (f x)
  | none => d

/-- Assignment `operator=(const T& rhs)`: `for(int i=0;i<mSize;i++) mData[i] = rhs;`. -/
def opAssignScalar (self : ImageT T) (rhs : T) : ImageT T :=
  { self with mData := self.mData.map (forLoop self.mSize (fun i d => d.set i rhs)) }

/-- Compound `operator-=(const T& rhs)`: `for(int i=0;i<mSize;i++) mData[i] -= rhs;`. -/
def opSubAssignScalar [Sub T] (self : ImageT T) (rhs : T) : ImageT T :=
  { self with mData := self.mData.map (forLoop self.mSize (updateAt (fun x => x - rhs))) }

/-- Compound `operator/=(const T& rhs)`: `for(int i=0;i<mSize;i++) mData[i] /= rhs;`. -/
def opDivAssignScalar [Div T] (self : ImageT T) (rhs : T) : ImageT T :=
  { self with mData := self.mData.map (forLoop self.mSize (updateAt (fun x => x / rhs))) }

/-- Binary `operator-(const double i1, const ImageT<T>& i2)`:
`ImageT<T> result; result = i2; result -= (T)i1; return result;`.
The scalar argument stands for the converted value `(T)i1`. -/
def opSubScalarFirst [Inhabited T] [Sub T] (i1 : T) (i2 : ImageT T) : ImageT T :=
  let result : ImageT T := new
  let result := result.opAssign i2 false
  let result := result.opSubAssignScalar i1
  result

/-- Binary `operator/(const double i1, const ImageT<T>& i2)`:
`ImageT<T> result; result = i2; result /= (T)i1; return result;`. -/
def opDivScalarFirst [Inhabited T] [Div T] (i1 : T) (i2 : ImageT T) : ImageT T :=
  let result : ImageT T := new
  let result := result.opAssign i2 false
  let result := result.opDivAssignScalar i1
  result

/-! ### Comparisons -/

/-- Statement `r[i] = cmp(a[i], b[i])` on buffers; an index outside `a` or `b`
leaves `r` as it is. -/
def cmpAt (cmp : T → T → Bool) (a b : List T) (i : Nat) (r : List Bool) : List Bool :=
  match a[i]?, b[i]? with
  | some x, some y => r.set i (cmp x y)
  | _, _ => r

/-- Body shared by the five image-image comparison operators:
`ImageT<bool> result(i1.mHeight,i1.mWidth,i1.mChannels);`, then, when the three
dimensions agree, `for(int i=0;i<result.mSize;i++) result.mData[i] = cmp(i1.mData[i], i2.mData[i]);`. -/
def compareImages (cmp : T → T → Bool) (i1 i2 : ImageT T) : ImageT Bool :=
  let result : ImageT Bool := newDims i1.mHeight i1.mWidth i1.mChannels
  if sameShape i1 i2 then
    { result with
      mData := result.mData.map (forLoop result.mSize (cmpAt cmp i1.elems i2.elems)) }
  else result

/-- Comparison `operator<(const ImageT<T>&, const ImageT<T>&)`. -/
def opLt [LinearOrder T] (i1 i2 : ImageT T) : ImageT Bool :=
  compareImages (fun x y => decide (x < y)) i1 i2

/-- Comparison `operator<=(const ImageT<T>&, const ImageT<T>&)`. -/
def opLe [LinearOrder T] (i1 i2 : ImageT T) : ImageT Bool :=
  compareImages (fun x y => decide (x ≤ y)) i1 i2

/-- Comparison `operator>(const ImageT<T>&, const ImageT<T>&)`. -/
def opGt [LinearOrder T] (i1 i2 : ImageT T) : ImageT Bool :=
  compareImages (fun x y => decide (x > y)) i1 i2

/-- Comparison `operator>=(const ImageT<T>&, const ImageT<T>&)`. -/
def opGe [LinearOrder T] (i1 i2 : ImageT T) : ImageT Bool :=
  compareImages (fun x y => decide (x ≥ y)) i1 i2

/-- Comparison `operator==(const ImageT<T>&, const ImageT<T>&)`. -/
def opEq [LinearOrder T] (i1 i2 : ImageT T) : ImageT Bool :=
  compareImages (fun x y => decide (x = y)) i1 i2

/-- What the claim about comparisons says of a result `r` of comparing `a` with
`b` by the scalar test `cmp`: the shape of `a`; on equal shapes the elementwise
test; on different shapes `false` everywhere. -/
def CompareSpec (cmp : T → T → Bool) (a b : ImageT T) (r : ImageT Bool) : Prop :=
  (r.mHeight = a.mHeight ∧ r.mWidth = a.mWidth ∧ r.mChannels = a.mChannels) ∧
  ((a.mHeight = b.mHeight ∧ a.mWidth = b.mWidth ∧ a.mChannels = b.mChannels) →
    r.elems = List.zipWith cmp a.elems b.elems) ∧
  (¬ (a.mHeight = b.mHeight ∧ a.mWidth = b.mWidth ∧ a.mChannels = b.mChannels) →
    (r.elems.length : Int) = a.mSize ∧ ∀ v ∈ r.elems, v = false)

/-- Closed form of the accumulation loops of `convolve2D` and `filter2D` at one
output pixel: the sum over the kernel taps `(iK, jK)` of
`kv iK jK * xv (rowOf iK) (colOf jK)`, where a tap whose input row or column
falls outside `[0,H) x [0,W)` contributes nothing. -/
def tapSum [AddCommMonoid T] [Mul T] (Kh Kw H W : Int) (kv xv : Int → Int → T)
    (rowOf colOf : Int → Int) : T :=
  ∑ jK ∈ Finset.range Kw.toNat,
    if colOf (jK : Int) < 0 ∨ colOf (jK : Int) ≥ W then 0
    else ∑ iK ∈ Finset.range Kh.toNat,
      if rowOf (iK : Int) < 0 ∨ rowOf (iK : Int) ≥ H then 0
      else kv (iK : Int) (jK : Int) * xv (rowOf (iK : Int)) (colOf (jK : Int))

/-! ### Transpose and flips -/

/-- Function `transpose(const ImageT<T>& input)`. -/
def transpose [Inhabited T] [Zero T] (input : ImageT T) : ImageT T :=
  let result : ImageT T := new
  let result := result.resetDimensions input.mWidth input.mHeight input.mChannels
  fillPixels result (fun i j k => input.get j i k)

/-- Function `flipLR(const ImageT<T>& input)`. -/
def flipLR [Inhabited T] [Zero T] (input : ImageT T) : ImageT T :=
  let result : ImageT T := newCopy input false
  fillPixels result (fun i j k => input.get i ((result.mWidth - 1) - j) k)

/-- Function `flipUD(const ImageT<T>& input)`. -/
def flipUD [Inhabited T] [Zero T] (input : ImageT T) : ImageT T :=
  let result : ImageT T := newCopy input false
  fillPixels result (fun i j k => input.get ((result.mHeight - 1) - i) j k)

/-! ### Convolution and filtering -/

/-- Function `convolve2D(const ImageT<T>& kernel, const ImageT<T>& input)`.
`kernel(iKernel,jKernel)` uses the default channel 0; `int` division by 2 is
the truncating `Int.tdiv`. -/
def convolve2D [Inhabited T] [Zero T] [Add T] [Mul T] (kernel input : ImageT T) : ImageT T :=
  let result : ImageT T := newCopy input false
  if kernel.mSize = 0 ∨ input.mSize = 0 then result
  else
    let iKernelMidpoint := Int.tdiv kernel.mHeight 2
    let jKernelMidpoint := Int.tdiv kernel.mWidth 2
    fillPixels result (fun iResult jResult k =>
      some (forLoop kernel.mWidth (fun jKernel tempValue =>
        let jInput := jResult - ((jKernel : Int) - jKernelMidpoint)
        if jInput < 0 ∨ jInput ≥ input.mWidth then tempValue
        else
          forLoop kernel.mHeight (fun iKernel tempValue =>
            let iInput := iResult - ((iKernel : Int) - iKernelMidpoint)
            if iInput < 0 ∨ iInput ≥ input.mHeight then tempValue
            else accum tempValue
              (mulRead (kernel.get iKernel jKernel 0) (input.get iInput jInput k)))
            tempValue) 0))

/-- Function `filter2D(const ImageT<T>& kernel, const ImageT<T>& input)`: as
`convolve2D` with a plus sign in `jInput` and `iInput`. -/
def filter2D [Inhabited T] [Zero T] [Add T] [Mul T] (kernel input : ImageT T) : ImageT T :=
  let result : ImageT T := newCopy input false
  if kernel.mSize = 0 ∨ input.mSize = 0 then result
  else
    let iKernelMidpoint := Int.tdiv kernel.mHeight 2
    let jKernelMidpoint := Int.tdiv kernel.mWidth 2
    fillPixels result (fun iResult jResult k =>
      some (forLoop kernel.mWidth (fun jKernel tempValue =>
        let jInput := jResult + ((jKernel : Int) - jKernelMidpoint)
        if jInput < 0 ∨ jInput ≥ input.mWidth then tempValue
        else
          forLoop kernel.mHeight (fun iKernel tempValue =>
            let iInput := iResult + ((iKernel : Int) - iKernelMidpoint)
            if iInput < 0 ∨ iInput ≥ input.mHeight then tempValue
            else accum tempValue
              (mulRead (kernel.get iKernel jKernel 0) (input.get iInput jInput k)))
            tempValue) 0))

/-- Statements `listOfElements[count] = tempValue; count++;` of
`medianFilter2D` on the pair of the scratch array and the counter.  A store
past the end of the allocation is undefined behaviour in C++; the model leaves
the array as it is (`List.set` does nothing at such an index) and the counter
still advances. -/
def pushElement (st : List T × Int) (tempValue : T) : List T × Int :=
  ((if 0 ≤ st.2 then st.1.set st.2.toNat tempValue else st.1), st.2 + 1)

/-- Helper `medianFilter2DHelperFunc_FindMedian(int n, T* elements)`: `qsort`
of the first `n` elements in place (modelled by a sort of that prefix), then
`0` for `n == 0`, `elements[(n-1)/2]` for odd `n` and `elements[n/2]`
otherwise.  The result is the returned value and the array as `qsort` leaves
it.  When `n` elements do not fit the allocation, `qsort` reads and writes
past it (undefined behaviour in C++): the value is `none` and the model leaves
the array as it is. -/
def medianFilter2DHelperFunc_FindMedian [LinearOrder T] [Zero T] (n : Int)
    (elements : List T) : Option T × List T :=
  if n < 0 ∨ n > (elements.length : Int) then (none, elements)
  else
    let elements := (elements.take n.toNat).insertionSort (fun a b => a ≤ b)
      ++ elements.drop n.toNat
    if n = 0 then (some 0, elements)
    else if Int.tmod n 2 ≠ 0 then (elements[(Int.tdiv (n - 1) 2).toNat]?, elements)
    else (elements[(Int.tdiv n 2).toNat]?, elements)

/-- Function `medianFilter2D(const ImageT<T>& input, int filterHeight, int filterWidth)`.
The scratch array `listOfElements = new T[filterHeight*filterWidth]` is
allocated once, its size being the 32-bit product, and is carried through the
pixel loops next to `result`; `count` restarts at 0 for every pixel.  The
three pixel loops are bounded by the dimensions of `result` on entry, which
the body never changes.  (A negative 32-bit product makes `new` throw; the
model has no exceptions, and no theorem below covers that case.) -/
def medianFilter2D [Inhabited T] [Zero T] [LinearOrder T] (input : ImageT T)
    (filterHeight filterWidth : Int) : ImageT T :=
  let result : ImageT T := newCopy input false
  if input.mSize = 0 then result
  else if filterHeight < 1 ∨ filterWidth < 1 then result
  else
    match (newArray (wrapInt (filterHeight * filterWidth)) : Option (List T)) with
    | none => result
    | some listOfElements =>
      let iKernelMidpoint := Int.tdiv filterHeight 2
      let jKernelMidpoint := Int.tdiv filterWidth 2
      (forLoop result.mChannels (fun k st =>
        forLoop result.mWidth (fun jResult st =>
          forLoop result.mHeight (fun iResult st =>
            let filled : List T × Int :=
              forLoop filterWidth (fun jKernel acc =>
                let jInput := (jResult : Int) + ((jKernel : Int) - jKernelMidpoint)
                if jInput < 0 ∨ jInput ≥ input.mWidth then acc
                else
                  forLoop filterHeight (fun iKernel acc =>
                    let iInput := (iResult : Int) + ((iKernel : Int) - iKernelMidpoint)
                    if iInput < 0 ∨ iInput ≥ input.mHeight then acc
                    else
                      match input.get iInput jInput k with
                      | some tempValue =>
                        if tempValue ≠ tempValue then acc else pushElement acc tempValue
                      | none => acc) acc) (st.2, 0)
            let median := medianFilter2DHelperFunc_FindMedian filled.2 filled.1
            (st.1.assign iResult jResult k median.1, median.2)) st) st)
        (result, listOfElements)).1

/-- Function `minFilter2D(const ImageT<T>& input, int filterHeight, int filterWidth)`. -/
def minFilter2D [Inhabited T] [Zero T] [LinearOrder T] (input : ImageT T)
    (filterHeight filterWidth : Int) : ImageT T :=
  let result : ImageT T := newCopy input false
  if input.mSize = 0 then result
  else if filterHeight < 1 ∨ filterWidth < 1 then result
  else
    let iKernelMidpoint := Int.tdiv filterHeight 2
    let jKernelMidpoint := Int.tdiv filterWidth 2
    fillPixels result (fun iResult jResult k =>
      (input.get iResult jResult k).map (fun resultValue =>
        forLoop filterWidth (fun jKernel resultValue =>
          let jInput := jResult + ((jKernel : Int) - jKernelMidpoint)
          if jInput < 0 ∨ jInput ≥ input.mWidth then resultValue
          else
            forLoop filterHeight (fun iKernel resultValue =>
              let iInput := iResult + ((iKernel : Int) - iKernelMidpoint)
              if iInput < 0 ∨ iInput ≥ input.mHeight then resultValue
              else
                match input.get iInput jInput k with
                | some tempValue =>
                  if tempValue ≠ tempValue then resultValue
                  else if resultValue > tempValue then tempValue else resultValue
                | none => resultValue) resultValue) resultValue))

/-- Function `maxFilter2D(const ImageT<T>& input, int filterHeight, int filterWidth)`. -/
def maxFilter2D [Inhabited T] [Zero T] [LinearOrder T] (input : ImageT T)
    (filterHeight filterWidth : Int) : ImageT T :=
  let result : ImageT T := newCopy input false
  if input.mSize = 0 then result
  else if filterHeight < 1 ∨ filterWidth < 1 then result
  else
    let iKernelMidpoint := Int.tdiv filterHeight 2
    let jKernelMidpoint := Int.tdiv filterWidth 2
    fillPixels result (fun iResult jResult k =>
      (input.get iResult jResult k).map (fun resultValue =>
        forLoop filterWidth (fun jKernel resultValue =>
          let jInput := jResult + ((jKernel : Int) - jKernelMidpoint)
          if jInput < 0 ∨ jInput ≥ input.mWidth then resultValue
          else
            forLoop filterHeight (fun iKernel resultValue =>
              let iInput := iResult + ((iKernel : Int) - iKernelMidpoint)
              if iInput < 0 ∨ iInput ≥ input.mHeight then resultValue
              else
                match input.get iInput jInput k with
                | some tempValue =>
                  if tempValue ≠ tempValue then resultValue
                  else if resultValue < tempValue then tempValue else resultValue
                | none => resultValue) resultValue) resultValue))

/-- Statements `if(lo<0) lo = 0; if(lo>=extent) lo = extent-1;` applied to a
lower bound. -/
def resolveLo (lo extent : Int) : Int :=
  let lo := if lo < 0 then 0 else lo
  if lo ≥ extent then extent - 1 else lo

/-- Statements `if(hi<0) hi = extent-1; if(hi>=extent) hi = extent-1;` applied
to an upper bound. -/
def resolveHi (hi extent : Int) : Int :=
  let hi := if hi < 0 then extent - 1 else hi
  if hi ≥ extent then extent - 1 else hi

/-- Resolution of a lower bound in the words of the specification: a negative
bound becomes 0, a bound `>= extent` becomes `extent - 1`. -/
def boundLoSpec (lo extent : Int) : Int :=
  if lo < 0 then 0 else if lo ≥ extent then extent - 1 else lo

/-- Resolution of an upper bound in the words of the specification: a negative
bound becomes `extent - 1`, a bound `>= extent` becomes `extent - 1`. -/
def boundHiSpec (hi extent : Int) : Int :=
  if hi < 0 then extent - 1 else if hi ≥ extent then extent - 1 else hi

end ImageT

/-! ### The scalar types `double` and `int` -/

/-- Number of binary digits of `n`, for `n < 2^128`. -/
def bitLength (n : Nat) : Nat :=
  (List.range 128).foldl (fun acc i => if 2 ^ i ≤ n then i + 1 else acc) 0

/-- A finite value of the C++ type `double` (IEEE 754 binary64): the number
`m * 2^e`.  The limits of the exponent (overflow, subnormal numbers), NaN and
the sign of zero are not modelled. -/
structure Double where
  m : Int
  e : Int

namespace Double

/-- The `double` nearest to the exact value `m * 2^e`: the 53 leading binary
digits of `m`, rounded to nearest, ties to even (the default rounding mode);
for `|m| < 2^128`, the range of `bitLength`. -/
def roundNearestEven (m e : Int) : Double :=
  let a := m.natAbs
  let k := bitLength a - 53
  if k = 0 then { m := m, e := e }
  else
    let q := a / 2 ^ k
    let r := a % 2 ^ k
    let half := 2 ^ (k - 1)
    let q := if r > half ∨ (r = half ∧ q % 2 = 1) then q + 1 else q
    { m := if m < 0 then -(q : Int) else (q : Int), e := e + (k : Int) }

/-- The literal `0` of type `double`. -/
instance : Zero Double := ⟨{ m := 0, e := 0 }⟩

/-- Addition of two `double`s: the exact sum, as an integer multiple of the
smaller unit `2^min(a.e, b.e)`, rounded. -/
instance : Add Double :=
  ⟨fun a b => roundNearestEven
    (a.m * 2 ^ (a.e - min a.e b.e).toNat + b.m * 2 ^ (b.e - min a.e b.e).toNat) (min a.e b.e)⟩

/-- Multiplication of two `double`s: the exact product, rounded. -/
instance : Mul Double := ⟨fun a b => roundNearestEven (a.m * b.m) (a.e + b.e)⟩

end Double

namespace ImageT

variable {T : Type}

/-- Member `getSubImage(int rowLo, int rowHi, int columnLo, int columnHi,
int channelLo, int channelHi)`. -/
def getSubImage [Inhabited T] [Zero T] (self : ImageT T)
    (rowLo rowHi columnLo columnHi channelLo channelHi : Int) : ImageT T :=
  let result : ImageT T := new
  let rowLo := resolveLo rowLo self.mHeight
  let rowHi := resolveHi rowHi self.mHeight
  let columnLo := resolveLo columnLo self.mWidth
  let columnHi := resolveHi columnHi self.mWidth
  let channelLo := resolveLo channelLo self.mChannels
  let channelHi := resolveHi channelHi self.mChannels
  let height := rowHi - rowLo + 1
  let width := columnHi - columnLo + 1
  let nchannels := channelHi - channelLo + 1
  if height ≤ 0 then result
  else if width ≤ 0 then result
  else if nchannels ≤ 0 then result
  else
    let result := result.resetDimensions height width nchannels
    forFrom channelLo (channelHi + 1) (fun k r =>
      forFrom columnLo (columnHi + 1) (fun j r =>
        forFrom rowLo (rowHi + 1) (fun i r =>
          r.assign (i - rowLo) (j - columnLo) (k - channelLo) (self.get i j k)) r) r) result

/-! ### Translation and nearest-neighbour resizing -/

/-- Function `shiftImageXY(const ImageT<T>& input, int columns, int rows)`. -/
def shiftImageXY [Inhabited T] [Zero T] (input : ImageT T) (columns rows : Int) : ImageT T :=
  let result : ImageT T := newCopy input false
  let iLow := if rows ≥ 0 then rows else 0
  let iHigh := if rows ≥ 0 then result.mHeight else result.mHeight + rows
  let jLow := if columns ≥ 0 then columns else 0
  let jHigh := if columns ≥ 0 then result.mWidth else result.mWidth + columns
  forLoop result.mChannels (fun k r =>
    forFrom jLow jHigh (fun j r =>
      forFrom iLow iHigh (fun i r =>
        r.assign i j k (input.get (i - rows) (j - columns) k)) r) r) result

/-- Conversion `(int) value` of a `double` (here an exact rational): truncation
toward zero. -/
def truncToInt (value : ℚ) : Int :=
  if 0 ≤ value then ⌊value⌋ else ⌈value⌉

/-- Function `ov_round(double value)`: `return int(value + 0.5);`. -/
def ov_round (value : ℚ) : Int :=
  truncToInt (value + 1 / 2)

/-- Member `normalizeIntensityRange()`.  The pair carried by the first loop is
`(minValue, maxValue)`. -/
def normalizeIntensityRange [LinearOrderedField T] (self : ImageT T) : ImageT T :=
  if self.mSize = 0 then self
  else
    match self.mData with
    | none => self
    | some d =>
      match d[0]? with
      | none => self
      | some v0 =>
        let mm : T × T :=
          forFrom 1 self.mSize (fun i mm =>
            match d[i.toNat]? with
            | some v => (if mm.1 > v then v else mm.1, if mm.2 < v then v else mm.2)
            | none => mm) (v0, v0)
        if mm.1 = mm.2 then self
        else
          { self with
            mData := some (forLoop self.mSize
              (updateAt (fun v => (v - mm.1) / (mm.2 - mm.1))) d) }

/-- Statement `if(cond) img(row, column, channel) = e;` where `cond` is read
through a reference to a boolean image. -/
def assignIf (img : ImageT T) (row column channel : Int) (cond : Option Bool)
    (e : Option T) : ImageT T :=
  match cond with
  | some true => img.assign row column channel e
  | _ => img

/-- Member `copyMasked(const ImageT<bool>& mask, const ImageT<T>& srcImage)`:
the returned flag and the receiver afterwards. -/
def copyMasked (self : ImageT T) (mask : ImageT Bool) (srcImage : ImageT T) :
    Bool × ImageT T :=
  if self.mHeight ≠ mask.mHeight ∨ self.mWidth ≠ mask.mWidth ∨
      self.mChannels ≠ mask.mChannels then (false, self)
  else if self.mHeight ≠ srcImage.mHeight ∨ self.mWidth ≠ srcImage.mWidth ∨
      self.mChannels ≠ srcImage.mChannels then (false, self)
  else
    (true, forLoop self.mChannels (fun k r =>
      forLoop self.mWidth (fun j r =>
        forLoop self.mHeight (fun i r =>
          r.assignIf i j k (mask.get i j k) (srcImage.get i j k)) r) r) self)

/-- Member `copyChannel(ImageT<T>& input, int inputChannel, int outputChannel)`:
the returned flag and the receiver afterwards. -/
def copyChannel (self input : ImageT T) (inputChannel outputChannel : Int) :
    Bool × ImageT T :=
  if self.mHeight ≠ input.mHeight ∨ self.mWidth ≠ input.mWidth then (false, self)
  else if input.mChannels ≥ inputChannel ∨ inputChannel < 0 then (false, self)
  else if self.mChannels ≥ outputChannel ∨ outputChannel < 0 then (false, self)
  else
    (true, forLoop self.mWidth (fun j r =>
      forLoop self.mHeight (fun i r =>
        r.assign i j outputChannel (input.get i j inputChannel)) r) self)

/-- Value assigned by `if(cond) img(..) = e;` as an optional expression: `e`
when the condition reads `true`, nothing otherwise. -/
def maskedExpr (cond : Option Bool) (e : Option T) : Option T :=
  match cond with
  | some true => e
  | _ => none

/-- Loop nest that assigns `e` on the box of `ni x nj x nk` pixels starting at
`(i0, j0, k0)`, channel-major; the closed form the pixel loops of the source
are brought to. -/
def writeBox (r0 : ImageT T) (i0 j0 k0 ni nj nk : Int) (e : Int → Int → Int → Option T) :
    ImageT T :=
  forLoop nk (fun c r =>
    forLoop nj (fun b r =>
      forLoop ni (fun a r =>
        r.assign (i0 + (a : Int)) (j0 + (b : Int)) (k0 + (c : Int))
          (e (i0 + (a : Int)) (j0 + (b : Int)) (k0 + (c : Int)))) r) r) r0

/-! ### Coordinates read by `sumRegion`; bilinear resize; scalar product -/

/-- The coordinates `(i, j, k)` at which `sumRegion` evaluates `input(i,j,k)`,
in the order of its loop nest (same bound resolution and same three inclusive
loops as `sumRegion`, recording the coordinate instead of adding the value). -/
def sumRegionReads (input : ImageT T)
    (rowLo rowHi columnLo columnHi channelLo channelHi : Int) : List (Int × Int × Int) :=
  let rowLo := resolveLo rowLo input.mHeight
  let rowHi := resolveHi rowHi input.mHeight
  let columnLo := resolveLo columnLo input.mWidth
  let columnHi := resolveHi columnHi input.mWidth
  let channelLo := resolveLo channelLo input.mChannels
  let channelHi := resolveHi channelHi input.mChannels
  forFrom channelLo (channelHi + 1) (fun k reads =>
    forFrom columnLo (columnHi + 1) (fun j reads =>
      forFrom rowLo (rowHi + 1) (fun i reads => reads ++ [(i, j, k)]) reads)
      reads) []

/-- Compound `operator*=(const T& rhs)`: `for(int i=0;i<mSize;i++) mData[i] *= rhs;`. -/
def opMulAssignScalar [Mul T] (self : ImageT T) (rhs : T) : ImageT T :=
  { self with mData := self.mData.map (forLoop self.mSize (updateAt (fun v => v * rhs))) }

/-- Binary `operator*(const ImageT<T>& i1, const double i2)`:
`ImageT<T> result; result = i1; result *= (T)i2; return result;`. -/
def opMulScalar [Inhabited T] [Mul T] (i1 : ImageT T) (i2 : T) : ImageT T :=
  let result : ImageT T := new
  let result := result.opAssign i1 false
  let result := result.opMulAssignScalar i2
  result

/-- Specification-side closed form for the rank filters: the values of `x` in
channel `k` over the in-bounds part of the window of `fh` rows starting at row
`i - fh/2` and `fw` columns starting at column `j - fw/2` (floor division),
listed column by column. -/
def windowValues [Inhabited T] (x : ImageT T) (fh fw i j k : Int) : List T :=
  (List.range fw.toNat).flatMap (fun jK =>
    if (j - fw / 2) + (jK : Int) < 0 ∨ (j - fw / 2) + (jK : Int) ≥ x.mWidth then []
    else (List.range fh.toNat).flatMap (fun iK =>
      if (i - fh / 2) + (iK : Int) < 0 ∨ (i - fh / 2) + (iK : Int) ≥ x.mHeight then []
      else [x.pix ((i - fh / 2) + (iK : Int)) ((j - fw / 2) + (jK : Int)) k]))

/-- The coordinate `(i2, j2)` lies in the in-bounds part of the window of the
rank filters at the pixel `(i, j)`: rows `i - fh/2 .. i - fh/2 + fh - 1`,
columns `j - fw/2 .. j - fw/2 + fw - 1`, inside the image. -/
def InWindow (x : ImageT T) (fh fw i j i2 j2 : Int) : Prop :=
  (i - fh / 2 ≤ i2 ∧ i2 ≤ i - fh / 2 + fh - 1) ∧
  (j - fw / 2 ≤ j2 ∧ j2 ≤ j - fw / 2 + fw - 1) ∧
  (0 ≤ i2 ∧ i2 < x.mHeight) ∧ (0 ≤ j2 ∧ j2 < x.mWidth)

/-- Specification-side closed form of a pixel of `convolve2D(k, x)` at `(i, j)`
of a channel with values `xv`, for an input of height `H` and width `W`: zero
for an empty kernel, otherwise the sum over the taps. -/
def convValue [Inhabited T] [Semiring T] (k : ImageT T) (H W : Int) (xv : Int → Int → T)
    (i j : Int) : T :=
  if k.mSize = 0 then 0
  else tapSum k.mHeight k.mWidth H W (fun a b => k.pix a b 0) xv
    (fun iK => i - (iK - Int.tdiv k.mHeight 2)) (fun jK => j - (jK - Int.tdiv k.mWidth 2))

end ImageT

end Openvis3d

namespace Openvis3d

/-! ## Loops over the buffer -/

theorem foldl_set_range {T : Type} (f : Nat → T) : ∀ (k : Nat) (d : List T), k ≤ d.length →
    (List.range k).foldl (fun acc i => acc.set i (f i)) d = (List.range k).map f ++ d.drop k := by
  intro k
  induction k with
  | zero => intro d _; simp
  | succ k ih =>
    intro d hk
    rw [List.range_succ, List.foldl_append, ih d (by omega)]
    simp only [List.foldl_cons, List.foldl_nil, List.map_append, List.map_cons, List.map_nil]
    have hlen : ((List.range k).map f).length = k := by simp
    rw [List.set_append_right _ _ (by simp), hlen, Nat.sub_self, List.append_assoc]
    congr 1
    have hlt : k < d.length := by omega
    rw [List.drop_eq_getElem_cons hlt]
    rfl

theorem map_const_range {T : Type} (v : T) (n : Nat) :
    (List.range n).map (fun _ => v) = List.replicate n v := by
  apply List.ext_getElem <;> simp

/-- The zero-fill loop `for(int i=0; i<n; i++) d[i] = v;` over a buffer of
`n` elements leaves `n` copies of `v`. -/
theorem forLoop_fill {T : Type} (v : T) (n : Int) (d : List T) (hd : d.length = n.toNat) :
    forLoop n (fun i d => d.set i v) d = List.replicate n.toNat v := by
  unfold forLoop
  rw [foldl_set_range (fun _ => v) n.toNat d (by omega), map_const_range]
  simp [← hd]

theorem foldl_copyAt_range {T : Type} (src : List T) : ∀ (k : Nat) (d : List T),
    k ≤ d.length → k ≤ src.length →
    (List.range k).foldl (fun acc i => copyAt src i acc) d = src.take k ++ d.drop k := by
  intro k
  induction k with
  | zero => intro d _ _; simp
  | succ k ih =>
    intro d hk hs
    have hlt : k < d.length := by omega
    have hsl : k < src.length := by omega
    rw [List.range_succ, List.foldl_append, ih d (by omega) (by omega)]
    simp only [List.foldl_cons, List.foldl_nil, copyAt, List.getElem?_eq_getElem hsl]
    have hlen : (src.take k).length = k := by simp; omega
    rw [List.set_append_right _ _ (by omega), hlen, Nat.sub_self,
      List.drop_eq_getElem_cons hlt, List.set_cons_zero, List.take_succ,
      List.getElem?_eq_getElem hsl]
    simp only [Option.toList, List.append_assoc, List.singleton_append]

/-- The copy loop `for(int i=0; i<n; i++) d[i] = src[i];` between two buffers
of `n` elements leaves the elements of `src`. -/
theorem forLoop_copy {T : Type} (src d : List T) (n : Int)
    (hd : d.length = n.toNat) (hs : src.length = n.toNat) :
    forLoop n (copyAt src) d = src := by
  unfold forLoop
  rw [foldl_copyAt_range src n.toNat d (by omega) (by omega)]
  simp [← hd, ← hs]
  omega

end Openvis3d

namespace Openvis3d

namespace ImageT

variable {T : Type}

/-! ## Indexing -/

/-- In-range coordinates of an image whose members satisfy `SizeInv` land
inside the buffer. -/
theorem offset_bounds (H W C row col ch : Int)
    (hr0 : 0 ≤ row) (hr1 : row < H) (hc0 : 0 ≤ col) (hc1 : col < W)
    (hk0 : 0 ≤ ch) (hk1 : ch < C) :
    0 ≤ ch * (H * W) + col * H + row ∧ ch * (H * W) + col * H + row < H * W * C := by
  have hH : 0 < H := by omega
  have hW : 0 < W := by omega
  constructor
  · have h1 : 0 ≤ ch * (H * W) := mul_nonneg hk0 (mul_nonneg hH.le hW.le)
    have h2 : 0 ≤ col * H := mul_nonneg hc0 hH.le
    omega
  · have h1 : ch * (H * W) ≤ (C - 1) * (H * W) :=
      mul_le_mul_of_nonneg_right (by omega) (mul_nonneg hH.le hW.le)
    have h2 : col * H ≤ (W - 1) * H := mul_le_mul_of_nonneg_right (by omega) hH.le
    nlinarith

/-- C1: for an image of shape (H,W,C) whose members are consistent and every
in-range coordinate, the mutable and the const `operator()` both compute the
offset `channel*(H*W) + col*H + row`; that offset lies inside the buffer, a read
through the const operator yields the buffer element stored there, and a write
through the mutable operator replaces exactly that element. -/
theorem c1_operatorCall_addresses_offset (img : ImageT T) (d : List T) (row col ch : Int)
    (hinv : img.SizeInv) (hd : img.mData = some d)
    (hr0 : 0 ≤ row) (hr1 : row < img.mHeight) (hc0 : 0 ≤ col) (hc1 : col < img.mWidth)
    (hk0 : 0 ≤ ch) (hk1 : ch < img.mChannels) :
    img.operatorCall row col ch
        = ch * (img.mHeight * img.mWidth) + col * img.mHeight + row ∧
    img.operatorCallConst row col ch
        = ch * (img.mHeight * img.mWidth) + col * img.mHeight + row ∧
    0 ≤ ch * (img.mHeight * img.mWidth) + col * img.mHeight + row ∧
    (ch * (img.mHeight * img.mWidth) + col * img.mHeight + row).toNat < d.length ∧
    img.get row col ch
        = d[(ch * (img.mHeight * img.mWidth) + col * img.mHeight + row).toNat]? ∧
    (∃ x, img.get row col ch = some x) ∧
    ∀ v, (img.set row col ch v).mData
        = some (d.set (ch * (img.mHeight * img.mWidth) + col * img.mHeight + row).toNat v) := by
  obtain ⟨hsz, hhw, hlen⟩ := hinv
  have hb := offset_bounds img.mHeight img.mWidth img.mChannels row col ch
    hr0 hr1 hc0 hc1 hk0 hk1
  have hlen2 : (d.length : Int) = img.mSize := by simpa [elems, hd] using hlen
  have hlt : (ch * (img.mHeight * img.mWidth) + col * img.mHeight + row).toNat < d.length := by
    have := hb.2
    omega
  refine ⟨by simp [operatorCall, hhw], by simp [operatorCallConst, hhw], hb.1, hlt, ?_, ?_, ?_⟩
  · simp [get, load, operatorCallConst, hd, hhw, hb.1]
  · refine ⟨d[(ch * (img.mHeight * img.mWidth) + col * img.mHeight + row).toNat], ?_⟩
    simp [get, load, operatorCallConst, hd, hhw, hb.1, List.getElem?_eq_getElem hlt]
  · intro v
    simp [set, store, operatorCall, hd, hhw, hb.1]

/-- Witness for C1: the 2x3x2 integer image, coordinate (1,2,1), offset 1*6 + 2*2 + 1 = 11. -/
theorem c1_operatorCall_addresses_offset_witness :
    (newDims 2 3 2 : ImageT Int).operatorCall 1 2 1 = 11 ∧
    (newDims 2 3 2 : ImageT Int).operatorCallConst 1 2 1 = 11 := by
  have h := c1_operatorCall_addresses_offset (newDims 2 3 2 : ImageT Int)
    (List.replicate 12 0) 1 2 1 (by decide) (by decide) (by decide) (by decide) (by decide)
    (by decide) (by decide) (by decide)
  exact ⟨h.1, h.2.1⟩

/-! ## 32-bit products -/

theorem wrapInt_of_inInt (v : Int) (h : InInt v) : wrapInt v = v := by
  obtain ⟨h1, h2⟩ := h
  unfold wrapInt
  omega

theorem inInt_wrapInt (v : Int) : InInt (wrapInt v) := by
  unfold wrapInt InInt
  omega

/-- Reduction to 32 bits ignores multiples of `2^32`. -/
theorem wrapInt_add_mul (v k : Int) : wrapInt (v + 4294967296 * k) = wrapInt v := by
  unfold wrapInt
  have h : v + 4294967296 * k + 2147483648 = v + 2147483648 + 4294967296 * k := by ring
  rw [h, Int.add_mul_emod_self_left]

/-- The product of three `int`s taken left to right in 32 bits is the exact
product reduced to 32 bits. -/
theorem wrapInt_mul3 (a b c : Int) : wrapInt (wrapInt (a * b) * c) = wrapInt (a * b * c) := by
  have h : wrapInt (a * b) = a * b - 4294967296 * ((a * b + 2147483648) / 4294967296) := by
    unfold wrapInt
    have := Int.emod_add_ediv (a * b + 2147483648) 4294967296
    omega
  rw [h]
  have e : (a * b - 4294967296 * ((a * b + 2147483648) / 4294967296)) * c
      = a * b * c + 4294967296 * (-(((a * b + 2147483648) / 4294967296) * c)) := by ring
  rw [e, wrapInt_add_mul]

theorem wrapInt_mul3_of_inInt (a b c : Int) (h : InInt (a * b * c)) :
    wrapInt (wrapInt (a * b) * c) = a * b * c := by
  rw [wrapInt_mul3, wrapInt_of_inInt _ h]

/-- In a consistent image with `int` members and non-negative dimensions the
product of the dimensions, in any order, is taken without wrap. -/
theorem inInt_products (x : ImageT T) (hinv : x.SizeInv) (hrep : x.IntMembers) :
    InInt (x.mHeight * x.mWidth) ∧ InInt (x.mWidth * x.mHeight) ∧
    InInt (x.mHeight * x.mWidth * x.mChannels) ∧ InInt (x.mWidth * x.mHeight * x.mChannels) := by
  obtain ⟨hsz, hhw, _⟩ := hinv
  obtain ⟨_, _, _, r4, r5⟩ := hrep
  have e1 : x.mWidth * x.mHeight = x.mHeight * x.mWidth := mul_comm _ _
  rw [e1, ← hsz, ← hhw]
  exact ⟨r4, r4, r5, r5⟩

/-- Products of the dimensions of a non-empty block inside a consistent image
with `int` members are representable. -/
theorem inInt_sub_products (x : ImageT T) (hx : x.SizeInv) (hrep : x.IntMembers)
    (h w c : Int) (h0 : 0 < h) (h1 : h ≤ x.mHeight) (w0 : 0 < w) (w1 : w ≤ x.mWidth)
    (c0 : 0 < c) (c1 : c ≤ x.mChannels) :
    InInt (w * h) ∧ InInt (w * h * c) := by
  obtain ⟨_, _, _, p4⟩ := inInt_products x hx hrep
  have A : w * h ≤ x.mWidth * x.mHeight := mul_le_mul w1 h1 h0.le (by omega)
  have A0 : 0 < w * h := mul_pos w0 h0
  have B : w * h * c ≤ x.mWidth * x.mHeight * x.mChannels :=
    mul_le_mul A c1 c0.le (by omega)
  have C : w * h ≤ w * h * c := le_mul_of_one_le_right A0.le (by omega)
  have D : 0 < w * h * c := mul_pos A0 c0
  obtain ⟨_, q⟩ := p4
  exact ⟨⟨by omega, by omega⟩, ⟨by omega, by omega⟩⟩

theorem intMembers_zeroImage [Zero T] (H W C : Int) (hH : InInt H) (hW : InInt W)
    (hC : InInt C) (b1 : InInt (W * H)) (b2 : InInt (W * H * C)) :
    (zeroImage H W C : ImageT T).IntMembers :=
  ⟨hH, hW, hC, b1, b2⟩

theorem intMembers_of_sameFrame (s r0 : ImageT T) (h : SameFrame s r0)
    (hr : r0.IntMembers) : s.IntMembers := by
  obtain ⟨f1, f2, f3, f4, f5, _⟩ := h
  obtain ⟨r1, r2, r3, r4, r5⟩ := hr
  exact ⟨by rw [f1]; exact r1, by rw [f2]; exact r2, by rw [f3]; exact r3,
    by rw [f4]; exact r4, by rw [f5]; exact r5⟩

/-! ## Construction and `resetDimensions` -/

theorem forLoop_fill_fresh {T : Type} (v x : T) (n : Int) :
    forLoop n (fun i d => d.set i v) (List.replicate n.toNat x) = List.replicate n.toNat v :=
  forLoop_fill v n _ (by simp)

/-- The object left by `resetDimensions`, when the two products it takes are
representable. -/
theorem resetDimensions_eq_zeroImage [Inhabited T] [Zero T] (img : ImageT T) (h w ch : Int)
    (hb1 : InInt ((if w > 0 then w else img.mWidth) * (if h > 0 then h else img.mHeight)))
    (hb2 : InInt ((if w > 0 then w else img.mWidth) * (if h > 0 then h else img.mHeight)
      * (if ch > 0 then ch else img.mChannels))) :
    img.resetDimensions h w ch
      = zeroImage (if h > 0 then h else img.mHeight) (if w > 0 then w else img.mWidth)
          (if ch > 0 then ch else img.mChannels) := by
  have key : ∀ (H W C : Int), InInt (W * H) → InInt (W * H * C) →
      (let s : ImageT T := ImageT.mk H W C img.mHeightTimesWidth img.mSize none
       let s := { s with mSize := wrapInt (wrapInt (s.mWidth * s.mHeight) * s.mChannels) }
       let s :=
         if s.mSize > 0 then
           match newArray s.mSize with
           | none => { s with mHeight := 0, mWidth := 0, mChannels := 0, mSize := 0 }
           | some d => { s with mData := some (forLoop s.mSize (fun i d => d.set i 0) d) }
         else s
       ({ s with mHeightTimesWidth := wrapInt (s.mWidth * s.mHeight) } : ImageT T))
        = zeroImage H W C := by
    intro H W C b1 b2
    simp only [wrapInt_of_inInt _ b1, wrapInt_of_inInt _ b2, zeroImage, newArray,
      forLoop_fill_fresh]
    split_ifs <;> simp only [wrapInt_of_inInt _ b1]
  have := key (if h > 0 then h else img.mHeight) (if w > 0 then w else img.mWidth)
    (if ch > 0 then ch else img.mChannels) hb1 hb2
  rw [← this]
  by_cases hh : h > 0 <;> by_cases hw : w > 0 <;> by_cases hc : ch > 0 <;>
    simp only [resetDimensions, hh, hw, hc, if_true, if_false]

/-- The object built by the constructor, when the two products it takes are
representable. -/
theorem newDims_eq_zeroImage [Inhabited T] [Zero T] (h w ch : Int)
    (hb1 : InInt ((if w > 0 then w else 0) * (if h > 0 then h else 0)))
    (hb2 : InInt ((if w > 0 then w else 0) * (if h > 0 then h else 0)
      * (if ch > 0 then ch else 0))) :
    (newDims h w ch : ImageT T)
      = zeroImage (if h > 0 then h else 0) (if w > 0 then w else 0) (if ch > 0 then ch else 0) := by
  have key : ∀ (H W C : Int), InInt (W * H) → InInt (W * H * C) →
      (let s : ImageT T := ImageT.mk H W C 0 0 none
       let s := { s with mSize := wrapInt (wrapInt (s.mWidth * s.mHeight) * s.mChannels) }
       let s :=
         if s.mSize > 0 then
           match newArray s.mSize with
           | none =>
             { s with mHeight := 0, mWidth := 0, mChannels := 0, mSize := 0, mData := none }
           | some d => { s with mData := some (forLoop s.mSize (fun i d => d.set i 0) d) }
         else s
       ({ s with mHeightTimesWidth := wrapInt (s.mWidth * s.mHeight) } : ImageT T))
        = zeroImage H W C := by
    intro H W C b1 b2
    simp only [wrapInt_of_inInt _ b1, wrapInt_of_inInt _ b2, zeroImage, newArray,
      forLoop_fill_fresh]
    split_ifs <;> simp only [wrapInt_of_inInt _ b1]
  have := key (if h > 0 then h else 0) (if w > 0 then w else 0)
    (if ch > 0 then ch else 0) hb1 hb2
  rw [← this]
  by_cases hh : h > 0 <;> by_cases hw : w > 0 <;> by_cases hc : ch > 0 <;>
    simp only [newDims, new, hh, hw, hc, if_true, if_false]

theorem resetDimensions_new [Inhabited T] [Zero T] (h w c : Int)
    (hh : 0 ≤ h) (hw : 0 ≤ w) (hc : 0 ≤ c) (hb1 : InInt (w * h)) (hb2 : InInt (w * h * c)) :
    (new : ImageT T).resetDimensions h w c = zeroImage h w c := by
  have e1 : (if h > 0 then h else (new : ImageT T).mHeight) = h := by
    split_ifs with hgt
    · rfl
    · simp only [new]
      omega
  have e2 : (if w > 0 then w else (new : ImageT T).mWidth) = w := by
    split_ifs with hgt
    · rfl
    · simp only [new]
      omega
  have e3 : (if c > 0 then c else (new : ImageT T).mChannels) = c := by
    split_ifs with hgt
    · rfl
    · simp only [new]
      omega
  rw [resetDimensions_eq_zeroImage _ _ _ _ (by rw [e1, e2]; exact hb1)
    (by rw [e1, e2, e3]; exact hb2), e1, e2, e3]

theorem newDims_of_nonneg [Inhabited T] [Zero T] (h w c : Int)
    (hh : 0 ≤ h) (hw : 0 ≤ w) (hc : 0 ≤ c) (hb1 : InInt (w * h)) (hb2 : InInt (w * h * c)) :
    (newDims h w c : ImageT T) = zeroImage h w c := by
  have e1 : (if h > 0 then h else 0) = h := by
    split_ifs with hgt
    · rfl
    · omega
  have e2 : (if w > 0 then w else 0) = w := by
    split_ifs with hgt
    · rfl
    · omega
  have e3 : (if c > 0 then c else 0) = c := by
    split_ifs with hgt
    · rfl
    · omega
  rw [newDims_eq_zeroImage _ _ _ (by rw [e1, e2]; exact hb1)
    (by rw [e1, e2, e3]; exact hb2), e1, e2, e3]

/-- For positive dimensions whose product is representable, so is the product
of the first two. -/
theorem inInt_of_pos_product (h w ch : Int) (hh : 0 < h) (hw : 0 < w) (hc : 0 < ch)
    (hb : h * w * ch ≤ 2147483647) : InInt (w * h) ∧ InInt (w * h * ch) := by
  have hp : 0 < w * h := mul_pos hw hh
  have hle : w * h ≤ w * h * ch := by nlinarith
  have he : w * h * ch = h * w * ch := by ring
  unfold InInt
  refine ⟨⟨by omega, by omega⟩, ⟨?_, by omega⟩⟩
  have : 0 < w * h * ch := mul_pos hp hc
  omega

/-- C2 (counterexample to the claim as written): `ImageT<int>(65536,65536,1)`.
The constructor takes `mSize = mWidth*mHeight*mChannels` in 32-bit `int`;
`65536*65536` is `2^32`, which is 0 in 32 bits, so the size is 0, no buffer is
allocated and the image reports height and width 65536 with no element,
not `2^32` zeros. -/
theorem c2_newDims_wrap_counterexample :
    (newDims 65536 65536 1 : ImageT Int).mHeight = 65536 ∧
    (newDims 65536 65536 1 : ImageT Int).mWidth = 65536 ∧
    (newDims 65536 65536 1 : ImageT Int).mChannels = 1 ∧
    (newDims 65536 65536 1 : ImageT Int).mSize = 0 ∧
    (newDims 65536 65536 1 : ImageT Int).mData = none := by
  decide

/-- C2 (amended): for all h, w, ch > 0 whose product h*w*ch is at most
`2^31 - 1`, the image built by `ImageT(h,w,ch)` reports height h, width w and
channels ch, its size member and its buffer both count h*w*ch elements, and
every element is the scalar zero. -/
theorem c2_newDims_zero_filled [Inhabited T] [Zero T] (h w ch : Int)
    (hh : 0 < h) (hw : 0 < w) (hc : 0 < ch) (hb : h * w * ch ≤ 2147483647) :
    (newDims h w ch : ImageT T).mHeight = h ∧
    (newDims h w ch : ImageT T).mWidth = w ∧
    (newDims h w ch : ImageT T).mChannels = ch ∧
    (newDims h w ch : ImageT T).mSize = h * w * ch ∧
    ((newDims h w ch : ImageT T).elems.length : Int) = h * w * ch ∧
    (newDims h w ch : ImageT T).mData = some (List.replicate (h * w * ch).toNat 0) ∧
    ∀ x ∈ (newDims h w ch : ImageT T).elems, x = 0 := by
  have hp : 0 < w * h * ch := mul_pos (mul_pos hw hh) hc
  have he : w * h * ch = h * w * ch := by ring
  obtain ⟨b1, b2⟩ := inInt_of_pos_product h w ch hh hw hc hb
  have hE : (newDims h w ch : ImageT T) = zeroImage h w ch :=
    newDims_of_nonneg h w ch hh.le hw.le hc.le b1 b2
  have hdata : (newDims h w ch : ImageT T).mData
      = some (List.replicate (h * w * ch).toNat 0) := by
    have hp2 : 0 < h * w * ch := by rw [← he]; exact hp
    rw [hE]
    simp only [zeroImage, he, hp2, gt_iff_lt, if_true]
  refine ⟨?_, ?_, ?_, ?_, ?_, hdata, ?_⟩
  · rw [hE]; rfl
  · rw [hE]; rfl
  · rw [hE]; rfl
  · rw [hE]; exact he
  · have : 0 ≤ h * w * ch := by rw [← he]; exact hp.le
    simp [elems, hdata, Int.toNat_of_nonneg this]
  · intro x hx
    simp only [elems, hdata, Option.getD_some] at hx
    exact List.eq_of_mem_replicate hx

/-- Witness for C2: the 2x3x1 integer image. -/
theorem c2_newDims_zero_filled_witness :
    (newDims 2 3 1 : ImageT Int).mSize = 6 ∧
    (newDims 2 3 1 : ImageT Int).mData = some [0, 0, 0, 0, 0, 0] := by
  have h := @c2_newDims_zero_filled Int _ _ 2 3 1 (by decide) (by decide) (by decide)
    (by decide)
  exact ⟨h.2.2.2.1, h.2.2.2.2.2.1⟩

/-- C6 (counterexample to the claim as written): `resetDimensions(65536,65536,1)`
on the default-constructed image.  The size `mWidth*mHeight*mChannels` is taken
in 32-bit `int` and `2^32` is 0 there: the image is left with height and width
65536, size 0 and no buffer. -/
theorem c6_resetDimensions_wrap_counterexample :
    ((new : ImageT Int).resetDimensions 65536 65536 1).mHeight = 65536 ∧
    ((new : ImageT Int).resetDimensions 65536 65536 1).mWidth = 65536 ∧
    ((new : ImageT Int).resetDimensions 65536 65536 1).mChannels = 1 ∧
    ((new : ImageT Int).resetDimensions 65536 65536 1).mSize = 0 ∧
    ((new : ImageT Int).resetDimensions 65536 65536 1).mData = none := by
  decide

/-- C6 (amended): from any prior state and for all h, w, ch > 0 whose product
h*w*ch is at most `2^31 - 1`, `resetDimensions(h,w,ch)` leaves an image of
shape (h,w,ch) and size h*w*ch whose buffer holds h*w*ch zeros, whatever the
image held before. -/
theorem c6_resetDimensions_positive [Inhabited T] [Zero T] (img : ImageT T) (h w ch : Int)
    (hh : 0 < h) (hw : 0 < w) (hc : 0 < ch) (hb : h * w * ch ≤ 2147483647) :
    (img.resetDimensions h w ch).mHeight = h ∧
    (img.resetDimensions h w ch).mWidth = w ∧
    (img.resetDimensions h w ch).mChannels = ch ∧
    (img.resetDimensions h w ch).mHeightTimesWidth = h * w ∧
    (img.resetDimensions h w ch).mSize = h * w * ch ∧
    (img.resetDimensions h w ch).mData = some (List.replicate (h * w * ch).toNat 0) ∧
    ((img.resetDimensions h w ch).elems.length : Int) = h * w * ch ∧
    ∀ x ∈ (img.resetDimensions h w ch).elems, x = 0 := by
  have hp : 0 < w * h * ch := mul_pos (mul_pos hw hh) hc
  have he : w * h * ch = h * w * ch := by ring
  obtain ⟨b1, b2⟩ := inInt_of_pos_product h w ch hh hw hc hb
  have hE : img.resetDimensions h w ch = zeroImage h w ch := by
    have h1 : (if h > 0 then h else img.mHeight) = h := if_pos hh
    have h2 : (if w > 0 then w else img.mWidth) = w := if_pos hw
    have h3 : (if ch > 0 then ch else img.mChannels) = ch := if_pos hc
    rw [resetDimensions_eq_zeroImage img h w ch (by rw [h1, h2]; exact b1)
      (by rw [h1, h2, h3]; exact b2), h1, h2, h3]
  have hdata : (img.resetDimensions h w ch).mData
      = some (List.replicate (h * w * ch).toNat 0) := by
    have hp2 : 0 < h * w * ch := by rw [← he]; exact hp
    rw [hE]
    simp only [zeroImage, he, hp2, gt_iff_lt, if_true]
  refine ⟨?_, ?_, ?_, ?_, ?_, hdata, ?_, ?_⟩
  · rw [hE]; rfl
  · rw [hE]; rfl
  · rw [hE]; rfl
  · rw [hE]; exact mul_comm w h
  · rw [hE]; exact he
  · have : 0 ≤ h * w * ch := by rw [← he]; exact hp.le
    simp [elems, hdata, Int.toNat_of_nonneg this]
  · intro x hx
    simp only [elems, hdata, Option.getD_some] at hx
    exact List.eq_of_mem_replicate hx

/-- Witness for C6: a 1x2x1 image holding 7 and 9 is reset to 2x2x1. -/
theorem c6_resetDimensions_positive_witness :
    ((ImageT.mk 1 2 1 2 2 (some [7, 9]) : ImageT Int).resetDimensions 2 2 1).mData
      = some [0, 0, 0, 0] := by
  have h := c6_resetDimensions_positive (ImageT.mk 1 2 1 2 2 (some [7, 9]) : ImageT Int)
    2 2 1 (by decide) (by decide) (by decide) (by decide)
  exact h.2.2.2.2.2.1

/-! ## The size equations -/

theorem sizeInv_zeroImage [Zero T] (H W C : Int) (hnn : 0 ≤ W * H * C) :
    (zeroImage H W C : ImageT T).SizeInv := by
  refine ⟨by simp only [zeroImage]; ring, by simp only [zeroImage]; ring, ?_⟩
  by_cases hp : W * H * C > 0
  · simp [zeroImage, elems, hp, Int.toNat_of_nonneg hnn]
  · have h0 : W * H * C = 0 := by omega
    simp [zeroImage, elems, h0]

theorem sizeInv_new : (new : ImageT T).SizeInv := by
  simp [SizeInv, new, elems]

/-- The constructor establishes the size equations when the products it takes
are representable. -/
theorem sizeInv_newDims [Inhabited T] [Zero T] (h w ch : Int)
    (hb1 : InInt ((if w > 0 then w else 0) * (if h > 0 then h else 0)))
    (hb2 : InInt ((if w > 0 then w else 0) * (if h > 0 then h else 0)
      * (if ch > 0 then ch else 0))) :
    (newDims h w ch : ImageT T).SizeInv := by
  rw [newDims_eq_zeroImage h w ch hb1 hb2]
  apply sizeInv_zeroImage
  split_ifs <;> positivity

/-- From a state with non-negative dimensions `resetDimensions` re-establishes
the size equations, when the products it takes are representable. -/
theorem sizeInv_resetDimensions [Inhabited T] [Zero T] (img : ImageT T) (h w ch : Int)
    (hnn : img.NonNegDims)
    (hb1 : InInt ((if w > 0 then w else img.mWidth) * (if h > 0 then h else img.mHeight)))
    (hb2 : InInt ((if w > 0 then w else img.mWidth) * (if h > 0 then h else img.mHeight)
      * (if ch > 0 then ch else img.mChannels))) :
    (img.resetDimensions h w ch).SizeInv := by
  obtain ⟨h0, w0, c0⟩ := hnn
  rw [resetDimensions_eq_zeroImage img h w ch hb1 hb2]
  apply sizeInv_zeroImage
  split_ifs <;> positivity

/-- A `reshape` whose products are representable keeps the size equations. -/
theorem sizeInv_reshape (img : ImageT T) (h w ch : Int) (hinv : img.SizeInv)
    (hb1 : InInt (w * h)) (hb2 : InInt (h * w * ch)) :
    (img.reshape h w ch).SizeInv := by
  obtain ⟨hsz, hhw, hlen⟩ := hinv
  unfold reshape
  split_ifs with hp
  · rw [wrapInt_mul3_of_inInt h w ch hb2] at hp
    refine ⟨hp.symm, ?_, ?_⟩
    · simp only [wrapInt_of_inInt _ hb1]
      exact mul_comm w h
    · simpa [elems] using hlen
  · exact ⟨hsz, hhw, hlen⟩

theorem sizeInv_opAssign [Inhabited T] (self rhs : ImageT T) (same : Bool)
    (hs : self.SizeInv) (hr : rhs.SizeInv) : (self.opAssign rhs same).SizeInv := by
  obtain ⟨rsz, rhw, rlen⟩ := hr
  unfold opAssign
  cases same
  · simp only [Bool.false_eq_true, if_false]
    cases hrd : rhs.mData with
    | none => exact hs
    | some src =>
      simp only
      have hsl : (src.length : Int) = rhs.mSize := by simpa [elems, hrd] using rlen
      split_ifs with hpos hne
      · simp only [newArray]
        rw [forLoop_copy src _ rhs.mSize (by simp) (by omega)]
        exact ⟨rsz, rhw, by simpa [elems] using hsl⟩
      · have heq : self.mSize = rhs.mSize := by simpa using hne
        cases hsd : self.mData with
        | none =>
          obtain ⟨_, _, slen⟩ := hs
          simp [elems, hsd] at slen
          omega
        | some d =>
          obtain ⟨_, _, slen⟩ := hs
          have hdl : (d.length : Int) = self.mSize := by simpa [elems, hsd] using slen
          simp only
          rw [forLoop_copy src d self.mSize (by omega) (by omega)]
          exact ⟨by rw [heq]; exact rsz, rhw, by simpa [elems, heq] using hsl⟩
      · exact hs
  · simpa using hs

theorem sizeInv_newCopy [Inhabited T] [Zero T] (src : ImageT T) (copyData : Bool)
    (hs : src.SizeInv) : (newCopy src copyData).SizeInv := by
  obtain ⟨hsz, hhw, hlen⟩ := hs
  unfold newCopy
  cases hd : src.mData with
  | none => exact sizeInv_new
  | some d =>
    have hdl : (d.length : Int) = src.mSize := by simpa [elems, hd] using hlen
    simp only [newArray]
    split_ifs with hpos hc
    · rw [forLoop_copy d _ src.mSize (by simp) (by omega)]
      exact ⟨hsz, hhw, by simpa [elems] using hdl⟩
    · rw [forLoop_fill_fresh]
      refine ⟨hsz, hhw, ?_⟩
      simp only [elems, Option.getD_some, List.length_replicate]
      omega
    · exact sizeInv_new

/-- C3 (evaluation at the failing input): the 2x3x1 image reshaped to
(-2,-3,1) satisfies the three size equations; after `resetDimensions(0,4,1)`
the height is still -2, `mSize` is 4*(-2)*1 = -8 and no buffer is allocated, so
the buffer length 0 differs from `mSize`. -/
theorem c3_resetDimensions_breaks_sizeInv :
    ((newDims 2 3 1 : ImageT Int).reshape (-2) (-3) 1).SizeInv ∧
    (((newDims 2 3 1 : ImageT Int).reshape (-2) (-3) 1).resetDimensions 0 4 1).mSize = -8 ∧
    (((newDims 2 3 1 : ImageT Int).reshape (-2) (-3) 1).resetDimensions 0 4 1).mData = none ∧
    ¬ (((newDims 2 3 1 : ImageT Int).reshape (-2) (-3) 1).resetDimensions 0 4 1).SizeInv := by
  decide

/-- C4 (evaluation at the failing input): `reshape(-2,-3,1)` on the 2x3x1
image passes the product test (6 == 6) and stores height -2 and width -3. -/
theorem c4_reshape_stores_negative_dims :
    (newDims 2 3 1 : ImageT Int).NonNegDims ∧
    ((newDims 2 3 1 : ImageT Int).reshape (-2) (-3) 1).mHeight = -2 ∧
    ((newDims 2 3 1 : ImageT Int).reshape (-2) (-3) 1).mWidth = -3 ∧
    ¬ ((newDims 2 3 1 : ImageT Int).reshape (-2) (-3) 1).NonNegDims := by
  decide

/-- C5 (evaluation at the failing input): `resetDimensions(0,5,1)` on the
non-empty 2x3x1 image keeps the old height 2 (the `else` branch clears the
parameter, not the member) and allocates 5*2*1 = 10 zeros. -/
theorem c5_resetDimensions_keeps_old_dimension :
    ((newDims 2 3 1 : ImageT Int).resetDimensions 0 5 1).mHeight = 2 ∧
    ((newDims 2 3 1 : ImageT Int).resetDimensions 0 5 1).mSize = 10 ∧
    ((newDims 2 3 1 : ImageT Int).resetDimensions 0 5 1).mData
      = some [0, 0, 0, 0, 0, 0, 0, 0, 0, 0] := by
  decide

/-! ## Non-negative dimensions -/

theorem nonNegDims_newDims [Inhabited T] [Zero T] (h w ch : Int) :
    (newDims h w ch : ImageT T).NonNegDims := by
  by_cases hh : h > 0 <;> by_cases hw : w > 0 <;> by_cases hc : ch > 0 <;>
    simp only [newDims, new, hh, hw, hc, if_true, if_false, newArray, NonNegDims] <;>
    split_ifs <;> refine ⟨?_, ?_, ?_⟩ <;> simp only <;> omega

theorem nonNegDims_resetDimensions [Inhabited T] [Zero T] (img : ImageT T) (h w ch : Int)
    (hnn : img.NonNegDims) : (img.resetDimensions h w ch).NonNegDims := by
  obtain ⟨h0, w0, c0⟩ := hnn
  by_cases hh : h > 0 <;> by_cases hw : w > 0 <;> by_cases hc : ch > 0 <;>
    simp only [resetDimensions, hh, hw, hc, if_true, if_false, newArray, NonNegDims] <;>
    split_ifs <;> refine ⟨?_, ?_, ?_⟩ <;> simp only <;> omega

theorem nonNegDims_reshape (img : ImageT T) (h w ch : Int) (hnn : img.NonNegDims)
    (hh : 0 ≤ h) (hw : 0 ≤ w) (hc : 0 ≤ ch) : (img.reshape h w ch).NonNegDims := by
  unfold reshape
  split_ifs
  · exact ⟨hh, hw, hc⟩
  · exact hnn

/-! ## `reshape` -/

/-- C7: for an image x with consistent `int` members and every (h2,w2,c2)
whose product equals the element count of x, `x.reshape(h2,w2,c2)` has shape
(h2,w2,c2) and the buffer of x, and reshaping back to the original dimensions
gives x again: same shape, same buffer (order and values). -/
theorem c7_reshape_there_and_back (x : ImageT T) (h2 w2 c2 : Int) (hinv : x.SizeInv)
    (hrep : x.IntMembers)
    (hprod : h2 * w2 * c2 = x.mHeight * x.mWidth * x.mChannels) :
    (x.reshape h2 w2 c2).mHeight = h2 ∧
    (x.reshape h2 w2 c2).mWidth = w2 ∧
    (x.reshape h2 w2 c2).mChannels = c2 ∧
    (x.reshape h2 w2 c2).mData = x.mData ∧
    ((x.reshape h2 w2 c2).reshape x.mHeight x.mWidth x.mChannels).mHeight = x.mHeight ∧
    ((x.reshape h2 w2 c2).reshape x.mHeight x.mWidth x.mChannels).mWidth = x.mWidth ∧
    ((x.reshape h2 w2 c2).reshape x.mHeight x.mWidth x.mChannels).mChannels = x.mChannels ∧
    ((x.reshape h2 w2 c2).reshape x.mHeight x.mWidth x.mChannels).mData = x.mData ∧
    (x.reshape h2 w2 c2).reshape x.mHeight x.mWidth x.mChannels = x := by
  obtain ⟨p1, p2, p3, p4⟩ := inInt_products x hinv hrep
  obtain ⟨hsz, hhw, _⟩ := hinv
  have h1 : wrapInt (wrapInt (h2 * w2) * c2) = x.mSize := by
    rw [wrapInt_mul3, hprod, wrapInt_of_inInt _ p3, hsz]
  have hstep : x.reshape h2 w2 c2
      = ImageT.mk h2 w2 c2 (wrapInt (w2 * h2)) x.mSize x.mData := by
    simp only [reshape, h1, if_true]
  have h3 : wrapInt (wrapInt (x.mHeight * x.mWidth) * x.mChannels) = x.mSize := by
    rw [wrapInt_mul3, wrapInt_of_inInt _ p3, hsz]
  have hback : (x.reshape h2 w2 c2).reshape x.mHeight x.mWidth x.mChannels = x := by
    rw [hstep]
    simp only [reshape, h3, if_true, wrapInt_of_inInt _ p2]
    cases x
    simp_all [mul_comm]
  refine ⟨?_, ?_, ?_, ?_, ?_, ?_, ?_, ?_, hback⟩
  · rw [hstep]
  · rw [hstep]
  · rw [hstep]
  · rw [hstep]
  · rw [hback]
  · rw [hback]
  · rw [hback]
  · rw [hback]

/-- Witness for C7: a 2x3x1 image holding 1..6 reshaped to 3x2x1 and back. -/
theorem c7_reshape_there_and_back_witness :
    ((ImageT.mk 2 3 1 6 6 (some [1, 2, 3, 4, 5, 6]) : ImageT Int).reshape 3 2 1).reshape 2 3 1
      = ImageT.mk 2 3 1 6 6 (some [1, 2, 3, 4, 5, 6]) :=
  (c7_reshape_there_and_back (ImageT.mk 2 3 1 6 6 (some [1, 2, 3, 4, 5, 6]) : ImageT Int)
    3 2 1 (by decide) (by decide) (by decide)).2.2.2.2.2.2.2.2

/-- C8 (counterexample to the claim as written): `reshape(65536,65536,1)` on
the default-constructed image.  The product `65536*65536*1 = 2^32` differs
from the size 0, but the guard takes it in 32-bit `int`, where it is 0, so
the test passes and height and width 65536 are stored. -/
theorem c8_reshape_wrap_counterexample :
    (65536 * 65536 * 1 : Int) ≠ (new : ImageT Int).mSize ∧
    ((new : ImageT Int).reshape 65536 65536 1).mHeight = 65536 ∧
    ((new : ImageT Int).reshape 65536 65536 1).mWidth = 65536 ∧
    (new : ImageT Int).mHeight = 0 := by
  decide

/-- C8 (amended): when the product h*w*ch is representable as a 32-bit `int`
and differs from the current `mSize`, `reshape(h,w,ch)` returns the object
unchanged: height, width, channels, size and every element are as before. -/
theorem c8_reshape_mismatch_noop (x : ImageT T) (h w ch : Int) (hrep : InInt (h * w * ch))
    (hne : h * w * ch ≠ x.mSize) :
    x.reshape h w ch = x := by
  have hg : ¬ (wrapInt (wrapInt (h * w) * ch) = x.mSize) := by
    rw [wrapInt_mul3_of_inInt h w ch hrep]
    exact hne
  simp only [reshape, hg, if_false]

/-- Witness for C8: reshaping a 2x3x1 image to 4x2x1 (8 elements, not 6). -/
theorem c8_reshape_mismatch_noop_witness :
    (ImageT.mk 2 3 1 6 6 (some [1, 2, 3, 4, 5, 6]) : ImageT Int).reshape 4 2 1
      = ImageT.mk 2 3 1 6 6 (some [1, 2, 3, 4, 5, 6]) :=
  c8_reshape_mismatch_noop (ImageT.mk 2 3 1 6 6 (some [1, 2, 3, 4, 5, 6]) : ImageT Int)
    4 2 1 (by decide) (by decide)

/-! ## Compound and binary arithmetic on mismatching shapes -/

/-- C9: when the (height, width, channels) triples of a and b differ in some
component, each of `a += b`, `a -= b`, `a *= b`, `a /= b` returns a unchanged
(shape and every element); b is a `const &` operand and is not written. -/
theorem c9_compound_mismatch_noop [Add T] [Sub T] [Mul T] [Div T] (a b : ImageT T)
    (hne : (a.mHeight, a.mWidth, a.mChannels) ≠ (b.mHeight, b.mWidth, b.mChannels)) :
    a.opAddAssign b = a ∧ a.opSubAssign b = a ∧ a.opMulAssign b = a ∧ a.opDivAssign b = a := by
  have hs : sameShape a b = false := by
    simp only [sameShape, Bool.and_eq_false_iff, decide_eq_false_iff_not]
    by_contra hcon
    push_neg at hcon
    exact hne (by rw [hcon.1.1, hcon.1.2, hcon.2])
  simp [opAddAssign, opSubAssign, opMulAssign, opDivAssign, hs]

/-- Witness for C9: shapes (2,3,1) and (3,2,1), both with six elements. -/
theorem c9_compound_mismatch_noop_witness :
    (ImageT.mk 2 3 1 6 6 (some [1, 2, 3, 4, 5, 6]) : ImageT Int).opAddAssign
        (ImageT.mk 3 2 1 6 6 (some [1, 1, 1, 1, 1, 1]))
      = ImageT.mk 2 3 1 6 6 (some [1, 2, 3, 4, 5, 6]) :=
  (c9_compound_mismatch_noop (ImageT.mk 2 3 1 6 6 (some [1, 2, 3, 4, 5, 6]) : ImageT Int)
    (ImageT.mk 3 2 1 6 6 (some [1, 1, 1, 1, 1, 1])) (by decide)).1

/-- C10: for a non-empty image a with consistent members and an image b whose
shape differs from the shape of a, the binary sum a + b is an image with the
shape of a whose buffer equals the buffer of a element for element; a itself
is a `const &` operand and is not written. -/
theorem c10_opAdd_mismatch_returns_left [Inhabited T] [Add T] (a b : ImageT T) (d : List T)
    (hinv : a.SizeInv) (hd : a.mData = some d) (hpos : 0 < a.mSize)
    (hne : (a.mHeight, a.mWidth, a.mChannels) ≠ (b.mHeight, b.mWidth, b.mChannels)) :
    (opAdd a b).mHeight = a.mHeight ∧ (opAdd a b).mWidth = a.mWidth ∧
    (opAdd a b).mChannels = a.mChannels ∧ (opAdd a b).mSize = a.mSize ∧
    (opAdd a b).elems = a.elems ∧ opAdd a b = a := by
  have hlen : (d.length : Int) = a.mSize := by simpa [elems, hd] using hinv.2.2
  have hcopy : (new : ImageT T).opAssign a false = a := by
    have hne0 : (0 : Int) ≠ a.mSize := by omega
    simp only [opAssign, Bool.false_eq_true, if_false, hd, hpos, gt_iff_lt, if_true, new,
      ne_eq, hne0, not_false_eq_true, newArray]
    rw [forLoop_copy d _ a.mSize (by simp) (by omega)]
    cases a
    simp_all
  have hs : sameShape a b = false := by
    simp only [sameShape, Bool.and_eq_false_iff, decide_eq_false_iff_not]
    by_contra hcon
    push_neg at hcon
    exact hne (by rw [hcon.1.1, hcon.1.2, hcon.2])
  have hres : opAdd a b = a := by
    simp [opAdd, hcopy, opAddAssign, hs]
  rw [hres]
  exact ⟨rfl, rfl, rfl, rfl, rfl, rfl⟩

/-- Witness for C10: shapes (2,2,1) and (3,3,1). -/
theorem c10_opAdd_mismatch_returns_left_witness :
    opAdd (ImageT.mk 2 2 1 4 4 (some [1, 2, 3, 4]) : ImageT Int) (newDims 3 3 1)
      = ImageT.mk 2 2 1 4 4 (some [1, 2, 3, 4]) :=
  (c10_opAdd_mismatch_returns_left (ImageT.mk 2 2 1 4 4 (some [1, 2, 3, 4]) : ImageT Int)
    (newDims 3 3 1) [1, 2, 3, 4] (by decide) rfl (by decide) (by decide)).2.2.2.2.2

end ImageT

end Openvis3d

namespace Openvis3d

/-! ## Reasoning about counted loops -/

theorem foldl_induct {σ α : Type} (P : σ → Prop) (g : σ → α → σ) :
    ∀ (l : List α) (s : σ), (∀ x s, x ∈ l → P s → P (g s x)) → P s → P (l.foldl g s) := by
  intro l
  induction l with
  | nil => intro s _ hs; simpa using hs
  | cons x xs ih =>
    intro s h hs
    rw [List.foldl_cons]
    exact ih _ (fun y t hy ht => h y t (List.mem_cons_of_mem _ hy) ht)
      (h x s (List.mem_cons_self _ _) hs)

theorem foldl_establish {σ α : Type} (R Q : σ → Prop) (g : σ → α → σ) (x0 : α) :
    ∀ (l : List α) (s : σ), x0 ∈ l →
      (∀ x s, x ∈ l → R s → R (g s x)) →
      (∀ x s, x ∈ l → R s → Q s → Q (g s x)) →
      (∀ s, R s → Q (g s x0)) → R s → Q (l.foldl g s) := by
  intro l
  induction l with
  | nil => intro s hx; simp at hx
  | cons x xs ih =>
    intro s hx hR hQ hE hs
    rw [List.foldl_cons]
    have hRx : R (g s x) := hR x s (List.mem_cons_self _ _) hs
    by_cases hmem : x0 ∈ xs
    · exact ih _ hmem (fun y t hy => hR y t (List.mem_cons_of_mem _ hy))
        (fun y t hy => hQ y t (List.mem_cons_of_mem _ hy)) hE hRx
    · have hxe : x0 = x := by
        rcases List.mem_cons.mp hx with h | h
        · exact h
        · exact absurd h hmem
      have hQx : Q (g s x) := by rw [← hxe]; exact hE s hs
      have hboth : R (xs.foldl g (g s x)) ∧ Q (xs.foldl g (g s x)) :=
        foldl_induct (fun t => R t ∧ Q t) g xs (g s x)
          (fun y t hy ht => ⟨hR y t (List.mem_cons_of_mem _ hy) ht.1,
            hQ y t (List.mem_cons_of_mem _ hy) ht.1 ht.2⟩) ⟨hRx, hQx⟩
      exact hboth.2

/-- Invariant rule for the counted loop. -/
theorem forLoop_induct {σ : Type} (P : σ → Prop) (n : Int) (body : Nat → σ → σ)
    (h : ∀ (i : Nat) s, (i : Int) < n → P s → P (body i s)) (s : σ) (hs : P s) :
    P (forLoop n body s) := by
  unfold forLoop
  refine foldl_induct P _ _ s (fun i t hi ht => h i t ?_ ht) hs
  have := List.mem_range.mp hi
  omega

/-- A fact `Q` established by iteration `i0` and kept by every iteration holds
after the loop; `R` is an invariant the iterations may rely on. -/
theorem forLoop_establish {σ : Type} (R Q : σ → Prop) (n : Int) (body : Nat → σ → σ)
    (i0 : Nat) (hi0 : (i0 : Int) < n)
    (hR : ∀ (i : Nat) s, (i : Int) < n → R s → R (body i s))
    (hQ : ∀ (i : Nat) s, (i : Int) < n → R s → Q s → Q (body i s))
    (hE : ∀ s, R s → Q (body i0 s)) (s : σ) (hs : R s) :
    Q (forLoop n body s) := by
  unfold forLoop
  have hlt : ∀ i, i ∈ List.range n.toNat → (i : Int) < n := by
    intro i hi
    have := List.mem_range.mp hi
    omega
  exact foldl_establish R Q _ i0 _ s (List.mem_range.mpr (by omega))
    (fun i t hi => hR i t (hlt i hi)) (fun i t hi => hQ i t (hlt i hi)) hE hs

/-- Accumulation loop `for(i=0;i<n;i++) acc += g(i);` in a commutative monoid. -/
theorem forLoop_sum {M : Type} [AddCommMonoid M] (n : Int) (g : Nat → M) (a : M) :
    forLoop n (fun i acc => acc + g i) a = a + ∑ i ∈ Finset.range n.toNat, g i := by
  unfold forLoop
  generalize n.toNat = m
  induction m with
  | zero => simp
  | succ m ih =>
    rw [List.range_succ, List.foldl_append, ih, Finset.sum_range_succ]
    simp [add_assoc]

/-- Two loops with bodies that agree on the iterations they run are equal. -/
theorem forLoop_congr {σ : Type} (n : Int) (b1 b2 : Nat → σ → σ)
    (h : ∀ (i : Nat) s, (i : Int) < n → b1 i s = b2 i s) (s : σ) :
    forLoop n b1 s = forLoop n b2 s := by
  unfold forLoop
  have hlt : ∀ i, i ∈ List.range n.toNat → (i : Int) < n := by
    intro i hi
    have := List.mem_range.mp hi
    omega
  generalize List.range n.toNat = l at hlt
  induction l generalizing s with
  | nil => rfl
  | cons x xs ih =>
    simp only [List.foldl_cons]
    rw [h x s (hlt x (List.mem_cons_self _ _))]
    exact ih _ (fun i hi => hlt i (List.mem_cons_of_mem _ hi))

end Openvis3d

namespace Openvis3d

namespace ImageT

variable {T : Type}

/-! ## Pixel reads and writes -/

theorem divmod_unique (m a a' r r' : Int) (hr0 : 0 ≤ r) (hr1 : r < m)
    (hs0 : 0 ≤ r') (hs1 : r' < m) (h : a * m + r = a' * m + r') : a = a' ∧ r = r' := by
  have hm : 0 < m := by omega
  rcases lt_trichotomy a a' with hlt | heq | hgt
  · have h1 : (a + 1) * m ≤ a' * m := mul_le_mul_of_nonneg_right (by omega) hm.le
    have h2 : (a + 1) * m = a * m + m := by ring
    omega
  · subst heq
    exact ⟨rfl, by omega⟩
  · have h1 : (a' + 1) * m ≤ a * m := mul_le_mul_of_nonneg_right (by omega) hm.le
    have h2 : (a' + 1) * m = a' * m + m := by ring
    omega

/-- Distinct coordinates inside the image have distinct offsets. -/
theorem offset_inj (H W : Int) (i j k i2 j2 k2 : Int)
    (hi0 : 0 ≤ i) (hi1 : i < H) (hj0 : 0 ≤ j) (hj1 : j < W)
    (hi20 : 0 ≤ i2) (hi21 : i2 < H) (hj20 : 0 ≤ j2) (hj21 : j2 < W)
    (h : k * (H * W) + j * H + i = k2 * (H * W) + j2 * H + i2) :
    i = i2 ∧ j = j2 ∧ k = k2 := by
  have h1 : (k * W + j) * H + i = (k2 * W + j2) * H + i2 := by
    have e1 : (k * W + j) * H + i = k * (H * W) + j * H + i := by ring
    have e2 : (k2 * W + j2) * H + i2 = k2 * (H * W) + j2 * H + i2 := by ring
    rw [e1, e2, h]
  obtain ⟨hA, hi⟩ := divmod_unique H _ _ i i2 hi0 hi1 hi20 hi21 h1
  obtain ⟨hk, hj⟩ := divmod_unique W _ _ j j2 hj0 hj1 hj20 hj21 hA
  exact ⟨hi, hj, hk⟩

/-- An image that has a coordinate in range and satisfies the size equations
owns a buffer, and the offset of the coordinate lies inside it. -/
theorem buffer_of_inRange (s : ImageT T) (i j k : Int) (hinv : s.SizeInv)
    (hin : s.InRange i j k) :
    ∃ d, s.mData = some d ∧ 0 ≤ s.operatorCall i j k ∧
      (s.operatorCall i j k).toNat < d.length := by
  obtain ⟨hsz, hhw, hlen⟩ := hinv
  obtain ⟨hi0, hi1, hj0, hj1, hk0, hk1⟩ := hin
  have hb := offset_bounds s.mHeight s.mWidth s.mChannels i j k hi0 hi1 hj0 hj1 hk0 hk1
  have hoff : s.operatorCall i j k = k * (s.mHeight * s.mWidth) + j * s.mHeight + i := by
    simp [operatorCall, hhw]
  cases hd : s.mData with
  | none =>
    simp [elems, hd] at hlen
    omega
  | some d =>
    refine ⟨d, rfl, by rw [hoff]; exact hb.1, ?_⟩
    simp only [elems, hd, Option.getD_some] at hlen
    rw [hoff]
    omega

theorem get_eq_some_pix [Inhabited T] (s : ImageT T) (i j k : Int) (hinv : s.SizeInv)
    (hin : s.InRange i j k) : s.get i j k = some (s.pix i j k) := by
  obtain ⟨d, hd, h0, hlt⟩ := buffer_of_inRange s i j k hinv hin
  have hg : s.get i j k = some d[(s.operatorCall i j k).toNat] := by
    have h0c : 0 ≤ s.operatorCallConst i j k := h0
    simp only [get, load, hd, h0c, if_true]
    exact List.getElem?_eq_getElem hlt
  simp [pix, hg]

theorem sameFrame_refl (s : ImageT T) : SameFrame s s :=
  ⟨rfl, rfl, rfl, rfl, rfl, rfl⟩

theorem sameFrame_set (s r0 : ImageT T) (i j k : Int) (v : T) (h : SameFrame s r0) :
    SameFrame (s.set i j k v) r0 := by
  obtain ⟨h1, h2, h3, h4, h5, h6⟩ := h
  unfold set store
  cases hd : s.mData with
  | none => exact ⟨h1, h2, h3, h4, h5, h6⟩
  | some d =>
    simp only
    split_ifs
    · refine ⟨h1, h2, h3, h4, h5, ?_⟩
      simpa [elems, hd] using h6
    · exact ⟨h1, h2, h3, h4, h5, h6⟩

theorem sameFrame_assign (s r0 : ImageT T) (i j k : Int) (e : Option T) (h : SameFrame s r0) :
    SameFrame (s.assign i j k e) r0 := by
  cases e with
  | none => exact h
  | some v => exact sameFrame_set s r0 i j k v h

theorem sizeInv_of_sameFrame (s r0 : ImageT T) (h0 : r0.SizeInv) (h : SameFrame s r0) :
    s.SizeInv := by
  obtain ⟨h1, h2, h3, h4, h5, h6⟩ := h
  obtain ⟨a, b, c⟩ := h0
  refine ⟨by rw [h5, h1, h2, h3]; exact a, by rw [h4, h1, h2]; exact b, ?_⟩
  rw [h6, h5]
  exact c

theorem inRange_of_sameFrame (s r0 : ImageT T) (i j k : Int) (h : SameFrame s r0) :
    s.InRange i j k ↔ r0.InRange i j k := by
  obtain ⟨h1, h2, h3, _, _, _⟩ := h
  simp [InRange, h1, h2, h3]

theorem get_set_same (s : ImageT T) (i j k : Int) (v : T) (hinv : s.SizeInv)
    (hin : s.InRange i j k) : (s.set i j k v).get i j k = some v := by
  obtain ⟨d, hd, h0, hlt⟩ := buffer_of_inRange s i j k hinv hin
  have e1 : (s.set i j k v).get i j k
      = (d.set (s.operatorCall i j k).toNat v)[(s.operatorCall i j k).toNat]? := by
    simp only [set, store, hd, h0, if_true, get, load]
    have h0c2 : 0 ≤ operatorCallConst
        { mHeight := s.mHeight, mWidth := s.mWidth, mChannels := s.mChannels,
          mHeightTimesWidth := s.mHeightTimesWidth, mSize := s.mSize,
          mData := some (d.set (s.operatorCall i j k).toNat v) } i j k := h0
    simp only [h0c2, if_true]
    rfl
  rw [e1, List.getElem?_set_self hlt]

theorem get_set_other (s : ImageT T) (i j k i2 j2 k2 : Int) (v : T) (hinv : s.SizeInv)
    (hin : s.InRange i j k) (hin2 : s.InRange i2 j2 k2)
    (hne : ¬ (i = i2 ∧ j = j2 ∧ k = k2)) :
    (s.set i j k v).get i2 j2 k2 = s.get i2 j2 k2 := by
  obtain ⟨d, hd, h0, hlt⟩ := buffer_of_inRange s i j k hinv hin
  obtain ⟨_, _, h20, _⟩ := buffer_of_inRange s i2 j2 k2 hinv hin2
  have hoffne : s.operatorCall i j k ≠ s.operatorCall i2 j2 k2 := by
    intro heq
    obtain ⟨hi0, hi1, hj0, hj1, _, _⟩ := hin
    obtain ⟨hi20, hi21, hj20, hj21, _, _⟩ := hin2
    apply hne
    apply offset_inj s.mHeight s.mWidth i j k i2 j2 k2 hi0 hi1 hj0 hj1 hi20 hi21 hj20 hj21
    have hhw := hinv.2.1
    simpa [operatorCall, hhw] using heq
  have hnat : (s.operatorCall i j k).toNat ≠ (s.operatorCall i2 j2 k2).toNat := by
    intro h
    apply hoffne
    omega
  have h20c : 0 ≤ s.operatorCallConst i2 j2 k2 := h20
  have e1 : (s.set i j k v).get i2 j2 k2
      = (d.set (s.operatorCall i j k).toNat v)[(s.operatorCall i2 j2 k2).toNat]? := by
    simp only [set, store, hd, h0, if_true, get, load]
    have h20c2 : 0 ≤ operatorCallConst
        { mHeight := s.mHeight, mWidth := s.mWidth, mChannels := s.mChannels,
          mHeightTimesWidth := s.mHeightTimesWidth, mSize := s.mSize,
          mData := some (d.set (s.operatorCall i j k).toNat v) } i2 j2 k2 := h20
    simp only [h20c2, if_true]
    rfl
  have e2 : s.get i2 j2 k2 = d[(s.operatorCall i2 j2 k2).toNat]? := by
    simp only [get, load, hd, h20c, if_true]
    rfl
  rw [e1, e2, List.getElem?_set_ne hnat]

/-! ## The pixel loop nest -/

theorem assign_sets (r0 s : ImageT T) (e : Int → Int → Int → Option T)
    (f : Int → Int → Int → T) (hinv : r0.SizeInv)
    (he : ∀ i j k, r0.InRange i j k → e i j k = some (f i j k))
    (i j k : Int) (hp : r0.InRange i j k) (hR : SameFrame s r0) :
    (s.assign i j k (e i j k)).get i j k = some (f i j k) := by
  rw [he i j k hp]
  exact get_set_same s i j k _ (sizeInv_of_sameFrame s r0 hinv hR)
    ((inRange_of_sameFrame s r0 i j k hR).mpr hp)

theorem assign_keeps (r0 s : ImageT T) (e : Int → Int → Int → Option T)
    (f : Int → Int → Int → T) (hinv : r0.SizeInv)
    (he : ∀ i j k, r0.InRange i j k → e i j k = some (f i j k))
    (a b c : Int) (hq : r0.InRange a b c)
    (i j k : Int) (hp : r0.InRange i j k) (hR : SameFrame s r0)
    (hQ : s.get i j k = some (f i j k)) :
    (s.assign a b c (e a b c)).get i j k = some (f i j k) := by
  by_cases hsame : a = i ∧ b = j ∧ c = k
  · obtain ⟨h1, h2, h3⟩ := hsame
    subst h1 h2 h3
    exact assign_sets r0 s e f hinv he a b c hp hR
  · rw [he a b c hq]
    show (s.set a b c (f a b c)).get i j k = some (f i j k)
    rw [get_set_other s a b c i j k _ (sizeInv_of_sameFrame s r0 hinv hR)
      ((inRange_of_sameFrame s r0 a b c hR).mpr hq)
      ((inRange_of_sameFrame s r0 i j k hR).mpr hp) hsame]
    exact hQ

theorem fillPixels_sameFrame (r0 : ImageT T) (e : Int → Int → Int → Option T) :
    SameFrame (fillPixels r0 e) r0 := by
  unfold fillPixels
  refine forLoop_induct (fun s => SameFrame s r0) _ _ ?_ _ (sameFrame_refl r0)
  intro c s _ hs
  refine forLoop_induct (fun s => SameFrame s r0) _ _ ?_ _ hs
  intro b s _ hs
  refine forLoop_induct (fun s => SameFrame s r0) _ _ ?_ _ hs
  intro a s _ hs
  exact sameFrame_assign s r0 _ _ _ _ hs

/-- After the loop nest every pixel inside the image holds the value the body
assigns to it. -/
theorem fillPixels_get (r0 : ImageT T) (e : Int → Int → Int → Option T)
    (f : Int → Int → Int → T) (hinv : r0.SizeInv)
    (he : ∀ i j k, r0.InRange i j k → e i j k = some (f i j k))
    (i j k : Int) (hp : r0.InRange i j k) :
    (fillPixels r0 e).get i j k = some (f i j k) := by
  obtain ⟨hi0, hi1, hj0, hj1, hk0, hk1⟩ := hp
  have hp : r0.InRange i j k := ⟨hi0, hi1, hj0, hj1, hk0, hk1⟩
  have hic : ((i.toNat : Nat) : Int) = i := Int.toNat_of_nonneg hi0
  have hjc : ((j.toNat : Nat) : Int) = j := Int.toNat_of_nonneg hj0
  have hkc : ((k.toNat : Nat) : Int) = k := Int.toNat_of_nonneg hk0
  -- the innermost statement at loop indices a, b, c
  have hin : ∀ (a b c : Nat), (a : Int) < r0.mHeight → (b : Int) < r0.mWidth →
      (c : Int) < r0.mChannels → r0.InRange a b c := by
    intro a b c ha hb hc
    exact ⟨by omega, ha, by omega, hb, by omega, hc⟩
  have keepI : ∀ (b c : Nat), (b : Int) < r0.mWidth → (c : Int) < r0.mChannels →
      ∀ s, SameFrame s r0 → s.get i j k = some (f i j k) →
      (forLoop r0.mHeight (fun (a : Nat) r => r.assign a b c (e a b c)) s).get i j k
        = some (f i j k) := by
    intro b c hb hc s hs hq
    have := forLoop_induct (fun t => SameFrame t r0 ∧ t.get i j k = some (f i j k))
      r0.mHeight (fun (a : Nat) r => r.assign a b c (e a b c))
      (fun a t ha ht => ⟨sameFrame_assign t r0 _ _ _ _ ht.1,
        assign_keeps r0 t e f hinv he a b c (hin a b c ha hb hc) i j k hp ht.1 ht.2⟩)
      s ⟨hs, hq⟩
    exact this.2
  have frameI : ∀ (b c : Nat) s, SameFrame s r0 →
      SameFrame (forLoop r0.mHeight (fun (a : Nat) r => r.assign a b c (e a b c)) s) r0 := by
    intro b c s hs
    exact forLoop_induct (fun t => SameFrame t r0) _ _
      (fun a t _ ht => sameFrame_assign t r0 _ _ _ _ ht) s hs
  have keepJ : ∀ (c : Nat), (c : Int) < r0.mChannels →
      ∀ s, SameFrame s r0 → s.get i j k = some (f i j k) →
      (forLoop r0.mWidth (fun (b : Nat) r =>
        forLoop r0.mHeight (fun (a : Nat) r => r.assign a b c (e a b c)) r) s).get i j k
        = some (f i j k) := by
    intro c hc s hs hq
    have := forLoop_induct (fun t => SameFrame t r0 ∧ t.get i j k = some (f i j k))
      r0.mWidth (fun (b : Nat) r =>
        forLoop r0.mHeight (fun (a : Nat) r => r.assign a b c (e a b c)) r)
      (fun b t hb ht => ⟨frameI b c t ht.1, keepI b c hb hc t ht.1 ht.2⟩) s ⟨hs, hq⟩
    exact this.2
  have frameJ : ∀ (c : Nat) s, SameFrame s r0 →
      SameFrame (forLoop r0.mWidth (fun (b : Nat) r =>
        forLoop r0.mHeight (fun (a : Nat) r => r.assign a b c (e a b c)) r) s) r0 := by
    intro c s hs
    exact forLoop_induct (fun t => SameFrame t r0) _ _
      (fun b t _ ht => frameI b c t ht) s hs
  unfold fillPixels
  refine forLoop_establish (fun t => SameFrame t r0)
    (fun t => t.get i j k = some (f i j k)) r0.mChannels _ k.toNat (by omega)
    (fun c t _ ht => frameJ c t ht) (fun c t hc ht hq => keepJ c hc t ht hq) ?_ r0
    (sameFrame_refl r0)
  intro s hs
  refine forLoop_establish (fun t => SameFrame t r0)
    (fun t => t.get i j k = some (f i j k)) r0.mWidth _ j.toNat (by omega)
    (fun b t _ ht => frameI b k.toNat t ht)
    (fun b t hb ht hq => keepI b k.toNat hb (by omega) t ht hq) ?_ s hs
  intro s hs
  refine forLoop_establish (fun t => SameFrame t r0)
    (fun t => t.get i j k = some (f i j k)) r0.mHeight _ i.toNat (by omega)
    (fun a t _ ht => sameFrame_assign t r0 _ _ _ _ ht)
    (fun a t ha ht hq => assign_keeps r0 t e f hinv he a j.toNat k.toNat
      (hin a j.toNat k.toNat ha (by omega) (by omega)) i j k hp ht hq) ?_ s hs
  intro s hs
  show (s.assign (i.toNat : Int) (j.toNat : Int) (k.toNat : Int)
    (e (i.toNat : Int) (j.toNat : Int) (k.toNat : Int))).get i j k = some (f i j k)
  rw [hic, hjc, hkc]
  exact assign_sets r0 s e f hinv he i j k hp hs

/-- The same fact through the total accessor `pix`. -/
theorem fillPixels_pix [Inhabited T] (r0 : ImageT T) (e : Int → Int → Int → Option T)
    (f : Int → Int → Int → T) (hinv : r0.SizeInv)
    (he : ∀ i j k, r0.InRange i j k → e i j k = some (f i j k))
    (i j k : Int) (hp : r0.InRange i j k) :
    (fillPixels r0 e).pix i j k = f i j k := by
  simp [pix, fillPixels_get r0 e f hinv he i j k hp]

/-! ## Shape-only copies and fresh images -/

theorem newCopy_false_of_pos [Inhabited T] [Zero T] (x : ImageT T) (hinv : x.SizeInv)
    (hpos : 0 < x.mSize) :
    newCopy x false = { x with mData := some (List.replicate x.mSize.toNat 0) } := by
  obtain ⟨_, _, hlen⟩ := hinv
  cases hd : x.mData with
  | none =>
    simp [elems, hd] at hlen
    omega
  | some d =>
    simp only [newCopy, hd, hpos, gt_iff_lt, if_true, newArray, forLoop_fill_fresh]
    simp

theorem newCopy_of_empty [Inhabited T] [Zero T] (x : ImageT T) (b : Bool)
    (hz : x.mSize = 0) : newCopy x b = new := by
  unfold newCopy
  cases x.mData with
  | none => rfl
  | some d => simp [hz]

theorem sameFrame_newCopy_false [Inhabited T] [Zero T] (x : ImageT T) (hinv : x.SizeInv)
    (hpos : 0 < x.mSize) : SameFrame (newCopy x false) x := by
  rw [newCopy_false_of_pos x hinv hpos]
  refine ⟨rfl, rfl, rfl, rfl, rfl, ?_⟩
  have := hinv.2.2
  simp only [elems, Option.getD_some, List.length_replicate]
  simp only [elems] at this
  omega

theorem fillPixels_new (e : Int → Int → Int → Option T) :
    fillPixels (new : ImageT T) e = new := by
  simp [fillPixels, new, forLoop]

/-! ## `transpose` -/

/-- Shape, consistency and pixels of `transpose(x)` for a consistent image with
non-negative dimensions. -/
theorem transpose_spec [Inhabited T] [Zero T] (x : ImageT T) (hinv : x.SizeInv)
    (hnn : x.NonNegDims) (hrep : x.IntMembers) :
    (transpose x).mHeight = x.mWidth ∧ (transpose x).mWidth = x.mHeight ∧
    (transpose x).mChannels = x.mChannels ∧ (transpose x).SizeInv ∧
    (transpose x).NonNegDims ∧ (transpose x).IntMembers ∧
    ∀ i j k, 0 ≤ i → i < x.mWidth → 0 ≤ j → j < x.mHeight → 0 ≤ k → k < x.mChannels →
      (transpose x).get i j k = x.get j i k := by
  obtain ⟨h0, w0, c0⟩ := hnn
  obtain ⟨p1, _, p3, _⟩ := inInt_products x hinv hrep
  have hr : (new : ImageT T).resetDimensions x.mWidth x.mHeight x.mChannels
      = zeroImage x.mWidth x.mHeight x.mChannels :=
    resetDimensions_new _ _ _ w0 h0 c0 p1 p3
  have hzrep : (zeroImage x.mWidth x.mHeight x.mChannels : ImageT T).IntMembers :=
    intMembers_zeroImage _ _ _ hrep.2.1 hrep.1 hrep.2.2.1 p1 p3
  have hz : (zeroImage x.mWidth x.mHeight x.mChannels : ImageT T).SizeInv :=
    sizeInv_zeroImage _ _ _ (by positivity)
  have hT : transpose x = fillPixels (zeroImage x.mWidth x.mHeight x.mChannels)
      (fun i j k => x.get j i k) := by
    simp only [transpose, hr]
  have hf := fillPixels_sameFrame (zeroImage x.mWidth x.mHeight x.mChannels : ImageT T)
    (fun i j k => x.get j i k)
  rw [← hT] at hf
  obtain ⟨f1, f2, f3, _, _, _⟩ := id hf
  have d1 : (transpose x).mHeight = x.mWidth := by rw [f1]; rfl
  have d2 : (transpose x).mWidth = x.mHeight := by rw [f2]; rfl
  have d3 : (transpose x).mChannels = x.mChannels := by rw [f3]; rfl
  refine ⟨d1, d2, d3, sizeInv_of_sameFrame _ _ hz hf, ⟨by omega, by omega, by omega⟩,
    intMembers_of_sameFrame _ _ hf hzrep, ?_⟩
  intro i j k hi0 hi1 hj0 hj1 hk0 hk1
  rw [hT]
  have hx : x.InRange j i k := ⟨hj0, hj1, hi0, hi1, hk0, hk1⟩
  rw [fillPixels_get _ _ (fun i j k => x.pix j i k) hz
    (fun a b c hin => get_eq_some_pix x b a c hinv
      ⟨hin.2.2.1, hin.2.2.2.1, hin.1, hin.2.1, hin.2.2.2.2.1, hin.2.2.2.2.2⟩)
    i j k ⟨hi0, hi1, hj0, hj1, hk0, hk1⟩]
  exact (get_eq_some_pix x j i k hinv hx).symm

/-- C18: for a consistent image x of shape (H,W,C) with non-negative
dimensions and `int` members, `transpose(x)` has shape (W,H,C) and its pixel
(i,j,k) is the pixel (j,i,k) of x; `transpose(transpose(x))` has the shape of x
and every pixel of it equals the pixel of x at the same coordinate. -/
theorem c18_transpose_involution [Inhabited T] [Zero T] (x : ImageT T) (hinv : x.SizeInv)
    (hnn : x.NonNegDims) (hrep : x.IntMembers) :
    ((transpose x).mHeight = x.mWidth ∧ (transpose x).mWidth = x.mHeight ∧
      (transpose x).mChannels = x.mChannels) ∧
    (∀ i j k, 0 ≤ i → i < x.mWidth → 0 ≤ j → j < x.mHeight → 0 ≤ k → k < x.mChannels →
      (transpose x).get i j k = x.get j i k) ∧
    ((transpose (transpose x)).mHeight = x.mHeight ∧
      (transpose (transpose x)).mWidth = x.mWidth ∧
      (transpose (transpose x)).mChannels = x.mChannels) ∧
    ∀ i j k, x.InRange i j k → (transpose (transpose x)).get i j k = x.get i j k := by
  obtain ⟨a1, a2, a3, ainv, ann, arep, aget⟩ := transpose_spec x hinv hnn hrep
  obtain ⟨b1, b2, b3, _, _, _, bget⟩ := transpose_spec (transpose x) ainv ann arep
  refine ⟨⟨a1, a2, a3⟩, aget, ⟨by rw [b1, a2], by rw [b2, a1], by rw [b3, a3]⟩, ?_⟩
  intro i j k hin
  obtain ⟨hi0, hi1, hj0, hj1, hk0, hk1⟩ := hin
  rw [bget i j k hi0 (by rw [a2]; exact hi1) hj0 (by rw [a1]; exact hj1) hk0
    (by rw [a3]; exact hk1)]
  exact aget j i k hj0 hj1 hi0 hi1 hk0 hk1

/-- Witness for C18: the 2x3x1 image with rows (1,3,5) and (2,4,6). -/
theorem c18_transpose_involution_witness :
    (transpose (ImageT.mk 2 3 1 6 6 (some [1, 2, 3, 4, 5, 6]) : ImageT Int)).mHeight = 3 ∧
    (transpose (ImageT.mk 2 3 1 6 6 (some [1, 2, 3, 4, 5, 6]) : ImageT Int)).get 2 1 0
      = some 6 := by
  have h := c18_transpose_involution (ImageT.mk 2 3 1 6 6 (some [1, 2, 3, 4, 5, 6]) : ImageT Int)
    (by decide) (by decide) (by decide)
  refine ⟨h.1.1, ?_⟩
  rw [h.2.1 2 1 0 (by decide) (by decide) (by decide) (by decide) (by decide) (by decide)]
  decide

/-! ## `flipLR` and `flipUD` -/

theorem flipLR_spec [Inhabited T] [Zero T] (x : ImageT T) (hinv : x.SizeInv)
    (hpos : 0 < x.mSize) :
    SameFrame (flipLR x) x ∧
    ∀ i j k, x.InRange i j k → (flipLR x).get i j k = x.get i (x.mWidth - 1 - j) k := by
  have hsf := sameFrame_newCopy_false x hinv hpos
  have hrinv := sizeInv_of_sameFrame _ _ hinv hsf
  have hw : (newCopy x false).mWidth = x.mWidth := hsf.2.1
  have hF : flipLR x = fillPixels (newCopy x false)
      (fun i j k => x.get i ((x.mWidth - 1) - j) k) := by
    simp only [flipLR, hw]
  have hfr := fillPixels_sameFrame (newCopy x false)
    (fun i j k => x.get i ((x.mWidth - 1) - j) k)
  rw [← hF] at hfr
  have hframe : SameFrame (flipLR x) x := by
    obtain ⟨a1, a2, a3, a4, a5, a6⟩ := hfr
    obtain ⟨b1, b2, b3, b4, b5, b6⟩ := hsf
    exact ⟨a1.trans b1, a2.trans b2, a3.trans b3, a4.trans b4, a5.trans b5, a6.trans b6⟩
  refine ⟨hframe, ?_⟩
  intro i j k hin
  have hsrc : ∀ a b c, x.InRange a b c → x.InRange a (x.mWidth - 1 - b) c := by
    intro a b c h
    obtain ⟨h1, h2, h3, h4, h5, h6⟩ := h
    exact ⟨h1, h2, by omega, by omega, h5, h6⟩
  rw [hF, fillPixels_get _ _ (fun a b c => x.pix a (x.mWidth - 1 - b) c) hrinv
    (fun a b c h => get_eq_some_pix x a _ c hinv
      (hsrc a b c ((inRange_of_sameFrame _ x a b c hsf).mp h)))
    i j k ((inRange_of_sameFrame _ x i j k hsf).mpr hin)]
  exact (get_eq_some_pix x i _ k hinv (hsrc i j k hin)).symm

theorem flipUD_spec [Inhabited T] [Zero T] (x : ImageT T) (hinv : x.SizeInv)
    (hpos : 0 < x.mSize) :
    SameFrame (flipUD x) x ∧
    ∀ i j k, x.InRange i j k → (flipUD x).get i j k = x.get (x.mHeight - 1 - i) j k := by
  have hsf := sameFrame_newCopy_false x hinv hpos
  have hrinv := sizeInv_of_sameFrame _ _ hinv hsf
  have hh : (newCopy x false).mHeight = x.mHeight := hsf.1
  have hF : flipUD x = fillPixels (newCopy x false)
      (fun i j k => x.get ((x.mHeight - 1) - i) j k) := by
    simp only [flipUD, hh]
  have hfr := fillPixels_sameFrame (newCopy x false)
    (fun i j k => x.get ((x.mHeight - 1) - i) j k)
  rw [← hF] at hfr
  have hframe : SameFrame (flipUD x) x := by
    obtain ⟨a1, a2, a3, a4, a5, a6⟩ := hfr
    obtain ⟨b1, b2, b3, b4, b5, b6⟩ := hsf
    exact ⟨a1.trans b1, a2.trans b2, a3.trans b3, a4.trans b4, a5.trans b5, a6.trans b6⟩
  refine ⟨hframe, ?_⟩
  intro i j k hin
  have hsrc : ∀ a b c, x.InRange a b c → x.InRange (x.mHeight - 1 - a) b c := by
    intro a b c h
    obtain ⟨h1, h2, h3, h4, h5, h6⟩ := h
    exact ⟨by omega, by omega, h3, h4, h5, h6⟩
  rw [hF, fillPixels_get _ _ (fun a b c => x.pix (x.mHeight - 1 - a) b c) hrinv
    (fun a b c h => get_eq_some_pix x _ b c hinv
      (hsrc a b c ((inRange_of_sameFrame _ x a b c hsf).mp h)))
    i j k ((inRange_of_sameFrame _ x i j k hsf).mpr hin)]
  exact (get_eq_some_pix x _ j k hinv (hsrc i j k hin)).symm

theorem flipLR_of_empty [Inhabited T] [Zero T] (x : ImageT T) (hz : x.mSize = 0) :
    flipLR x = new := by
  simp only [flipLR, newCopy_of_empty x false hz]
  exact fillPixels_new _

theorem flipUD_of_empty [Inhabited T] [Zero T] (x : ImageT T) (hz : x.mSize = 0) :
    flipUD x = new := by
  simp only [flipUD, newCopy_of_empty x false hz]
  exact fillPixels_new _

/-- C19 (counterexample): the empty image built by `ImageT(0,5,1)` has width 5,
but `flipLR` starts from the shape-only copy of an empty image, which has all
dimensions 0; so `flipLR(flipLR(x))` and `flipUD(flipUD(x))` have width 0. -/
theorem c19_flip_empty_counterexample :
    (newDims 0 5 1 : ImageT Int).mWidth = 5 ∧
    (flipLR (flipLR (newDims 0 5 1 : ImageT Int))).mWidth = 0 ∧
    (flipUD (flipUD (newDims 0 5 1 : ImageT Int))).mWidth = 0 := by
  decide

/-- C19 (amended): for a consistent image x that is non-empty or has all three
dimensions 0, `flipLR(x)(i,j,k) = x(i, W-1-j, k)` and
`flipUD(x)(i,j,k) = x(H-1-i, j, k)` at every coordinate inside x, and both
`flipLR(flipLR(x))` and `flipUD(flipUD(x))` have the shape of x and the pixel
of x at every coordinate. -/
theorem c19_flip_involution [Inhabited T] [Zero T] (x : ImageT T) (hinv : x.SizeInv)
    (hne : 0 < x.mSize ∨ (x.mHeight = 0 ∧ x.mWidth = 0 ∧ x.mChannels = 0)) :
    (∀ i j k, x.InRange i j k → (flipLR x).get i j k = x.get i (x.mWidth - 1 - j) k) ∧
    (∀ i j k, x.InRange i j k → (flipUD x).get i j k = x.get (x.mHeight - 1 - i) j k) ∧
    ((flipLR (flipLR x)).mHeight = x.mHeight ∧ (flipLR (flipLR x)).mWidth = x.mWidth ∧
      (flipLR (flipLR x)).mChannels = x.mChannels) ∧
    (∀ i j k, x.InRange i j k → (flipLR (flipLR x)).get i j k = x.get i j k) ∧
    ((flipUD (flipUD x)).mHeight = x.mHeight ∧ (flipUD (flipUD x)).mWidth = x.mWidth ∧
      (flipUD (flipUD x)).mChannels = x.mChannels) ∧
    (∀ i j k, x.InRange i j k → (flipUD (flipUD x)).get i j k = x.get i j k) := by
  rcases hne with hpos | ⟨hh, hw, hc⟩
  · obtain ⟨lf, lg⟩ := flipLR_spec x hinv hpos
    obtain ⟨uf, ug⟩ := flipUD_spec x hinv hpos
    have linv := sizeInv_of_sameFrame _ _ hinv lf
    have uinv := sizeInv_of_sameFrame _ _ hinv uf
    obtain ⟨llf, llg⟩ := flipLR_spec (flipLR x) linv (by rw [lf.2.2.2.2.1]; exact hpos)
    obtain ⟨uuf, uug⟩ := flipUD_spec (flipUD x) uinv (by rw [uf.2.2.2.2.1]; exact hpos)
    refine ⟨lg, ug, ⟨llf.1.trans lf.1, llf.2.1.trans lf.2.1, llf.2.2.1.trans lf.2.2.1⟩, ?_,
      ⟨uuf.1.trans uf.1, uuf.2.1.trans uf.2.1, uuf.2.2.1.trans uf.2.2.1⟩, ?_⟩
    · intro i j k hin
      obtain ⟨h1, h2, h3, h4, h5, h6⟩ := id hin
      rw [llg i j k ((inRange_of_sameFrame _ x i j k lf).mpr hin), lf.2.1,
        lg i (x.mWidth - 1 - j) k ⟨h1, h2, by omega, by omega, h5, h6⟩]
      congr 1
      omega
    · intro i j k hin
      obtain ⟨h1, h2, h3, h4, h5, h6⟩ := id hin
      rw [uug i j k ((inRange_of_sameFrame _ x i j k uf).mpr hin), uf.1,
        ug (x.mHeight - 1 - i) j k ⟨by omega, by omega, h3, h4, h5, h6⟩]
      congr 1
      omega
  · have hz : x.mSize = 0 := by rw [hinv.1, hh]; ring
    have hno : ∀ i j k, ¬ x.InRange i j k := by
      intro i j k h
      obtain ⟨h1, h2, _, _, _, _⟩ := h
      omega
    have e1 : flipLR (flipLR x) = new := by
      rw [flipLR_of_empty x hz]
      exact flipLR_of_empty _ rfl
    have e2 : flipUD (flipUD x) = new := by
      rw [flipUD_of_empty x hz]
      exact flipUD_of_empty _ rfl
    refine ⟨fun i j k h => absurd h (hno i j k), fun i j k h => absurd h (hno i j k),
      ?_, fun i j k h => absurd h (hno i j k), ?_, fun i j k h => absurd h (hno i j k)⟩
    · rw [e1, hh, hw, hc]
      exact ⟨rfl, rfl, rfl⟩
    · rw [e2, hh, hw, hc]
      exact ⟨rfl, rfl, rfl⟩

/-- Witness for C19: the 2x3x1 image with rows (1,3,5) and (2,4,6). -/
theorem c19_flip_involution_witness :
    (flipLR (flipLR (ImageT.mk 2 3 1 6 6 (some [1, 2, 3, 4, 5, 6]) : ImageT Int))).get 1 2 0
      = some 6 := by
  have h := c19_flip_involution (ImageT.mk 2 3 1 6 6 (some [1, 2, 3, 4, 5, 6]) : ImageT Int)
    (by decide) (Or.inl (by decide))
  rw [h.2.2.2.1 1 2 0 (by decide)]
  decide

end ImageT

end Openvis3d

namespace Openvis3d

namespace ImageT

/-! ## Buffer loops of the scalar forms and of the comparisons -/

theorem foldl_updateAt_range {T : Type} (f : T → T) : ∀ (k : Nat) (d : List T),
    k ≤ d.length →
    (List.range k).foldl (fun acc i => updateAt f i acc) d = (d.take k).map f ++ d.drop k := by
  intro k
  induction k with
  | zero => intro d _; simp
  | succ k ih =>
    intro d hk
    have hlt : k < d.length := by omega
    rw [List.range_succ, List.foldl_append, ih d (by omega)]
    have hlen : ((d.take k).map f).length = k := by simp; omega
    have hget : ((d.take k).map f ++ d.drop k)[k]? = some d[k] := by
      rw [List.getElem?_append_right (by omega), hlen, Nat.sub_self,
        List.drop_eq_getElem_cons hlt]
      simp
    simp only [List.foldl_cons, List.foldl_nil, updateAt, hget]
    rw [List.set_append_right _ _ (by omega), hlen, Nat.sub_self,
      List.drop_eq_getElem_cons hlt, List.set_cons_zero, List.take_succ,
      List.getElem?_eq_getElem hlt]
    simp only [Option.toList, List.map_append, List.map_cons, List.map_nil, List.append_assoc,
      List.singleton_append]

/-- The loop `for(int i=0;i<n;i++) d[i] = f(d[i]);` over a buffer of `n`
elements applies `f` to every element. -/
theorem forLoop_update {T : Type} (f : T → T) (n : Int) (d : List T) (hd : d.length = n.toNat) :
    forLoop n (updateAt f) d = d.map f := by
  unfold forLoop
  rw [foldl_updateAt_range f n.toNat d (by omega)]
  simp [← hd]

theorem foldl_cmpAt_range {T : Type} (cmp : T → T → Bool) (a b : List T) :
    ∀ (k : Nat) (r : List Bool), k ≤ r.length → k ≤ a.length → k ≤ b.length →
    (List.range k).foldl (fun acc i => cmpAt cmp a b i acc) r
      = (List.zipWith cmp a b).take k ++ r.drop k := by
  intro k
  induction k with
  | zero => intro r _ _ _; simp
  | succ k ih =>
    intro r hk ha hb
    have hlt : k < r.length := by omega
    have hal : k < a.length := by omega
    have hbl : k < b.length := by omega
    have hzl : k < (List.zipWith cmp a b).length := by simp; omega
    rw [List.range_succ, List.foldl_append, ih r (by omega) (by omega) (by omega)]
    simp only [List.foldl_cons, List.foldl_nil, cmpAt, List.getElem?_eq_getElem hal,
      List.getElem?_eq_getElem hbl]
    have hlen : ((List.zipWith cmp a b).take k).length = k := by
      rw [List.length_take]; omega
    rw [List.set_append_right _ _ (by omega), hlen, Nat.sub_self,
      List.drop_eq_getElem_cons hlt, List.set_cons_zero, List.take_succ,
      List.getElem?_eq_getElem hzl]
    simp only [Option.toList, List.append_assoc, List.singleton_append, List.getElem_zipWith]

/-- The comparison loop over three buffers of `n` elements leaves the
elementwise test. -/
theorem forLoop_cmp {T : Type} (cmp : T → T → Bool) (a b : List T) (r : List Bool) (n : Int)
    (hr : r.length = n.toNat) (ha : a.length = n.toNat) (hb : b.length = n.toNat) :
    forLoop n (cmpAt cmp a b) r = List.zipWith cmp a b := by
  unfold forLoop
  rw [foldl_cmpAt_range cmp a b n.toNat r (by omega) (by omega) (by omega)]
  have hz : (List.zipWith cmp a b).length = n.toNat := by simp [ha, hb]
  rw [← hr, List.drop_length, List.append_nil, hr, ← hz, List.take_length]

/-! ## Scalar-first subtraction and division -/

theorem opAssign_new_of_pos [Inhabited T] (x : ImageT T) (d : List T) (hinv : x.SizeInv)
    (hd : x.mData = some d) (hpos : 0 < x.mSize) : (new : ImageT T).opAssign x false = x := by
  have hlen : (d.length : Int) = x.mSize := by simpa [elems, hd] using hinv.2.2
  have hne0 : (0 : Int) ≠ x.mSize := by omega
  simp only [opAssign, Bool.false_eq_true, if_false, hd, hpos, gt_iff_lt, if_true, new,
    ne_eq, hne0, not_false_eq_true, newArray]
  rw [forLoop_copy d _ x.mSize (by simp) (by omega)]
  cases x
  simp_all

/-- What the scalar-first operators compute on a non-empty consistent image:
`s - x` holds `x[i] - s` and `s / x` holds `x[i] / s`. -/
theorem scalarFirst_elems [Inhabited T] [Sub T] [Div T] (s : T) (x : ImageT T) (d : List T)
    (hinv : x.SizeInv) (hd : x.mData = some d) (hpos : 0 < x.mSize) :
    (opSubScalarFirst s x).elems = d.map (fun v => v - s) ∧
    (opDivScalarFirst s x).elems = d.map (fun v => v / s) := by
  have hlen : (d.length : Int) = x.mSize := by simpa [elems, hd] using hinv.2.2
  have hcopy := opAssign_new_of_pos x d hinv hd hpos
  constructor
  · simp only [opSubScalarFirst, hcopy, opSubAssignScalar, elems, hd, Option.map_some',
      Option.getD_some]
    exact forLoop_update _ _ _ (by omega)
  · simp only [opDivScalarFirst, hcopy, opDivAssignScalar, elems, hd, Option.map_some',
      Option.getD_some]
    exact forLoop_update _ _ _ (by omega)

/-- C11 (evaluation at the failing input): with s = 5 and x = (1, 2) the code
returns (1-5, 2-5) = (-4, -3) for `s - x`, not (4, 3); with s = 6 and
x = (2, 3) it returns (2/6, 3/6) = (0, 0) for `s / x`, not (3, 2). -/
theorem c11_scalar_first_operands_swapped :
    (opSubScalarFirst 5 (ImageT.mk 1 2 1 2 2 (some [1, 2]) : ImageT Int)).mData
      = some [-4, -3] ∧
    (opDivScalarFirst 6 (ImageT.mk 1 2 1 2 2 (some [2, 3]) : ImageT Int)).mData
      = some [0, 0] := by
  decide

/-! ## Comparisons -/

theorem compareImages_spec (cmp : T → T → Bool) (a b : ImageT T) (ha : a.SizeInv)
    (hnn : a.NonNegDims) (hrep : a.IntMembers) (hb : b.SizeInv) :
    CompareSpec cmp a b (compareImages cmp a b) := by
  obtain ⟨h0, w0, c0⟩ := hnn
  obtain ⟨_, p2, _, p4⟩ := inInt_products a ha hrep
  obtain ⟨asz, _, alen⟩ := ha
  obtain ⟨bsz, _, blen⟩ := hb
  have hnd : (newDims a.mHeight a.mWidth a.mChannels : ImageT Bool)
      = zeroImage a.mHeight a.mWidth a.mChannels :=
    newDims_of_nonneg _ _ _ h0 w0 c0 p2 p4
  have hprod : a.mWidth * a.mHeight * a.mChannels = a.mSize := by rw [asz]; ring
  have hsz0 : 0 ≤ a.mSize := by rw [asz]; positivity
  by_cases hs : a.mHeight = b.mHeight ∧ a.mWidth = b.mWidth ∧ a.mChannels = b.mChannels
  · have hss : sameShape a b = true := by simp [sameShape, hs.1, hs.2.1, hs.2.2]
    have hbs : b.mSize = a.mSize := by rw [bsz, asz, hs.1, hs.2.1, hs.2.2]
    refine ⟨?_, fun _ => ?_, fun hn => absurd hs hn⟩
    · simp [compareImages, hss, hnd, zeroImage]
    · simp only [compareImages, hss, if_true, hnd, zeroImage, hprod, elems]
      by_cases hp : a.mSize > 0
      · simp only [hp, if_true, Option.map_some', Option.getD_some]
        simp only [elems] at alen blen
        exact forLoop_cmp cmp _ _ _ a.mSize (by simp) (by omega) (by omega)
      · have hz : a.mSize = 0 := by omega
        simp only [hp, if_false, Option.map_none', Option.getD_none]
        simp only [elems] at alen
        have hal : (a.mData.getD []).length = 0 := by omega
        rw [List.length_eq_zero.mp hal]
        rfl
  · have hss : sameShape a b = false := by
      simp only [sameShape, Bool.and_eq_false_iff, decide_eq_false_iff_not]
      by_contra hcon
      push_neg at hcon
      exact hs ⟨hcon.1.1, hcon.1.2, hcon.2⟩
    refine ⟨?_, fun h => absurd h hs, fun _ => ?_⟩
    · simp [compareImages, hss, hnd, zeroImage]
    · simp only [compareImages, hss, hnd, zeroImage, hprod, elems, Bool.false_eq_true,
        if_false]
      by_cases hp : a.mSize > 0
      · simp only [hp, if_true, Option.getD_some, List.length_replicate]
        refine ⟨by omega, fun v hv => ?_⟩
        exact List.eq_of_mem_replicate hv
      · have hz : a.mSize = 0 := by omega
        simp [hp, hz]

/-- C12: for consistent images a, b (a with non-negative dimensions and `int`
members) each of `a < b`, `a <= b`, `a > b`, `a >= b`, `a == b` has the shape
of a; when the shapes agree its buffer is the elementwise scalar comparison of
the two buffers; when they differ it has `mSize` elements, all `false`. -/
theorem c12_comparison_operators [LinearOrder T] (a b : ImageT T) (ha : a.SizeInv)
    (hnn : a.NonNegDims) (hrep : a.IntMembers) (hb : b.SizeInv) :
    CompareSpec (fun x y => decide (x < y)) a b (opLt a b) ∧
    CompareSpec (fun x y => decide (x ≤ y)) a b (opLe a b) ∧
    CompareSpec (fun x y => decide (x > y)) a b (opGt a b) ∧
    CompareSpec (fun x y => decide (x ≥ y)) a b (opGe a b) ∧
    CompareSpec (fun x y => decide (x = y)) a b (opEq a b) :=
  ⟨compareImages_spec _ a b ha hnn hrep hb, compareImages_spec _ a b ha hnn hrep hb,
   compareImages_spec _ a b ha hnn hrep hb, compareImages_spec _ a b ha hnn hrep hb,
   compareImages_spec _ a b ha hnn hrep hb⟩

/-- Witness for C12: (1,5,3) against (2,5,1) on equal shapes. -/
theorem c12_comparison_operators_witness :
    (opLt (ImageT.mk 1 3 1 3 3 (some [1, 5, 3]) : ImageT Int)
      (ImageT.mk 1 3 1 3 3 (some [2, 5, 1]))).elems = [true, false, false] := by
  have h := c12_comparison_operators (ImageT.mk 1 3 1 3 3 (some [1, 5, 3]) : ImageT Int)
    (ImageT.mk 1 3 1 3 3 (some [2, 5, 1])) (by decide) (by decide) (by decide) (by decide)
  rw [h.1.2.1 (by decide)]
  decide

/-! ## Filters called with a non-positive window -/

/-- Shape and contents of the shape-only copy of a consistent image that is
non-empty or has all three dimensions 0. -/
theorem newCopy_false_shape_zero [Inhabited T] [Zero T] (x : ImageT T) (hinv : x.SizeInv)
    (hne : 0 < x.mSize ∨ (x.mHeight = 0 ∧ x.mWidth = 0 ∧ x.mChannels = 0)) :
    (newCopy x false).mHeight = x.mHeight ∧ (newCopy x false).mWidth = x.mWidth ∧
    (newCopy x false).mChannels = x.mChannels ∧
    ((newCopy x false).elems.length : Int) = x.mSize ∧
    ∀ v ∈ (newCopy x false).elems, v = 0 := by
  rcases hne with hpos | ⟨hh, hw, hc⟩
  · rw [newCopy_false_of_pos x hinv hpos]
    refine ⟨rfl, rfl, rfl, ?_, ?_⟩
    · simp only [elems, Option.getD_some, List.length_replicate]
      omega
    · intro v hv
      simp only [elems, Option.getD_some] at hv
      exact List.eq_of_mem_replicate hv
  · have hz : x.mSize = 0 := by rw [hinv.1, hh]; ring
    rw [newCopy_of_empty x false hz, hh, hw, hc, hz]
    simp [new, elems]

/-- C16 (counterexample): for the empty image built by `ImageT(0,5,1)`, which
has width 5, each rank filter called with a 0x0 window returns the shape-only
copy of an empty image, whose width is 0. -/
theorem c16_rank_filter_empty_counterexample :
    (newDims 0 5 1 : ImageT Int).mWidth = 5 ∧
    (medianFilter2D (newDims 0 5 1 : ImageT Int) 0 0).mWidth = 0 ∧
    (minFilter2D (newDims 0 5 1 : ImageT Int) 0 0).mWidth = 0 ∧
    (maxFilter2D (newDims 0 5 1 : ImageT Int) 0 0).mWidth = 0 := by
  decide

/-- C16 (amended): for a consistent image x that is non-empty or has all three
dimensions 0, and a window with `filterHeight < 1` or `filterWidth < 1`, each
of `medianFilter2D`, `minFilter2D`, `maxFilter2D` returns the shape-only copy
of x: it has the shape of x, `mSize` elements, all of them zero.  The input is
a `const &` operand and is not written. -/
theorem c16_rank_filter_nonpositive_window [Inhabited T] [Zero T] [LinearOrder T]
    (x : ImageT T) (fh fw : Int) (hinv : x.SizeInv)
    (hne : 0 < x.mSize ∨ (x.mHeight = 0 ∧ x.mWidth = 0 ∧ x.mChannels = 0))
    (hwin : fh < 1 ∨ fw < 1) :
    (medianFilter2D x fh fw = newCopy x false ∧ minFilter2D x fh fw = newCopy x false ∧
      maxFilter2D x fh fw = newCopy x false) ∧
    ((medianFilter2D x fh fw).mHeight = x.mHeight ∧
      (medianFilter2D x fh fw).mWidth = x.mWidth ∧
      (medianFilter2D x fh fw).mChannels = x.mChannels ∧
      ((medianFilter2D x fh fw).elems.length : Int) = x.mSize ∧
      ∀ v ∈ (medianFilter2D x fh fw).elems, v = 0) ∧
    ((minFilter2D x fh fw).mHeight = x.mHeight ∧
      (minFilter2D x fh fw).mWidth = x.mWidth ∧
      (minFilter2D x fh fw).mChannels = x.mChannels ∧
      ((minFilter2D x fh fw).elems.length : Int) = x.mSize ∧
      ∀ v ∈ (minFilter2D x fh fw).elems, v = 0) ∧
    ((maxFilter2D x fh fw).mHeight = x.mHeight ∧
      (maxFilter2D x fh fw).mWidth = x.mWidth ∧
      (maxFilter2D x fh fw).mChannels = x.mChannels ∧
      ((maxFilter2D x fh fw).elems.length : Int) = x.mSize ∧
      ∀ v ∈ (maxFilter2D x fh fw).elems, v = 0) := by
  have e1 : medianFilter2D x fh fw = newCopy x false := by
    simp only [medianFilter2D, hwin, if_true, ite_self]
  have e2 : minFilter2D x fh fw = newCopy x false := by
    simp only [minFilter2D, hwin, if_true, ite_self]
  have e3 : maxFilter2D x fh fw = newCopy x false := by
    simp only [maxFilter2D, hwin, if_true, ite_self]
  have h := newCopy_false_shape_zero x hinv hne
  refine ⟨⟨e1, e2, e3⟩, ?_, ?_, ?_⟩
  · rw [e1]; exact h
  · rw [e2]; exact h
  · rw [e3]; exact h

/-- Witness for C16: the 2x2x1 image (1,2,3,4) with a 0x3 window. -/
theorem c16_rank_filter_nonpositive_window_witness :
    medianFilter2D (ImageT.mk 2 2 1 4 4 (some [1, 2, 3, 4]) : ImageT Int) 0 3
      = newCopy (ImageT.mk 2 2 1 4 4 (some [1, 2, 3, 4]) : ImageT Int) false :=
  (c16_rank_filter_nonpositive_window (ImageT.mk 2 2 1 4 4 (some [1, 2, 3, 4]) : ImageT Int)
    0 3 (by decide) (Or.inl (by decide)) (Or.inl (by decide))).1.1

end ImageT

end Openvis3d

namespace Openvis3d

namespace ImageT

variable {T : Type}

/-! ## `sum` along one dimension -/

/-- The two nested accumulation loops over the kernel taps compute `tapSum`,
provided the kernel reads and the in-bounds input reads succeed. -/
theorem tapLoop_eq_tapSum [Semiring T] (Kh Kw H W : Int)
    (kget xget : Int → Int → Option T) (kv xv : Int → Int → T) (rowOf colOf : Int → Int)
    (hk : ∀ (iK jK : Nat), (iK : Int) < Kh → (jK : Int) < Kw →
      kget (iK : Int) (jK : Int) = some (kv (iK : Int) (jK : Int)))
    (hx : ∀ r c, 0 ≤ r → r < H → 0 ≤ c → c < W → xget r c = some (xv r c)) :
    forLoop Kw (fun jK tempValue =>
        if colOf (jK : Int) < 0 ∨ colOf (jK : Int) ≥ W then tempValue
        else
          forLoop Kh (fun iK tempValue =>
            if rowOf (iK : Int) < 0 ∨ rowOf (iK : Int) ≥ H then tempValue
            else accum tempValue
              (mulRead (kget (iK : Int) (jK : Int)) (xget (rowOf (iK : Int)) (colOf (jK : Int)))))
            tempValue) 0
      = tapSum Kh Kw H W kv xv rowOf colOf := by
  unfold tapSum
  rw [forLoop_congr Kw _ (fun jK acc => acc +
      (if colOf (jK : Int) < 0 ∨ colOf (jK : Int) ≥ W then 0
       else ∑ iK ∈ Finset.range Kh.toNat,
        if rowOf (iK : Int) < 0 ∨ rowOf (iK : Int) ≥ H then 0
        else kv (iK : Int) (jK : Int) * xv (rowOf (iK : Int)) (colOf (jK : Int)))),
    forLoop_sum, zero_add]
  intro jK acc hjK
  by_cases hc : colOf (jK : Int) < 0 ∨ colOf (jK : Int) ≥ W
  · simp only [hc, if_true, add_zero]
  · simp only [hc, if_false]
    rw [forLoop_congr Kh _ (fun iK a => a +
        (if rowOf (iK : Int) < 0 ∨ rowOf (iK : Int) ≥ H then 0
         else kv (iK : Int) (jK : Int) * xv (rowOf (iK : Int)) (colOf (jK : Int)))),
      forLoop_sum]
    intro iK a hiK
    by_cases hr : rowOf (iK : Int) < 0 ∨ rowOf (iK : Int) ≥ H
    · simp only [hr, if_true, add_zero]
    · simp only [hr, if_false]
      push_neg at hc hr
      rw [hk iK jK hiK hjK, hx _ _ hr.1 hr.2 hc.1 hc.2]
      rfl

/-- Pixels of `convolve2D(kernel, input)` for non-empty consistent operands. -/
theorem convolve2D_get [Inhabited T] [Semiring T] (kernel input : ImageT T)
    (hk : kernel.SizeInv) (hkc : 0 < kernel.mChannels) (hks : kernel.mSize ≠ 0)
    (hx : input.SizeInv) (hxs : 0 < input.mSize) :
    SameFrame (convolve2D kernel input) input ∧
    ∀ i j c, input.InRange i j c →
      (convolve2D kernel input).get i j c
        = some (tapSum kernel.mHeight kernel.mWidth input.mHeight input.mWidth
            (fun a b => kernel.pix a b 0) (fun a b => input.pix a b c)
            (fun iK => i - (iK - Int.tdiv kernel.mHeight 2))
            (fun jK => j - (jK - Int.tdiv kernel.mWidth 2))) := by
  have hsf := sameFrame_newCopy_false input hx hxs
  have hrinv := sizeInv_of_sameFrame _ _ hx hsf
  have hcond : ¬ (kernel.mSize = 0 ∨ input.mSize = 0) := by
    push_neg
    exact ⟨hks, by omega⟩
  have hfr : SameFrame (convolve2D kernel input) (newCopy input false) := by
    simp only [convolve2D, hcond, if_false]
    exact fillPixels_sameFrame _ _
  have hframe : SameFrame (convolve2D kernel input) input := by
    obtain ⟨a1, a2, a3, a4, a5, a6⟩ := hfr
    obtain ⟨b1, b2, b3, b4, b5, b6⟩ := hsf
    exact ⟨a1.trans b1, a2.trans b2, a3.trans b3, a4.trans b4, a5.trans b5, a6.trans b6⟩
  refine ⟨hframe, ?_⟩
  intro i j c hin
  simp only [convolve2D, hcond, if_false]
  refine fillPixels_get _ _ (fun i j c =>
    tapSum kernel.mHeight kernel.mWidth input.mHeight input.mWidth
      (fun a b => kernel.pix a b 0) (fun a b => input.pix a b c)
      (fun iK => i - (iK - Int.tdiv kernel.mHeight 2))
      (fun jK => j - (jK - Int.tdiv kernel.mWidth 2))) hrinv ?_ i j c
    ((inRange_of_sameFrame _ input i j c hsf).mpr hin)
  intro a b ch hab
  have hab2 := (inRange_of_sameFrame _ input a b ch hsf).mp hab
  congr 1
  exact tapLoop_eq_tapSum kernel.mHeight kernel.mWidth input.mHeight input.mWidth
    (fun p q => kernel.get p q 0) (fun p q => input.get p q ch)
    (fun p q => kernel.pix p q 0) (fun p q => input.pix p q ch)
    (fun iK => a - (iK - Int.tdiv kernel.mHeight 2))
    (fun jK => b - (jK - Int.tdiv kernel.mWidth 2))
    (fun iK jK hi hj => get_eq_some_pix kernel iK jK 0 hk
      ⟨by omega, hi, by omega, hj, le_refl 0, hkc⟩)
    (fun r q hr0 hr1 hq0 hq1 => get_eq_some_pix input r q ch hx
      ⟨hr0, hr1, hq0, hq1, hab2.2.2.2.2.1, hab2.2.2.2.2.2⟩)

/-- Pixels of `filter2D(kernel, input)` for non-empty consistent operands. -/
theorem filter2D_get [Inhabited T] [Semiring T] (kernel input : ImageT T)
    (hk : kernel.SizeInv) (hkc : 0 < kernel.mChannels) (hks : kernel.mSize ≠ 0)
    (hx : input.SizeInv) (hxs : 0 < input.mSize) :
    SameFrame (filter2D kernel input) input ∧
    ∀ i j c, input.InRange i j c →
      (filter2D kernel input).get i j c
        = some (tapSum kernel.mHeight kernel.mWidth input.mHeight input.mWidth
            (fun a b => kernel.pix a b 0) (fun a b => input.pix a b c)
            (fun iK => i + (iK - Int.tdiv kernel.mHeight 2))
            (fun jK => j + (jK - Int.tdiv kernel.mWidth 2))) := by
  have hsf := sameFrame_newCopy_false input hx hxs
  have hrinv := sizeInv_of_sameFrame _ _ hx hsf
  have hcond : ¬ (kernel.mSize = 0 ∨ input.mSize = 0) := by
    push_neg
    exact ⟨hks, by omega⟩
  have hfr : SameFrame (filter2D kernel input) (newCopy input false) := by
    simp only [filter2D, hcond, if_false]
    exact fillPixels_sameFrame _ _
  have hframe : SameFrame (filter2D kernel input) input := by
    obtain ⟨a1, a2, a3, a4, a5, a6⟩ := hfr
    obtain ⟨b1, b2, b3, b4, b5, b6⟩ := hsf
    exact ⟨a1.trans b1, a2.trans b2, a3.trans b3, a4.trans b4, a5.trans b5, a6.trans b6⟩
  refine ⟨hframe, ?_⟩
  intro i j c hin
  simp only [filter2D, hcond, if_false]
  refine fillPixels_get _ _ (fun i j c =>
    tapSum kernel.mHeight kernel.mWidth input.mHeight input.mWidth
      (fun a b => kernel.pix a b 0) (fun a b => input.pix a b c)
      (fun iK => i + (iK - Int.tdiv kernel.mHeight 2))
      (fun jK => j + (jK - Int.tdiv kernel.mWidth 2))) hrinv ?_ i j c
    ((inRange_of_sameFrame _ input i j c hsf).mpr hin)
  intro a b ch hab
  have hab2 := (inRange_of_sameFrame _ input a b ch hsf).mp hab
  congr 1
  exact tapLoop_eq_tapSum kernel.mHeight kernel.mWidth input.mHeight input.mWidth
    (fun p q => kernel.get p q 0) (fun p q => input.get p q ch)
    (fun p q => kernel.pix p q 0) (fun p q => input.pix p q ch)
    (fun iK => a + (iK - Int.tdiv kernel.mHeight 2))
    (fun jK => b + (jK - Int.tdiv kernel.mWidth 2))
    (fun iK jK hi hj => get_eq_some_pix kernel iK jK 0 hk
      ⟨by omega, hi, by omega, hj, le_refl 0, hkc⟩)
    (fun r q hr0 hr1 hq0 hq1 => get_eq_some_pix input r q ch hx
      ⟨hr0, hr1, hq0, hq1, hab2.2.2.2.2.1, hab2.2.2.2.2.2⟩)

/-- The kernel values enter `tapSum` only at taps inside the kernel. -/
theorem tapSum_congr_kernel [Semiring T] (Kh Kw H W : Int) (kv kv2 xv : Int → Int → T)
    (rowOf colOf : Int → Int)
    (h : ∀ a b, 0 ≤ a → a < Kh → 0 ≤ b → b < Kw → kv a b = kv2 a b) :
    tapSum Kh Kw H W kv xv rowOf colOf = tapSum Kh Kw H W kv2 xv rowOf colOf := by
  unfold tapSum
  refine Finset.sum_congr rfl (fun jK hjK => ?_)
  have hj := Finset.mem_range.mp hjK
  split_ifs
  · rfl
  · refine Finset.sum_congr rfl (fun iK hiK => ?_)
    have hi := Finset.mem_range.mp hiK
    rw [h iK jK (by omega) (by omega) (by omega) (by omega)]

/-- For a kernel of odd height `2*mi+1` and odd width `2*mj+1`, the sum of
`convolve2D` (minus signs) is the sum of `filter2D` (plus signs) over the
kernel reversed along both axes. -/
theorem tapSum_reflect [Semiring T] (Kh Kw H W mi mj : Int) (kv xv : Int → Int → T)
    (i j : Int) (hKh : Kh = 2 * mi + 1) (hKw : Kw = 2 * mj + 1) :
    tapSum Kh Kw H W kv xv (fun iK => i - (iK - mi)) (fun jK => j - (jK - mj))
      = tapSum Kh Kw H W (fun a b => kv (Kh - 1 - a) (Kw - 1 - b)) xv
          (fun iK => i + (iK - mi)) (fun jK => j + (jK - mj)) := by
  unfold tapSum
  rw [← Finset.sum_range_reflect]
  refine Finset.sum_congr rfl (fun jK hjK => ?_)
  have hj := Finset.mem_range.mp hjK
  have hcj : ((Kw.toNat - 1 - jK : Nat) : Int) = Kw - 1 - (jK : Int) := by omega
  have ej : j - (Kw - 1 - (jK : Int) - mj) = j + ((jK : Int) - mj) := by omega
  simp only [hcj, ej]
  split_ifs
  · rfl
  · rw [← Finset.sum_range_reflect]
    refine Finset.sum_congr rfl (fun iK hiK => ?_)
    have hi := Finset.mem_range.mp hiK
    have hci : ((Kh.toNat - 1 - iK : Nat) : Int) = Kh - 1 - (iK : Int) := by omega
    have ei : i - (Kh - 1 - (iK : Int) - mi) = i + ((iK : Int) - mi) := by omega
    simp only [hci, ei]

theorem odd_midpoint (K : Int) (h0 : 0 ≤ K) (hodd : K % 2 = 1) : K = 2 * Int.tdiv K 2 + 1 := by
  rw [Int.tdiv_eq_ediv h0 (by decide)]
  omega

/-- Pixels of the kernel reversed along both axes. -/
theorem flip_both_spec [Inhabited T] [Zero T] (k : ImageT T) (hk : k.SizeInv)
    (hpos : 0 < k.mSize) :
    SameFrame (flipUD (flipLR k)) k ∧
    ∀ a b c, k.InRange a b c →
      (flipUD (flipLR k)).pix a b c = k.pix (k.mHeight - 1 - a) (k.mWidth - 1 - b) c := by
  obtain ⟨lf, lg⟩ := flipLR_spec k hk hpos
  have linv := sizeInv_of_sameFrame _ _ hk lf
  obtain ⟨uf, ug⟩ := flipUD_spec (flipLR k) linv (by rw [lf.2.2.2.2.1]; exact hpos)
  have hframe : SameFrame (flipUD (flipLR k)) k := by
    obtain ⟨a1, a2, a3, a4, a5, a6⟩ := uf
    obtain ⟨b1, b2, b3, b4, b5, b6⟩ := lf
    exact ⟨a1.trans b1, a2.trans b2, a3.trans b3, a4.trans b4, a5.trans b5, a6.trans b6⟩
  refine ⟨hframe, ?_⟩
  intro a b c hin
  obtain ⟨h1, h2, h3, h4, h5, h6⟩ := id hin
  have e : (flipUD (flipLR k)).get a b c = k.get (k.mHeight - 1 - a) (k.mWidth - 1 - b) c := by
    rw [ug a b c ((inRange_of_sameFrame _ k a b c lf).mpr hin), lf.1,
      lg (k.mHeight - 1 - a) b c ⟨by omega, by omega, h3, h4, h5, h6⟩]
  simp only [pix, e]

/-- Core of C13 and C14: for a consistent kernel with non-negative dimensions,
odd height and odd width, every pixel of `convolve2D(k, x)` is the `filter2D`
sum taken with the kernel values read in reversed order along both axes. -/
theorem convolve2D_get_reflected [Inhabited T] [Semiring T] (k x : ImageT T)
    (hk : k.SizeInv) (hknn : k.NonNegDims) (hkc : 0 < k.mChannels) (hks : k.mSize ≠ 0)
    (hx : x.SizeInv) (hxs : 0 < x.mSize)
    (hoddH : k.mHeight % 2 = 1) (hoddW : k.mWidth % 2 = 1)
    (i j c : Int) (hin : x.InRange i j c) :
    (convolve2D k x).get i j c
      = some (tapSum k.mHeight k.mWidth x.mHeight x.mWidth
          (fun a b => k.pix (k.mHeight - 1 - a) (k.mWidth - 1 - b) 0)
          (fun a b => x.pix a b c)
          (fun iK => i + (iK - Int.tdiv k.mHeight 2))
          (fun jK => j + (jK - Int.tdiv k.mWidth 2))) := by
  rw [(convolve2D_get k x hk hkc hks hx hxs).2 i j c hin]
  congr 1
  exact tapSum_reflect k.mHeight k.mWidth x.mHeight x.mWidth _ _
    (fun a b => k.pix a b 0) (fun a b => x.pix a b c) i j
    (odd_midpoint _ hknn.1 hoddH) (odd_midpoint _ hknn.2.1 hoddW)

theorem sizeInv_mSize_nonneg (x : ImageT T) (hx : x.SizeInv) : 0 ≤ x.mSize := by
  rw [← hx.2.2]
  exact Int.natCast_nonneg _

/-- C13 (counterexample): with the 1x2 kernel (1, 0) and the 1x2 input (1, 2),
`convolve2D` gives (2, 0) while `filter2D` with the kernel reversed along both
axes gives (1, 2). -/
theorem c13_even_kernel_counterexample :
    (convolve2D (ImageT.mk 1 2 1 2 2 (some [1, 0]) : ImageT Int)
      (ImageT.mk 1 2 1 2 2 (some [1, 2]))).mData = some [2, 0] ∧
    (filter2D (flipUD (flipLR (ImageT.mk 1 2 1 2 2 (some [1, 0]) : ImageT Int)))
      (ImageT.mk 1 2 1 2 2 (some [1, 2]))).mData = some [1, 2] := by
  decide

/-- C13 (amended): over exact scalars, for every consistent kernel k with
non-negative dimensions whose height and width are both odd and every
consistent input x, `convolve2D(k, x)` and `filter2D(flipUD(flipLR(k)), x)`
have the same shape and the same pixel at every coordinate inside x. -/
theorem c13_convolve_is_filter_with_flipped_kernel [Inhabited T] [Semiring T]
    (k x : ImageT T) (hk : k.SizeInv) (hknn : k.NonNegDims) (hx : x.SizeInv)
    (hoddH : k.mHeight % 2 = 1) (hoddW : k.mWidth % 2 = 1) :
    ((convolve2D k x).mHeight = (filter2D (flipUD (flipLR k)) x).mHeight ∧
      (convolve2D k x).mWidth = (filter2D (flipUD (flipLR k)) x).mWidth ∧
      (convolve2D k x).mChannels = (filter2D (flipUD (flipLR k)) x).mChannels) ∧
    ∀ i j c, x.InRange i j c →
      (convolve2D k x).get i j c = (filter2D (flipUD (flipLR k)) x).get i j c := by
  by_cases hxs : x.mSize = 0
  · have e1 : convolve2D k x = newCopy x false := by simp [convolve2D, hxs]
    have e2 : filter2D (flipUD (flipLR k)) x = newCopy x false := by simp [filter2D, hxs]
    rw [e1, e2]
    exact ⟨⟨rfl, rfl, rfl⟩, fun _ _ _ _ => rfl⟩
  by_cases hks : k.mSize = 0
  · have hfl : flipUD (flipLR k) = new := by
      rw [flipLR_of_empty k hks]
      exact flipUD_of_empty _ rfl
    have e1 : convolve2D k x = newCopy x false := by simp [convolve2D, hks]
    have e2 : filter2D (flipUD (flipLR k)) x = newCopy x false := by
      rw [hfl]
      simp [filter2D, new]
    rw [e1, e2]
    exact ⟨⟨rfl, rfl, rfl⟩, fun _ _ _ _ => rfl⟩
  have hxpos : 0 < x.mSize := by
    have := sizeInv_mSize_nonneg x hx
    omega
  have hkpos : 0 < k.mSize := by
    have := sizeInv_mSize_nonneg k hk
    omega
  have hkc : 0 < k.mChannels := by
    rcases lt_or_eq_of_le hknn.2.2 with h | h
    · exact h
    · exfalso
      apply hks
      rw [hk.1, ← h]
      ring
  obtain ⟨ff, fpix⟩ := flip_both_spec k hk hkpos
  have finv := sizeInv_of_sameFrame _ _ hk ff
  obtain ⟨cf, _⟩ := convolve2D_get k x hk hkc hks hx hxpos
  obtain ⟨gf, gget⟩ := filter2D_get (flipUD (flipLR k)) x finv (by rw [ff.2.2.1]; exact hkc)
    (by rw [ff.2.2.2.2.1]; exact hks) hx hxpos
  refine ⟨⟨cf.1.trans gf.1.symm, cf.2.1.trans gf.2.1.symm, cf.2.2.1.trans gf.2.2.1.symm⟩, ?_⟩
  intro i j c hin
  rw [convolve2D_get_reflected k x hk hknn hkc hks hx hxpos hoddH hoddW i j c hin,
    gget i j c hin, ff.1, ff.2.1]
  congr 1
  refine tapSum_congr_kernel _ _ _ _ _ _ _ _ _ (fun a b ha0 ha1 hb0 hb1 => ?_)
  exact (fpix a b 0 ⟨ha0, ha1, hb0, hb1, le_refl 0, hkc⟩).symm

/-- Witness for C13: the 1x3 kernel (1, 2, 3) on the 1x3 input (1, 0, 0). -/
theorem c13_convolve_is_filter_with_flipped_kernel_witness :
    (convolve2D (ImageT.mk 1 3 1 3 3 (some [1, 2, 3]) : ImageT Int)
        (ImageT.mk 1 3 1 3 3 (some [1, 0, 0]))).get 0 1 0
      = (filter2D (flipUD (flipLR (ImageT.mk 1 3 1 3 3 (some [1, 2, 3]) : ImageT Int)))
        (ImageT.mk 1 3 1 3 3 (some [1, 0, 0]))).get 0 1 0 :=
  (c13_convolve_is_filter_with_flipped_kernel
    (ImageT.mk 1 3 1 3 3 (some [1, 2, 3]) : ImageT Int) (ImageT.mk 1 3 1 3 3 (some [1, 0, 0]))
    (by decide) (by decide) (by decide) (by decide) (by decide)).2 0 1 0 (by decide)

/-- C14 (counterexample): the single-channel 1x2 kernel (1, 1) is symmetric
under reversal of both axes, yet on the 1x2 input (1, 2) `filter2D` gives
(1, 3) and `convolve2D` gives (3, 2). -/
theorem c14_even_symmetric_kernel_counterexample :
    (ImageT.mk 1 2 1 2 2 (some [1, 1]) : ImageT Int).get 0 0 0
      = (ImageT.mk 1 2 1 2 2 (some [1, 1]) : ImageT Int).get (1 - 1 - 0) (2 - 1 - 0) 0 ∧
    (ImageT.mk 1 2 1 2 2 (some [1, 1]) : ImageT Int).get 0 1 0
      = (ImageT.mk 1 2 1 2 2 (some [1, 1]) : ImageT Int).get (1 - 1 - 0) (2 - 1 - 1) 0 ∧
    (filter2D (ImageT.mk 1 2 1 2 2 (some [1, 1]) : ImageT Int)
      (ImageT.mk 1 2 1 2 2 (some [1, 2]))).mData = some [1, 3] ∧
    (convolve2D (ImageT.mk 1 2 1 2 2 (some [1, 1]) : ImageT Int)
      (ImageT.mk 1 2 1 2 2 (some [1, 2]))).mData = some [3, 2] := by
  decide

/-- C14 (amended): over exact scalars, for every consistent single-channel
kernel k of shape (Kh,Kw) with Kh and Kw odd that is symmetric under reversal
of both axes (`k(i,j) == k(Kh-1-i, Kw-1-j)` for all i, j) and every consistent
input x, `filter2D(k, x)` and `convolve2D(k, x)` have the same shape and the
same pixel at every coordinate inside x. -/
theorem c14_symmetric_kernel_filter_eq_convolve [Inhabited T] [Semiring T]
    (k x : ImageT T) (hk : k.SizeInv) (hh : 0 ≤ k.mHeight) (hw : 0 ≤ k.mWidth)
    (hc1 : k.mChannels = 1) (hx : x.SizeInv)
    (hoddH : k.mHeight % 2 = 1) (hoddW : k.mWidth % 2 = 1)
    (hsym : ∀ a b, 0 ≤ a → a < k.mHeight → 0 ≤ b → b < k.mWidth →
      k.get a b 0 = k.get (k.mHeight - 1 - a) (k.mWidth - 1 - b) 0) :
    ((filter2D k x).mHeight = (convolve2D k x).mHeight ∧
      (filter2D k x).mWidth = (convolve2D k x).mWidth ∧
      (filter2D k x).mChannels = (convolve2D k x).mChannels) ∧
    ∀ i j c, x.InRange i j c → (filter2D k x).get i j c = (convolve2D k x).get i j c := by
  by_cases hxs : x.mSize = 0
  · have e1 : convolve2D k x = newCopy x false := by simp [convolve2D, hxs]
    have e2 : filter2D k x = newCopy x false := by simp [filter2D, hxs]
    rw [e1, e2]
    exact ⟨⟨rfl, rfl, rfl⟩, fun _ _ _ _ => rfl⟩
  have hxpos : 0 < x.mSize := by
    have := sizeInv_mSize_nonneg x hx
    omega
  have hkc : 0 < k.mChannels := by rw [hc1]; decide
  have hknn : k.NonNegDims := ⟨hh, hw, by omega⟩
  have hH : 0 < k.mHeight := by omega
  have hW : 0 < k.mWidth := by omega
  have hkpos : 0 < k.mSize := by
    rw [hk.1, hc1, mul_one]
    exact mul_pos hH hW
  have hks : k.mSize ≠ 0 := by omega
  obtain ⟨cf, _⟩ := convolve2D_get k x hk hkc hks hx hxpos
  obtain ⟨gf, gget⟩ := filter2D_get k x hk hkc hks hx hxpos
  refine ⟨⟨gf.1.trans cf.1.symm, gf.2.1.trans cf.2.1.symm, gf.2.2.1.trans cf.2.2.1.symm⟩, ?_⟩
  intro i j c hin
  rw [convolve2D_get_reflected k x hk hknn hkc hks hx hxpos hoddH hoddW i j c hin,
    gget i j c hin]
  congr 1
  refine tapSum_congr_kernel _ _ _ _ _ _ _ _ _ (fun a b ha0 ha1 hb0 hb1 => ?_)
  simp only [pix, hsym a b ha0 ha1 hb0 hb1]

/-- Witness for C14: the symmetric 1x3 kernel (1, 2, 1) on the 1x3 input (1, 0, 0). -/
theorem c14_symmetric_kernel_filter_eq_convolve_witness :
    (filter2D (ImageT.mk 1 3 1 3 3 (some [1, 2, 1]) : ImageT Int)
        (ImageT.mk 1 3 1 3 3 (some [1, 0, 0]))).get 0 1 0
      = (convolve2D (ImageT.mk 1 3 1 3 3 (some [1, 2, 1]) : ImageT Int)
        (ImageT.mk 1 3 1 3 3 (some [1, 0, 0]))).get 0 1 0 :=
  (c14_symmetric_kernel_filter_eq_convolve
    (ImageT.mk 1 3 1 3 3 (some [1, 2, 1]) : ImageT Int) (ImageT.mk 1 3 1 3 3 (some [1, 0, 0]))
    (by decide) (by decide) (by decide) (by decide) (by decide) (by decide) (by decide)
    (by
      intro a b ha0 ha1 hb0 hb1
      have ha : a = 0 := by
        have h1 : a < 1 := ha1
        omega
      have hb' : b < 3 := hb1
      subst ha
      rcases (show b = 0 ∨ b = 1 ∨ b = 2 by omega) with h | h | h <;> subst h <;> decide)).2
    0 1 0 (by decide)

/-! ## Pixels of a constant image -/

theorem get_mem_elems (s : ImageT T) (i j k : Int) (hinv : s.SizeInv)
    (hin : s.InRange i j k) : ∃ v ∈ s.elems, s.get i j k = some v := by
  obtain ⟨d, hd, h0, hlt⟩ := buffer_of_inRange s i j k hinv hin
  have h0c : 0 ≤ s.operatorCallConst i j k := h0
  refine ⟨d[(s.operatorCall i j k).toNat], ?_, ?_⟩
  · simp only [elems, hd, Option.getD_some]
    exact List.getElem_mem _
  · simp only [get, load, hd, h0c, if_true]
    exact List.getElem?_eq_getElem hlt

theorem opAssign_new_of_sizeInv [Inhabited T] (x : ImageT T) (hinv : x.SizeInv)
    (hpos : 0 < x.mSize) : (new : ImageT T).opAssign x false = x := by
  cases hd : x.mData with
  | none =>
    have := hinv.2.2
    simp [elems, hd] at this
    omega
  | some d => exact opAssign_new_of_pos x d hinv hd hpos

end ImageT

end Openvis3d

namespace Openvis3d

/-! ## Nested loops and loops with an arbitrary start -/

/-- Invariant rule for a nest of three counted loops. -/
theorem nest3_induct {σ : Type} (P : σ → Prop) (nk nj ni : Int)
    (body : Nat → Nat → Nat → σ → σ)
    (h : ∀ (a b c : Nat) s, (a : Int) < ni → (b : Int) < nj → (c : Int) < nk →
      P s → P (body a b c s)) (s : σ) (hs : P s) :
    P (forLoop nk (fun c r => forLoop nj (fun b r =>
      forLoop ni (fun a r => body a b c r) r) r) s) := by
  refine forLoop_induct P nk _ (fun c t hc ht => ?_) s hs
  refine forLoop_induct P nj _ (fun b t hb ht => ?_) t ht
  exact forLoop_induct P ni _ (fun a t ha ht => h a b c t ha hb hc ht) t ht

/-- A fact established by the iteration `(a0, b0, c0)` of a nest of three
counted loops and kept by every iteration holds after the nest. -/
theorem nest3_establish {σ : Type} (R Q : σ → Prop) (nk nj ni : Int)
    (body : Nat → Nat → Nat → σ → σ) (a0 b0 c0 : Nat)
    (ha0 : (a0 : Int) < ni) (hb0 : (b0 : Int) < nj) (hc0 : (c0 : Int) < nk)
    (hR : ∀ (a b c : Nat) s, (a : Int) < ni → (b : Int) < nj → (c : Int) < nk →
      R s → R (body a b c s))
    (hQ : ∀ (a b c : Nat) s, (a : Int) < ni → (b : Int) < nj → (c : Int) < nk →
      R s → Q s → Q (body a b c s))
    (hE : ∀ s, R s → Q (body a0 b0 c0 s)) (s : σ) (hs : R s) :
    Q (forLoop nk (fun c r => forLoop nj (fun b r =>
      forLoop ni (fun a r => body a b c r) r) r) s) := by
  have rI : ∀ (b c : Nat), (b : Int) < nj → (c : Int) < nk → ∀ t, R t →
      R (forLoop ni (fun a r => body a b c r) t) := fun b c hb hc t ht =>
    forLoop_induct R ni _ (fun a u ha hu => hR a b c u ha hb hc hu) t ht
  have qI : ∀ (b c : Nat), (b : Int) < nj → (c : Int) < nk → ∀ t, R t → Q t →
      Q (forLoop ni (fun a r => body a b c r) t) := fun b c hb hc t ht hq =>
    (forLoop_induct (fun u => R u ∧ Q u) ni _
      (fun a u ha hu => ⟨hR a b c u ha hb hc hu.1, hQ a b c u ha hb hc hu.1 hu.2⟩) t
      ⟨ht, hq⟩).2
  have rJ : ∀ (c : Nat), (c : Int) < nk → ∀ t, R t →
      R (forLoop nj (fun b r => forLoop ni (fun a r => body a b c r) r) t) :=
    fun c hc t ht => forLoop_induct R nj _ (fun b u hb hu => rI b c hb hc u hu) t ht
  have qJ : ∀ (c : Nat), (c : Int) < nk → ∀ t, R t → Q t →
      Q (forLoop nj (fun b r => forLoop ni (fun a r => body a b c r) r) t) :=
    fun c hc t ht hq =>
    (forLoop_induct (fun u => R u ∧ Q u) nj _
      (fun b u hb hu => ⟨rI b c hb hc u hu.1, qI b c hb hc u hu.1 hu.2⟩) t ⟨ht, hq⟩).2
  refine forLoop_establish R Q nk _ c0 hc0 (fun c t hc ht => rJ c hc t ht)
    (fun c t hc ht hq => qJ c hc t ht hq) (fun t ht => ?_) s hs
  refine forLoop_establish R Q nj _ b0 hb0 (fun b u hb hu => rI b c0 hb hc0 u hu)
    (fun b u hb hu hq => qI b c0 hb hc0 u hu hq) (fun u hu => ?_) t ht
  exact forLoop_establish R Q ni _ a0 ha0 (fun a v ha hv => hR a b0 c0 v ha hb0 hc0 hv)
    (fun a v ha hv hq => hQ a b0 c0 v ha hb0 hc0 hv hq) hE u hu

/-- Invariant rule with a loop counter: `P i` holds before iteration `i`. -/
theorem forLoop_induct_idx {σ : Type} (P : Nat → σ → Prop) (n : Int) (body : Nat → σ → σ)
    (h : ∀ (i : Nat) s, (i : Int) < n → P i s → P (i + 1) (body i s)) (s : σ) (hs : P 0 s) :
    P n.toNat (forLoop n body s) := by
  unfold forLoop
  have key : ∀ m : Nat, m ≤ n.toNat →
      P m ((List.range m).foldl (fun acc i => body i acc) s) := by
    intro m
    induction m with
    | zero => intro _; simpa using hs
    | succ m ih =>
      intro hm
      rw [List.range_succ, List.foldl_append]
      simp only [List.foldl_cons, List.foldl_nil]
      exact h m _ (by omega) (ih (by omega))
  exact key n.toNat (le_refl _)

end Openvis3d

namespace Openvis3d

namespace ImageT

variable {T : Type}

/-! ## Writing a box of pixels -/

theorem writeBox_sameFrame (r0 : ImageT T) (i0 j0 k0 ni nj nk : Int)
    (e : Int → Int → Int → Option T) : SameFrame (writeBox r0 i0 j0 k0 ni nj nk e) r0 := by
  unfold writeBox
  exact nest3_induct (fun s => SameFrame s r0) nk nj ni
    (fun a b c r => r.assign (i0 + (a : Int)) (j0 + (b : Int)) (k0 + (c : Int))
      (e (i0 + (a : Int)) (j0 + (b : Int)) (k0 + (c : Int))))
    (fun a b c s _ _ _ hs => sameFrame_assign s r0 _ _ _ _ hs) r0 (sameFrame_refl r0)

/-- A pixel inside the box receives the assigned value when the assigned
expression could be evaluated. -/
theorem writeBox_get_written (r0 : ImageT T) (i0 j0 k0 ni nj nk : Int)
    (e : Int → Int → Int → Option T) (hinv : r0.SizeInv)
    (hbox : ∀ i j k, i0 ≤ i → i < i0 + ni → j0 ≤ j → j < j0 + nj → k0 ≤ k → k < k0 + nk →
      r0.InRange i j k)
    (i j k : Int) (hi0 : i0 ≤ i) (hi1 : i < i0 + ni) (hj0 : j0 ≤ j) (hj1 : j < j0 + nj)
    (hk0 : k0 ≤ k) (hk1 : k < k0 + nk) (v : T) (hv : e i j k = some v) :
    (writeBox r0 i0 j0 k0 ni nj nk e).get i j k = some v := by
  have hp : r0.InRange i j k := hbox i j k hi0 hi1 hj0 hj1 hk0 hk1
  unfold writeBox
  refine nest3_establish (fun s => SameFrame s r0) (fun s => s.get i j k = some v) nk nj ni
    (fun a b c r => r.assign (i0 + (a : Int)) (j0 + (b : Int)) (k0 + (c : Int))
      (e (i0 + (a : Int)) (j0 + (b : Int)) (k0 + (c : Int))))
    (i - i0).toNat (j - j0).toNat (k - k0).toNat (by omega) (by omega) (by omega)
    (fun a b c s _ _ _ hs => sameFrame_assign s r0 _ _ _ _ hs) ?_ ?_ r0 (sameFrame_refl r0)
  · intro a b c s ha hb hc hs hq
    have hqin : r0.InRange (i0 + (a : Int)) (j0 + (b : Int)) (k0 + (c : Int)) :=
      hbox _ _ _ (by omega) (by omega) (by omega) (by omega) (by omega) (by omega)
    have sinv := sizeInv_of_sameFrame s r0 hinv hs
    show (s.assign (i0 + (a : Int)) (j0 + (b : Int)) (k0 + (c : Int))
      (e (i0 + (a : Int)) (j0 + (b : Int)) (k0 + (c : Int)))).get i j k = some v
    cases hval : e (i0 + (a : Int)) (j0 + (b : Int)) (k0 + (c : Int)) with
    | none => exact hq
    | some w =>
      show (s.set _ _ _ w).get i j k = some v
      by_cases hsame : i0 + (a : Int) = i ∧ j0 + (b : Int) = j ∧ k0 + (c : Int) = k
      · obtain ⟨h1, h2, h3⟩ := hsame
        rw [h1, h2, h3] at hval
        rw [hv] at hval
        rw [h1, h2, h3, get_set_same s i j k w sinv ((inRange_of_sameFrame s r0 i j k hs).mpr hp)]
        exact hval.symm
      · rw [get_set_other s _ _ _ i j k w sinv
          ((inRange_of_sameFrame s r0 _ _ _ hs).mpr hqin)
          ((inRange_of_sameFrame s r0 i j k hs).mpr hp) hsame]
        exact hq
  · intro s hs
    have e1 : i0 + (((i - i0).toNat : Nat) : Int) = i := by omega
    have e2 : j0 + (((j - j0).toNat : Nat) : Int) = j := by omega
    have e3 : k0 + (((k - k0).toNat : Nat) : Int) = k := by omega
    show (s.assign _ _ _ (e _ _ _)).get i j k = some v
    rw [e1, e2, e3, hv]
    exact get_set_same s i j k v (sizeInv_of_sameFrame s r0 hinv hs)
      ((inRange_of_sameFrame s r0 i j k hs).mpr hp)

/-- A pixel that is outside the box, or whose assigned expression could not be
evaluated, keeps its value. -/
theorem writeBox_get_untouched (r0 : ImageT T) (i0 j0 k0 ni nj nk : Int)
    (e : Int → Int → Int → Option T) (hinv : r0.SizeInv)
    (hbox : ∀ i j k, i0 ≤ i → i < i0 + ni → j0 ≤ j → j < j0 + nj → k0 ≤ k → k < k0 + nk →
      r0.InRange i j k)
    (i j k : Int) (hp : r0.InRange i j k)
    (hout : ¬ (i0 ≤ i ∧ i < i0 + ni ∧ j0 ≤ j ∧ j < j0 + nj ∧ k0 ≤ k ∧ k < k0 + nk) ∨
      e i j k = none) :
    (writeBox r0 i0 j0 k0 ni nj nk e).get i j k = r0.get i j k := by
  unfold writeBox
  have key := nest3_induct (fun s => SameFrame s r0 ∧ s.get i j k = r0.get i j k) nk nj ni
    (fun a b c r => r.assign (i0 + (a : Int)) (j0 + (b : Int)) (k0 + (c : Int))
      (e (i0 + (a : Int)) (j0 + (b : Int)) (k0 + (c : Int)))) ?_ r0 ⟨sameFrame_refl r0, rfl⟩
  · exact key.2
  · intro a b c s ha hb hc hs
    refine ⟨sameFrame_assign s r0 _ _ _ _ hs.1, ?_⟩
    have hqin : r0.InRange (i0 + (a : Int)) (j0 + (b : Int)) (k0 + (c : Int)) :=
      hbox _ _ _ (by omega) (by omega) (by omega) (by omega) (by omega) (by omega)
    have sinv := sizeInv_of_sameFrame s r0 hinv hs.1
    show (s.assign (i0 + (a : Int)) (j0 + (b : Int)) (k0 + (c : Int))
      (e (i0 + (a : Int)) (j0 + (b : Int)) (k0 + (c : Int)))).get i j k = r0.get i j k
    cases hval : e (i0 + (a : Int)) (j0 + (b : Int)) (k0 + (c : Int)) with
    | none => exact hs.2
    | some w =>
      show (s.set _ _ _ w).get i j k = r0.get i j k
      have hne : ¬ (i0 + (a : Int) = i ∧ j0 + (b : Int) = j ∧ k0 + (c : Int) = k) := by
        rintro ⟨h1, h2, h3⟩
        rcases hout with h | h
        · exact h ⟨by omega, by omega, by omega, by omega, by omega, by omega⟩
        · rw [h1, h2, h3, h] at hval
          exact Option.noConfusion hval
      rw [get_set_other s _ _ _ i j k w sinv
        ((inRange_of_sameFrame s r0 _ _ _ hs.1).mpr hqin)
        ((inRange_of_sameFrame s r0 i j k hs.1).mpr hp) hne]
      exact hs.2

end ImageT

end Openvis3d

namespace Openvis3d

namespace ImageT

variable {T : Type}

/-! ## `copyChannel` and assignment -/

/-- Every channel index that is valid for the input is rejected by the second
guard of `copyChannel`, because `input.mChannels >= inputChannel` holds for it. -/
theorem copyChannel_valid_rejected (r x : ImageT T) (inputChannel outputChannel : Int)
    (hic : inputChannel < x.mChannels) :
    copyChannel r x inputChannel outputChannel = (false, r) := by
  unfold copyChannel
  have hge : x.mChannels ≥ inputChannel ∨ inputChannel < 0 := Or.inl (by omega)
  split_ifs with h1
  · rfl
  · rfl

/-- C28 (evaluation at the failing input): receiver 2x2x1 of zeros, input 2x2x1
holding (1,2,3,4), `copyChannel(input, 0, 0)`: the guard
`input.mChannels >= inputChannel` (1 >= 0) returns false and the receiver keeps
its zeros. -/
theorem c28_copyChannel_rejects_valid_channels :
    (copyChannel (newDims 2 2 1 : ImageT Int) (ImageT.mk 2 2 1 4 4 (some [1, 2, 3, 4])) 0 0).1
      = false ∧
    (copyChannel (newDims 2 2 1 : ImageT Int) (ImageT.mk 2 2 1 4 4 (some [1, 2, 3, 4])) 0 0).2.mData
      = some [0, 0, 0, 0] ∧
    (ImageT.mk 2 2 1 4 4 (some [1, 2, 3, 4]) : ImageT Int).get 0 0 0 = some 1 := by
  decide

/-- Assignment from a non-empty consistent image to a consistent image makes
the receiver equal to the right-hand side. -/
theorem opAssign_of_pos [Inhabited T] (a b : ImageT T) (ha : a.SizeInv) (hb : b.SizeInv)
    (hpos : 0 < b.mSize) : a.opAssign b false = b := by
  obtain ⟨_, _, blen⟩ := hb
  cases hbd : b.mData with
  | none =>
    simp [elems, hbd] at blen
    omega
  | some src =>
    have hsl : (src.length : Int) = b.mSize := by simpa [elems, hbd] using blen
    by_cases hne : a.mSize = b.mSize
    · cases had : a.mData with
      | none =>
        have := ha.2.2
        simp [elems, had] at this
        omega
      | some d =>
        have hdl : (d.length : Int) = a.mSize := by simpa [elems, had] using ha.2.2
        simp only [opAssign, Bool.false_eq_true, if_false, hbd, hpos, gt_iff_lt, if_true,
          ne_eq, hne, not_true_eq_false, had]
        rw [forLoop_copy src d b.mSize (by omega) (by omega)]
        cases b
        simp_all
    · simp only [opAssign, Bool.false_eq_true, if_false, hbd, hpos, gt_iff_lt, if_true,
        ne_eq, hne, not_false_eq_true, newArray]
      rw [forLoop_copy src _ b.mSize (by simp) (by omega)]
      cases b
      simp_all

/-- Assignment from an image with `mSize == 0` leaves the receiver as it is. -/
theorem opAssign_of_empty [Inhabited T] (a b : ImageT T) (same : Bool) (hz : b.mSize = 0) :
    a.opAssign b same = a := by
  unfold opAssign
  cases same
  · cases b.mData with
    | none => rfl
    | some src => simp [hz]
  · rfl

/-- C29 (evaluation at the failing input): a is the 2x2x1 image (1,2,3,4), b is
the default-constructed empty image; after `a = b` the image a still has shape
(2,2,1) and its four elements, while b has shape (0,0,0). -/
theorem c29_assign_from_empty_keeps_receiver :
    ((ImageT.mk 2 2 1 4 4 (some [1, 2, 3, 4]) : ImageT Int).opAssign new false).mHeight = 2 ∧
    ((ImageT.mk 2 2 1 4 4 (some [1, 2, 3, 4]) : ImageT Int).opAssign new false).mData
      = some [1, 2, 3, 4] ∧
    (new : ImageT Int).mHeight = 0 := by
  decide

end ImageT

end Openvis3d

namespace Openvis3d

namespace ImageT

variable {T : Type}

/-! ## `copyMasked` -/

theorem assignIf_eq_assign (r : ImageT T) (i j k : Int) (c : Option Bool) (e : Option T) :
    r.assignIf i j k c e = r.assign i j k (maskedExpr c e) := by
  cases c with
  | none => rfl
  | some b => cases b <;> rfl

theorem copyMasked_loop_eq_writeBox (r : ImageT T) (m : ImageT Bool) (s : ImageT T) :
    forLoop r.mChannels (fun k t =>
      forLoop r.mWidth (fun j t =>
        forLoop r.mHeight (fun i t =>
          t.assignIf i j k (m.get i j k) (s.get i j k)) t) t) r
      = writeBox r 0 0 0 r.mHeight r.mWidth r.mChannels
          (fun i j k => maskedExpr (m.get i j k) (s.get i j k)) := by
  unfold writeBox
  simp only [zero_add, assignIf_eq_assign]

/-- C27: for consistent receiver r, mask m and source s, `copyMasked(m, s)`
returns false and leaves r as it is when the shape of m or of s differs from
the shape of r; otherwise it returns true, r keeps its shape, and every pixel
of r holds the pixel of s where the mask is true and its previous value where
the mask is false.  The operands m and s are `const &` and are not written. -/
theorem c27_copyMasked [Inhabited T] (r : ImageT T) (m : ImageT Bool) (s : ImageT T)
    (hr : r.SizeInv) (hm : m.SizeInv) (hs : s.SizeInv) :
    (¬ ((r.mHeight = m.mHeight ∧ r.mWidth = m.mWidth ∧ r.mChannels = m.mChannels) ∧
        (r.mHeight = s.mHeight ∧ r.mWidth = s.mWidth ∧ r.mChannels = s.mChannels)) →
      copyMasked r m s = (false, r)) ∧
    (((r.mHeight = m.mHeight ∧ r.mWidth = m.mWidth ∧ r.mChannels = m.mChannels) ∧
        (r.mHeight = s.mHeight ∧ r.mWidth = s.mWidth ∧ r.mChannels = s.mChannels)) →
      (copyMasked r m s).1 = true ∧
      ((copyMasked r m s).2.mHeight = r.mHeight ∧ (copyMasked r m s).2.mWidth = r.mWidth ∧
        (copyMasked r m s).2.mChannels = r.mChannels) ∧
      ∀ i j k, r.InRange i j k →
        (copyMasked r m s).2.get i j k
          = if m.get i j k = some true then s.get i j k else r.get i j k) := by
  constructor
  · intro hne
    unfold copyMasked
    split_ifs with h1 h2
    · rfl
    · rfl
    · exfalso
      apply hne
      push_neg at h1 h2
      exact ⟨h1, h2⟩
  · rintro ⟨⟨m1, m2, m3⟩, ⟨s1, s2, s3⟩⟩
    have h1 : ¬ (r.mHeight ≠ m.mHeight ∨ r.mWidth ≠ m.mWidth ∨ r.mChannels ≠ m.mChannels) := by
      push_neg
      exact ⟨m1, m2, m3⟩
    have h2 : ¬ (r.mHeight ≠ s.mHeight ∨ r.mWidth ≠ s.mWidth ∨ r.mChannels ≠ s.mChannels) := by
      push_neg
      exact ⟨s1, s2, s3⟩
    have hcm : copyMasked r m s = (true, writeBox r 0 0 0 r.mHeight r.mWidth r.mChannels
        (fun i j k => maskedExpr (m.get i j k) (s.get i j k))) := by
      simp only [copyMasked, h1, h2, if_false, copyMasked_loop_eq_writeBox]
    have hbox : ∀ i j k, (0 : Int) ≤ i → i < 0 + r.mHeight → (0 : Int) ≤ j →
        j < 0 + r.mWidth → (0 : Int) ≤ k → k < 0 + r.mChannels → r.InRange i j k := by
      intro i j k a1 a2 a3 a4 a5 a6
      exact ⟨a1, by omega, a3, by omega, a5, by omega⟩
    have hfr := writeBox_sameFrame r 0 0 0 r.mHeight r.mWidth r.mChannels
      (fun i j k => maskedExpr (m.get i j k) (s.get i j k))
    rw [hcm]
    refine ⟨rfl, ⟨hfr.1, hfr.2.1, hfr.2.2.1⟩, ?_⟩
    intro i j k hin
    obtain ⟨a1, a2, a3, a4, a5, a6⟩ := id hin
    have hmin : m.InRange i j k := ⟨a1, by omega, a3, by omega, a5, by omega⟩
    have hsin : s.InRange i j k := ⟨a1, by omega, a3, by omega, a5, by omega⟩
    have hmg := get_eq_some_pix m i j k hm hmin
    have hsg := get_eq_some_pix s i j k hs hsin
    show (writeBox r 0 0 0 r.mHeight r.mWidth r.mChannels
      (fun i j k => maskedExpr (m.get i j k) (s.get i j k))).get i j k = _
    cases hb : m.pix i j k with
    | true =>
      rw [hb] at hmg
      have hv : (fun i j k => maskedExpr (m.get i j k) (s.get i j k)) i j k
          = some (s.pix i j k) := by
        simp only [hmg, hsg, maskedExpr]
      rw [writeBox_get_written r 0 0 0 _ _ _ _ hr hbox i j k a1 (by omega) a3 (by omega) a5
        (by omega) _ hv, if_pos hmg, hsg]
    | false =>
      rw [hb] at hmg
      have hv : (fun i j k => maskedExpr (m.get i j k) (s.get i j k)) i j k = none := by
        simp only [hmg, maskedExpr]
      have hnt : ¬ (m.get i j k = some true) := by
        rw [hmg]
        simp
      rw [writeBox_get_untouched r 0 0 0 _ _ _ _ hr hbox i j k hin (Or.inr hv), if_neg hnt]

/-- Witness for C27: receiver (1,...,6), mask true at offsets 0, 2 and 5,
source (10,...,60). -/
theorem c27_copyMasked_witness :
    (copyMasked (ImageT.mk 2 3 1 6 6 (some [1, 2, 3, 4, 5, 6]) : ImageT Int)
      (ImageT.mk 2 3 1 6 6 (some [true, false, true, false, false, true]))
      (ImageT.mk 2 3 1 6 6 (some [10, 20, 30, 40, 50, 60]))).1 = true :=
  ((c27_copyMasked (ImageT.mk 2 3 1 6 6 (some [1, 2, 3, 4, 5, 6]) : ImageT Int)
    (ImageT.mk 2 3 1 6 6 (some [true, false, true, false, false, true]))
    (ImageT.mk 2 3 1 6 6 (some [10, 20, 30, 40, 50, 60]))
    (by decide) (by decide) (by decide)).2 (by decide)).1

end ImageT

end Openvis3d

namespace Openvis3d

namespace ImageT

variable {T : Type}

/-! ## Bound resolution and `getSubImage` -/

theorem resolveLo_eq_spec (lo extent : Int) (h : 0 < extent) :
    resolveLo lo extent = boundLoSpec lo extent := by
  unfold resolveLo boundLoSpec
  by_cases h1 : lo < 0
  · have h2 : ¬ ((0 : Int) ≥ extent) := by omega
    simp only [h1, if_true, h2, if_false]
  · simp only [h1, if_false]

theorem resolveHi_eq_spec (hi extent : Int) : resolveHi hi extent = boundHiSpec hi extent := by
  unfold resolveHi boundHiSpec
  by_cases h1 : hi < 0
  · have h2 : ¬ (extent - 1 ≥ extent) := by omega
    simp only [h1, if_true, h2, if_false]
  · simp only [h1, if_false]

theorem boundLoSpec_range (lo extent : Int) (h : 0 < extent) :
    0 ≤ boundLoSpec lo extent ∧ boundLoSpec lo extent ≤ extent - 1 := by
  unfold boundLoSpec
  split_ifs <;> omega

theorem boundHiSpec_range (hi extent : Int) (h : 0 < extent) :
    0 ≤ boundHiSpec hi extent ∧ boundHiSpec hi extent ≤ extent - 1 := by
  unfold boundHiSpec
  split_ifs <;> omega

/-- The copy loops of `getSubImage` on the freshly sized result, for resolved
bounds `rl <= rh`, `cl <= ch`, `kl <= kh` inside a consistent image. -/
theorem subImage_loops [Inhabited T] [Zero T] (x : ImageT T) (hx : x.SizeInv)
    (hrep : x.IntMembers) (rl rh cl ch kl kh : Int)
    (hr0 : 0 ≤ rl) (hr1 : rl ≤ rh) (hr2 : rh < x.mHeight)
    (hc0 : 0 ≤ cl) (hc1 : cl ≤ ch) (hc2 : ch < x.mWidth)
    (hk0 : 0 ≤ kl) (hk1 : kl ≤ kh) (hk2 : kh < x.mChannels) :
    SameFrame
      (forFrom kl (kh + 1) (fun k r =>
        forFrom cl (ch + 1) (fun j r =>
          forFrom rl (rh + 1) (fun i r =>
            r.assign (i - rl) (j - cl) (k - kl) (x.get i j k)) r) r)
        ((new : ImageT T).resetDimensions (rh - rl + 1) (ch - cl + 1) (kh - kl + 1)))
      (zeroImage (rh - rl + 1) (ch - cl + 1) (kh - kl + 1)) ∧
    ∀ i j k, 0 ≤ i → i < rh - rl + 1 → 0 ≤ j → j < ch - cl + 1 → 0 ≤ k → k < kh - kl + 1 →
      (forFrom kl (kh + 1) (fun k r =>
        forFrom cl (ch + 1) (fun j r =>
          forFrom rl (rh + 1) (fun i r =>
            r.assign (i - rl) (j - cl) (k - kl) (x.get i j k)) r) r)
        ((new : ImageT T).resetDimensions (rh - rl + 1) (ch - cl + 1) (kh - kl + 1))).get i j k
        = x.get (rl + i) (cl + j) (kl + k) := by
  obtain ⟨b1, b2⟩ := inInt_sub_products x hx hrep (rh - rl + 1) (ch - cl + 1) (kh - kl + 1)
    (by omega) (by omega) (by omega) (by omega) (by omega) (by omega)
  have hres : (new : ImageT T).resetDimensions (rh - rl + 1) (ch - cl + 1) (kh - kl + 1)
      = zeroImage (rh - rl + 1) (ch - cl + 1) (kh - kl + 1) :=
    resetDimensions_new _ _ _ (by omega) (by omega) (by omega) b1 b2
  have hz : (zeroImage (rh - rl + 1) (ch - cl + 1) (kh - kl + 1) : ImageT T).SizeInv :=
    sizeInv_zeroImage _ _ _ (by
      have h1 : 0 < rh - rl + 1 := by omega
      have h2 : 0 < ch - cl + 1 := by omega
      have h3 : 0 < kh - kl + 1 := by omega
      positivity)
  have hloop : forFrom kl (kh + 1) (fun k r =>
        forFrom cl (ch + 1) (fun j r =>
          forFrom rl (rh + 1) (fun i r =>
            r.assign (i - rl) (j - cl) (k - kl) (x.get i j k)) r) r)
        ((new : ImageT T).resetDimensions (rh - rl + 1) (ch - cl + 1) (kh - kl + 1))
      = writeBox (zeroImage (rh - rl + 1) (ch - cl + 1) (kh - kl + 1)) 0 0 0
          (rh + 1 - rl) (ch + 1 - cl) (kh + 1 - kl)
          (fun i j k => x.get (rl + i) (cl + j) (kl + k)) := by
    rw [hres]
    unfold writeBox forFrom
    simp only [add_sub_cancel_left, zero_add]
  rw [hloop]
  have hbox : ∀ i j k, (0 : Int) ≤ i → i < 0 + (rh + 1 - rl) → (0 : Int) ≤ j →
      j < 0 + (ch + 1 - cl) → (0 : Int) ≤ k → k < 0 + (kh + 1 - kl) →
      (zeroImage (rh - rl + 1) (ch - cl + 1) (kh - kl + 1) : ImageT T).InRange i j k := by
    intro i j k a1 a2 a3 a4 a5 a6
    exact ⟨a1, by simp only [zeroImage]; omega, a3, by simp only [zeroImage]; omega, a5,
      by simp only [zeroImage]; omega⟩
  refine ⟨writeBox_sameFrame _ _ _ _ _ _ _ _, ?_⟩
  intro i j k a1 a2 a3 a4 a5 a6
  have hxin : x.InRange (rl + i) (cl + j) (kl + k) :=
    ⟨by omega, by omega, by omega, by omega, by omega, by omega⟩
  rw [writeBox_get_written _ 0 0 0 _ _ _ _ hz hbox i j k a1 (by omega) a3 (by omega) a5
    (by omega) (x.pix (rl + i) (cl + j) (kl + k)) (get_eq_some_pix x _ _ _ hx hxin)]
  exact (get_eq_some_pix x _ _ _ hx hxin).symm

end ImageT

end Openvis3d

namespace Openvis3d

namespace ImageT

variable {T : Type}

/-- C23: for a consistent image x with positive dimensions and `int` members
and all six bounds, resolved as for `sumRegion` (negative lower -> 0, negative upper -> extent-1,
any bound >= extent -> extent-1): when every resolved extent `hi - lo + 1` is
positive, `getSubImage` returns an image of shape
(rowHi-rowLo+1, colHi-colLo+1, chHi-chLo+1) whose pixel (i,j,k) is
x(rowLo+i, colLo+j, chLo+k); when some resolved extent is not positive it
returns the default-constructed empty image.  The receiver is only read. -/
theorem c23_getSubImage [Inhabited T] [Zero T] (x : ImageT T) (hx : x.SizeInv)
    (hrep : x.IntMembers) (hH : 0 < x.mHeight) (hW : 0 < x.mWidth) (hC : 0 < x.mChannels)
    (rowLo rowHi columnLo columnHi channelLo channelHi : Int) :
    ((boundLoSpec rowLo x.mHeight ≤ boundHiSpec rowHi x.mHeight ∧
        boundLoSpec columnLo x.mWidth ≤ boundHiSpec columnHi x.mWidth ∧
        boundLoSpec channelLo x.mChannels ≤ boundHiSpec channelHi x.mChannels) →
      ((getSubImage x rowLo rowHi columnLo columnHi channelLo channelHi).mHeight
          = boundHiSpec rowHi x.mHeight - boundLoSpec rowLo x.mHeight + 1 ∧
        (getSubImage x rowLo rowHi columnLo columnHi channelLo channelHi).mWidth
          = boundHiSpec columnHi x.mWidth - boundLoSpec columnLo x.mWidth + 1 ∧
        (getSubImage x rowLo rowHi columnLo columnHi channelLo channelHi).mChannels
          = boundHiSpec channelHi x.mChannels - boundLoSpec channelLo x.mChannels + 1) ∧
      ∀ i j k,
        0 ≤ i → i < boundHiSpec rowHi x.mHeight - boundLoSpec rowLo x.mHeight + 1 →
        0 ≤ j → j < boundHiSpec columnHi x.mWidth - boundLoSpec columnLo x.mWidth + 1 →
        0 ≤ k → k < boundHiSpec channelHi x.mChannels - boundLoSpec channelLo x.mChannels + 1 →
        (getSubImage x rowLo rowHi columnLo columnHi channelLo channelHi).get i j k
          = x.get (boundLoSpec rowLo x.mHeight + i) (boundLoSpec columnLo x.mWidth + j)
              (boundLoSpec channelLo x.mChannels + k)) ∧
    (¬ (boundLoSpec rowLo x.mHeight ≤ boundHiSpec rowHi x.mHeight ∧
        boundLoSpec columnLo x.mWidth ≤ boundHiSpec columnHi x.mWidth ∧
        boundLoSpec channelLo x.mChannels ≤ boundHiSpec channelHi x.mChannels) →
      getSubImage x rowLo rowHi columnLo columnHi channelLo channelHi = new) := by
  have rlr := boundLoSpec_range rowLo x.mHeight hH
  have rhr := boundHiSpec_range rowHi x.mHeight hH
  have clr := boundLoSpec_range columnLo x.mWidth hW
  have chr := boundHiSpec_range columnHi x.mWidth hW
  have klr := boundLoSpec_range channelLo x.mChannels hC
  have khr := boundHiSpec_range channelHi x.mChannels hC
  constructor
  · rintro ⟨h1, h2, h3⟩
    have e1 : ¬ (boundHiSpec rowHi x.mHeight - boundLoSpec rowLo x.mHeight + 1 ≤ 0) := by omega
    have e2 : ¬ (boundHiSpec columnHi x.mWidth - boundLoSpec columnLo x.mWidth + 1 ≤ 0) := by
      omega
    have e3 : ¬ (boundHiSpec channelHi x.mChannels - boundLoSpec channelLo x.mChannels + 1
        ≤ 0) := by omega
    obtain ⟨hf, hg⟩ := subImage_loops x hx hrep _ _ _ _ _ _ rlr.1 h1 (by omega) clr.1 h2
      (by omega)
      klr.1 h3 (by omega)
    simp only [getSubImage, resolveLo_eq_spec _ _ hH, resolveLo_eq_spec _ _ hW,
      resolveLo_eq_spec _ _ hC, resolveHi_eq_spec, e1, e2, e3, if_false]
    exact ⟨⟨hf.1, hf.2.1, hf.2.2.1⟩, hg⟩
  · intro hno
    simp only [getSubImage, resolveLo_eq_spec _ _ hH, resolveLo_eq_spec _ _ hW,
      resolveLo_eq_spec _ _ hC, resolveHi_eq_spec]
    split_ifs with e1 e2 e3
    · rfl
    · rfl
    · rfl
    · exfalso
      apply hno
      exact ⟨by omega, by omega, by omega⟩

/-- Witness for C23: rows 0..1 and columns 1..2 of the 2x3x1 image with rows
(1,3,5) and (2,4,6); the upper column bound 7 is clamped to 2 and the pixel
(0,0,0) of the result is x(0,1,0) = 3. -/
theorem c23_getSubImage_witness :
    (getSubImage (ImageT.mk 2 3 1 6 6 (some [1, 2, 3, 4, 5, 6]) : ImageT Int) 0 1 1 7 0 0).get
      0 0 0 = some 3 := by
  have h := ((c23_getSubImage (ImageT.mk 2 3 1 6 6 (some [1, 2, 3, 4, 5, 6]) : ImageT Int)
    (by decide) (by decide) (by decide) (by decide) (by decide) 0 1 1 7 0 0).1
    (by decide)).2 0 0 0
    (by decide) (by decide) (by decide) (by decide) (by decide) (by decide)
  rw [h]
  decide

end ImageT

end Openvis3d

namespace Openvis3d

namespace ImageT

variable {T : Type}

/-! ## `shiftImageXY` -/

theorem get_newCopy_false [Inhabited T] [Zero T] (x : ImageT T) (hx : x.SizeInv)
    (hpos : 0 < x.mSize) (i j k : Int) (hin : x.InRange i j k) :
    (newCopy x false).get i j k = some 0 := by
  have hsf := sameFrame_newCopy_false x hx hpos
  have hinv := sizeInv_of_sameFrame _ _ hx hsf
  obtain ⟨v, hv, hg⟩ := get_mem_elems (newCopy x false) i j k hinv
    ((inRange_of_sameFrame _ x i j k hsf).mpr hin)
  rw [newCopy_false_of_pos x hx hpos] at hv
  simp only [elems, Option.getD_some] at hv
  rw [hg, List.eq_of_mem_replicate hv]

/-- Shape and pixels of `shiftImageXY(x, columns, rows)` for a non-empty
consistent image. -/
theorem shiftImageXY_spec [Inhabited T] [Zero T] (x : ImageT T) (columns rows : Int)
    (hx : x.SizeInv) (hpos : 0 < x.mSize) :
    SameFrame (shiftImageXY x columns rows) x ∧
    ∀ i j k, x.InRange i j k →
      (shiftImageXY x columns rows).get i j k
        = if 0 ≤ i - rows ∧ i - rows < x.mHeight ∧ 0 ≤ j - columns ∧ j - columns < x.mWidth
          then x.get (i - rows) (j - columns) k else some 0 := by
  have hsf := sameFrame_newCopy_false x hx hpos
  have hrinv := sizeInv_of_sameFrame _ _ hx hsf
  have hh : (newCopy x false).mHeight = x.mHeight := hsf.1
  have hw : (newCopy x false).mWidth = x.mWidth := hsf.2.1
  have hc : (newCopy x false).mChannels = x.mChannels := hsf.2.2.1
  have hS : shiftImageXY x columns rows
      = writeBox (newCopy x false) (if rows ≥ 0 then rows else 0)
          (if columns ≥ 0 then columns else 0) 0
          ((if rows ≥ 0 then x.mHeight else x.mHeight + rows) - (if rows ≥ 0 then rows else 0))
          ((if columns ≥ 0 then x.mWidth else x.mWidth + columns)
            - (if columns ≥ 0 then columns else 0))
          x.mChannels (fun i j k => x.get (i - rows) (j - columns) k) := by
    unfold shiftImageXY writeBox forFrom
    simp only [hh, hw, hc, zero_add]
  have hbox : ∀ i j k, (if rows ≥ 0 then rows else 0) ≤ i →
      i < (if rows ≥ 0 then rows else 0) +
        ((if rows ≥ 0 then x.mHeight else x.mHeight + rows) - (if rows ≥ 0 then rows else 0)) →
      (if columns ≥ 0 then columns else 0) ≤ j →
      j < (if columns ≥ 0 then columns else 0) +
        ((if columns ≥ 0 then x.mWidth else x.mWidth + columns)
          - (if columns ≥ 0 then columns else 0)) →
      (0 : Int) ≤ k → k < 0 + x.mChannels → (newCopy x false).InRange i j k := by
    intro i j k a1 a2 a3 a4 a5 a6
    rw [inRange_of_sameFrame _ x i j k hsf]
    refine ⟨?_, ?_, ?_, ?_, a5, by omega⟩
    · split_ifs at a1 <;> omega
    · split_ifs at a2 <;> omega
    · split_ifs at a3 <;> omega
    · split_ifs at a4 <;> omega
  have hfr := writeBox_sameFrame (newCopy x false) (if rows ≥ 0 then rows else 0)
    (if columns ≥ 0 then columns else 0) 0
    ((if rows ≥ 0 then x.mHeight else x.mHeight + rows) - (if rows ≥ 0 then rows else 0))
    ((if columns ≥ 0 then x.mWidth else x.mWidth + columns)
      - (if columns ≥ 0 then columns else 0))
    x.mChannels (fun i j k => x.get (i - rows) (j - columns) k)
  rw [← hS] at hfr
  have hframe : SameFrame (shiftImageXY x columns rows) x := by
    obtain ⟨a1, a2, a3, a4, a5, a6⟩ := hfr
    obtain ⟨b1, b2, b3, b4, b5, b6⟩ := hsf
    exact ⟨a1.trans b1, a2.trans b2, a3.trans b3, a4.trans b4, a5.trans b5, a6.trans b6⟩
  refine ⟨hframe, ?_⟩
  intro i j k hin
  obtain ⟨p1, p2, p3, p4, p5, p6⟩ := id hin
  have hrin : (newCopy x false).InRange i j k := (inRange_of_sameFrame _ x i j k hsf).mpr hin
  rw [hS]
  by_cases hsrc : 0 ≤ i - rows ∧ i - rows < x.mHeight ∧ 0 ≤ j - columns ∧ j - columns < x.mWidth
  · rw [if_pos hsrc]
    obtain ⟨s1, s2, s3, s4⟩ := hsrc
    have hxin : x.InRange (i - rows) (j - columns) k := ⟨s1, s2, s3, s4, p5, p6⟩
    rw [writeBox_get_written _ _ _ _ _ _ _ _ hrinv hbox i j k
      (by split_ifs <;> omega) (by split_ifs <;> omega) (by split_ifs <;> omega)
      (by split_ifs <;> omega) p5 (by omega) (x.pix (i - rows) (j - columns) k)
      (get_eq_some_pix x _ _ _ hx hxin)]
    exact (get_eq_some_pix x _ _ _ hx hxin).symm
  · rw [if_neg hsrc, writeBox_get_untouched _ _ _ _ _ _ _ _ hrinv hbox i j k hrin
      (Or.inl (by
        rintro ⟨b1, b2, b3, b4, _, _⟩
        apply hsrc
        refine ⟨?_, ?_, ?_, ?_⟩
        · split_ifs at b1 b2 <;> omega
        · split_ifs at b1 b2 <;> omega
        · split_ifs at b3 b4 <;> omega
        · split_ifs at b3 b4 <;> omega))]
    exact get_newCopy_false x hx hpos i j k hin

theorem shiftImageXY_of_empty [Inhabited T] [Zero T] (x : ImageT T) (columns rows : Int)
    (hz : x.mSize = 0) : shiftImageXY x columns rows = new := by
  simp only [shiftImageXY, newCopy_of_empty x false hz]
  simp [new, forLoop]

end ImageT

end Openvis3d

namespace Openvis3d

namespace ImageT

variable {T : Type}

/-- C24 (counterexample to the claim as written): the image built by
`ImageT<int>(0,5,1)` has width 5 and no buffer; `shiftImageXY` starts from the
shape-only copy `ImageT<T> result(input,false)`, which for a source without
data is the default image, so the shifted image has shape `(0,0,0)`, not the
shape `(0,5,1)` of its input. -/
theorem c24_shiftImageXY_empty_counterexample :
    (newDims 0 5 1 : ImageT Int).mWidth = 5 ∧
    (newDims 0 5 1 : ImageT Int).mChannels = 1 ∧
    (shiftImageXY (newDims 0 5 1 : ImageT Int) 1 0).mWidth = 0 ∧
    (shiftImageXY (newDims 0 5 1 : ImageT Int) 1 0).mChannels = 0 := by
  decide

/-- C24 (amended): for every consistent image `x` of shape `(H, W, C)` that is
non-empty or has shape `(0, 0, 0)`, and all integers `columns`, `rows`,
`shiftImageXY(x, columns, rows)` has the shape of `x`; its element `(i, j, k)`
is `x(i - rows, j - columns, k)` when `0 <= i - rows < H` and
`0 <= j - columns < W`, and zero otherwise; and every coordinate at which the
loop nest reads `x` (rows `iLow..iHigh-1`, columns `jLow..jHigh-1`, channels
`0..C-1`, shifted back by `rows` and `columns`) lies inside `x`. -/
theorem c24_shiftImageXY [Inhabited T] [Zero T] (x : ImageT T) (columns rows : Int)
    (hx : x.SizeInv)
    (hne : 0 < x.mSize ∨ (x.mHeight = 0 ∧ x.mWidth = 0 ∧ x.mChannels = 0)) :
    (shiftImageXY x columns rows).mHeight = x.mHeight ∧
    (shiftImageXY x columns rows).mWidth = x.mWidth ∧
    (shiftImageXY x columns rows).mChannels = x.mChannels ∧
    (∀ i j k, x.InRange i j k →
      (shiftImageXY x columns rows).get i j k
        = if 0 ≤ i - rows ∧ i - rows < x.mHeight ∧ 0 ≤ j - columns ∧ j - columns < x.mWidth
          then x.get (i - rows) (j - columns) k else some 0) ∧
    (∀ i j k, (if rows ≥ 0 then rows else 0) ≤ i →
      i < (if rows ≥ 0 then x.mHeight else x.mHeight + rows) →
      (if columns ≥ 0 then columns else 0) ≤ j →
      j < (if columns ≥ 0 then x.mWidth else x.mWidth + columns) →
      0 ≤ k → k < x.mChannels → x.InRange (i - rows) (j - columns) k) := by
  have hreads : ∀ i j k, (if rows ≥ 0 then rows else 0) ≤ i →
      i < (if rows ≥ 0 then x.mHeight else x.mHeight + rows) →
      (if columns ≥ 0 then columns else 0) ≤ j →
      j < (if columns ≥ 0 then x.mWidth else x.mWidth + columns) →
      0 ≤ k → k < x.mChannels → x.InRange (i - rows) (j - columns) k := by
    intro i j k a1 a2 a3 a4 a5 a6
    refine ⟨?_, ?_, ?_, ?_, a5, a6⟩
    · split_ifs at a1 <;> omega
    · split_ifs at a2 <;> omega
    · split_ifs at a3 <;> omega
    · split_ifs at a4 <;> omega
  rcases hne with hpos | ⟨h0, w0, c0⟩
  · obtain ⟨hsf, hget⟩ := shiftImageXY_spec x columns rows hx hpos
    exact ⟨hsf.1, hsf.2.1, hsf.2.2.1, hget, hreads⟩
  · have hz : x.mSize = 0 := by rw [hx.1, h0, w0, c0]; rfl
    rw [shiftImageXY_of_empty x columns rows hz]
    refine ⟨h0.symm, w0.symm, c0.symm, ?_, hreads⟩
    intro i j k hin
    obtain ⟨p1, p2, _⟩ := hin
    omega

/-- C24 (witness): the 2x2x1 image holding (1, 2, 3, 4) in column-major order,
shifted by one column: element (0, 1, 0) of the result is `x(0, 0, 0) = 1` and
element (0, 0, 0) is zero. -/
theorem c24_shiftImageXY_witness :
    (shiftImageXY (ImageT.mk 2 2 1 4 4 (some [1, 2, 3, 4]) : ImageT Int) 1 0).get 0 1 0
      = some 1 ∧
    (shiftImageXY (ImageT.mk 2 2 1 4 4 (some [1, 2, 3, 4]) : ImageT Int) 1 0).get 0 0 0
      = some 0 := by
  have h := (c24_shiftImageXY (ImageT.mk 2 2 1 4 4 (some [1, 2, 3, 4]) : ImageT Int) 1 0
    (by decide) (Or.inl (by decide))).2.2.2.1
  refine ⟨?_, ?_⟩
  · rw [h 0 1 0 (by decide)]
    decide
  · rw [h 0 0 0 (by decide)]
    decide

/-! ## `resizeNearestNbr` at scale 1 -/

end ImageT

end Openvis3d

namespace Openvis3d

namespace ImageT

variable {T : Type}

end ImageT

end Openvis3d

namespace Openvis3d

namespace ImageT

variable {T : Type}

/-! ## `sumRegion`, `sumAll`, `L1Norm`, `L2Norm` -/

end ImageT

end Openvis3d

namespace Openvis3d

namespace ImageT

variable {T : Type}

end ImageT

end Openvis3d

namespace Openvis3d

namespace ImageT

variable {T : Type}

/-! ## `normalizeIntensityRange` -/

/-- The search loop of `normalizeIntensityRange`: started at `(d[0], d[0])`, it
ends with two elements of the buffer that bound every element. -/
theorem minMax_loop [LinearOrderedField T] (d : List T) (n : Int) (v0 : T)
    (hlen : (d.length : Int) = n) (hpos : 0 < n) (hv0 : d[0]? = some v0) :
    (forFrom 1 n (fun i (mm : T × T) =>
        match d[i.toNat]? with
        | some v => (if mm.1 > v then v else mm.1, if mm.2 < v then v else mm.2)
        | none => mm) (v0, v0)).1 ∈ d ∧
    (forFrom 1 n (fun i (mm : T × T) =>
        match d[i.toNat]? with
        | some v => (if mm.1 > v then v else mm.1, if mm.2 < v then v else mm.2)
        | none => mm) (v0, v0)).2 ∈ d ∧
    ∀ e ∈ d,
      (forFrom 1 n (fun i (mm : T × T) =>
        match d[i.toNat]? with
        | some v => (if mm.1 > v then v else mm.1, if mm.2 < v then v else mm.2)
        | none => mm) (v0, v0)).1 ≤ e ∧
      e ≤ (forFrom 1 n (fun i (mm : T × T) =>
        match d[i.toNat]? with
        | some v => (if mm.1 > v then v else mm.1, if mm.2 < v then v else mm.2)
        | none => mm) (v0, v0)).2 := by
  have key := forLoop_induct_idx
    (fun (m : Nat) (mm : T × T) => mm.1 ∈ d ∧ mm.2 ∈ d ∧
      ∀ (t : Nat) (e : T), t < m + 1 → d[t]? = some e → mm.1 ≤ e ∧ e ≤ mm.2)
    (n - 1)
    (fun (m : Nat) (mm : T × T) =>
      match d[(1 + (m : Int)).toNat]? with
      | some v => (if mm.1 > v then v else mm.1, if mm.2 < v then v else mm.2)
      | none => mm)
    ?_ (v0, v0) ?_
  · obtain ⟨h1, h2, h3⟩ := key
    refine ⟨h1, h2, ?_⟩
    intro e he
    obtain ⟨t, ht, hte⟩ := List.getElem_of_mem he
    exact h3 t e (by omega) (by rw [List.getElem?_eq_getElem ht, hte])
  · intro m mm hm ⟨h1, h2, h3⟩
    have hidx : (1 + (m : Int)).toNat = m + 1 := by omega
    simp only [hidx]
    cases hv : d[m + 1]? with
    | none =>
      refine ⟨h1, h2, ?_⟩
      intro t e ht hte
      have hge : d.length ≤ m + 1 := List.getElem?_eq_none_iff.mp hv
      have hlt : t < d.length := by
        by_contra hcon
        rw [List.getElem?_eq_none (by omega)] at hte
        exact Option.noConfusion hte
      exact h3 t e (by omega) hte
    | some v =>
      have hvm : v ∈ d := List.getElem?_mem hv
      refine ⟨?_, ?_, ?_⟩
      · show (if mm.1 > v then v else mm.1) ∈ d
        split_ifs
        · exact hvm
        · exact h1
      · show (if mm.2 < v then v else mm.2) ∈ d
        split_ifs
        · exact hvm
        · exact h2
      · intro t e ht hte
        show (if mm.1 > v then v else mm.1) ≤ e ∧ e ≤ (if mm.2 < v then v else mm.2)
        by_cases htm : t < m + 1
        · obtain ⟨b1, b2⟩ := h3 t e htm hte
          constructor
          · split_ifs with hc
            · exact le_trans (le_of_lt hc) b1
            · exact b1
          · split_ifs with hc
            · exact le_trans b2 (le_of_lt hc)
            · exact b2
        · have hteq : t = m + 1 := by omega
          rw [hteq, hv] at hte
          have hev : v = e := Option.some.inj hte
          rw [← hev]
          constructor
          · split_ifs with hc
            · exact le_refl v
            · exact not_lt.mp hc
          · split_ifs with hc
            · exact le_refl v
            · exact not_lt.mp hc
  · have hm : v0 ∈ d := List.getElem?_mem hv0
    refine ⟨hm, hm, ?_⟩
    intro t e ht hte
    have ht0 : t = 0 := by omega
    rw [ht0, hv0] at hte
    have hev : v0 = e := Option.some.inj hte
    rw [← hev]
    exact ⟨le_refl v0, le_refl v0⟩

/-- The two branches of `normalizeIntensityRange` on a non-empty buffer. -/
theorem normalizeIntensityRange_of_buffer [LinearOrderedField T] (x : ImageT T) (d : List T)
    (v0 : T) (hne : x.mSize ≠ 0) (hd : x.mData = some d) (hv0 : d[0]? = some v0) :
    ∃ mn mx : T,
      (forFrom 1 x.mSize (fun i (mm : T × T) =>
        match d[i.toNat]? with
        | some v => (if mm.1 > v then v else mm.1, if mm.2 < v then v else mm.2)
        | none => mm) (v0, v0)) = (mn, mx) ∧
      normalizeIntensityRange x
        = if mn = mx then x
          else ImageT.mk x.mHeight x.mWidth x.mChannels x.mHeightTimesWidth x.mSize
            (some (forLoop x.mSize (updateAt (fun v => (v - mn) / (mx - mn))) d)) := by
  refine ⟨_, _, rfl, ?_⟩
  simp only [normalizeIntensityRange, if_neg hne, hd, hv0]
  rfl

theorem buffer_of_pos (x : ImageT T) (hx : x.SizeInv) (hpos : 0 < x.mSize) :
    ∃ d v0, x.mData = some d ∧ d[0]? = some v0 ∧ (d.length : Int) = x.mSize ∧ x.elems = d := by
  have hlen := hx.2.2
  cases hd : x.mData with
  | none =>
    simp [elems, hd] at hlen
    omega
  | some d =>
    have hl : (d.length : Int) = x.mSize := by simpa [elems, hd] using hlen
    have h0 : 0 < d.length := by omega
    exact ⟨d, d[0], rfl, List.getElem?_eq_getElem h0, hl, by simp [elems, hd]⟩

/-- C26: over an ordered field (the rationals in particular), for every
consistent image `x`: `normalizeIntensityRange` never changes the shape; it
leaves `x` unchanged when `x` is empty or all its elements are equal; and when
`x` is non-empty with minimum element `mn` different from its maximum `mx`, it
replaces each element `v` by `(v - mn)/(mx - mn)`, so that afterwards every
element lies in `[0,1]`, some element is 0 and some element is 1. -/
theorem c26_normalizeIntensityRange [LinearOrderedField T] (x : ImageT T) (hx : x.SizeInv) :
    ((normalizeIntensityRange x).mHeight = x.mHeight ∧
      (normalizeIntensityRange x).mWidth = x.mWidth ∧
      (normalizeIntensityRange x).mChannels = x.mChannels) ∧
    ((x.mSize = 0 ∨ ∀ a ∈ x.elems, ∀ b ∈ x.elems, a = b) → normalizeIntensityRange x = x) ∧
    (∀ mn mx : T, 0 < x.mSize → mn ∈ x.elems → (∀ e ∈ x.elems, mn ≤ e) →
      mx ∈ x.elems → (∀ e ∈ x.elems, e ≤ mx) → mn ≠ mx →
      (normalizeIntensityRange x).elems = x.elems.map (fun v => (v - mn) / (mx - mn)) ∧
      (∀ e ∈ (normalizeIntensityRange x).elems, 0 ≤ e ∧ e ≤ 1) ∧
      (0 : T) ∈ (normalizeIntensityRange x).elems ∧
      (1 : T) ∈ (normalizeIntensityRange x).elems) := by
  by_cases hz : x.mSize = 0
  · have hself : normalizeIntensityRange x = x := by
      simp only [normalizeIntensityRange, if_pos hz]
    rw [hself]
    refine ⟨⟨rfl, rfl, rfl⟩, fun _ => rfl, ?_⟩
    intro mn mx hpos
    omega
  · have hpos : 0 < x.mSize := by
      have := hx.2.2
      omega
    obtain ⟨d, v0, hd, hv0, hl, hel⟩ := buffer_of_pos x hx hpos
    obtain ⟨lo, hi, hmm, hN⟩ := normalizeIntensityRange_of_buffer x d v0 hz hd hv0
    obtain ⟨m1, m2, m3⟩ := minMax_loop d x.mSize v0 hl hpos hv0
    rw [hmm] at m1 m2 m3
    simp only at m1 m2 m3
    rw [hN, hel]
    refine ⟨?_, ?_, ?_⟩
    · split_ifs
      · exact ⟨rfl, rfl, rfl⟩
      · exact ⟨rfl, rfl, rfl⟩
    · rintro (h0 | hall)
      · exact absurd h0 hz
      · rw [if_pos (hall lo m1 hi m2)]
    · intro mn mx _ hmn hmnle hmx hmxle hneq
      have elo : lo = mn := le_antisymm ((m3 mn hmn).1) (hmnle lo m1)
      have ehi : hi = mx := le_antisymm (hmxle hi m2) ((m3 mx hmx).2)
      have hlt : mn < mx := lt_of_le_of_ne (hmnle mx hmx) hneq
      have hrange : 0 < mx - mn := sub_pos.mpr hlt
      rw [elo, ehi, if_neg hneq]
      have hup : forLoop x.mSize (updateAt (fun v => (v - mn) / (mx - mn))) d
          = d.map (fun v => (v - mn) / (mx - mn)) := forLoop_update _ _ _ (by omega)
      simp only [elems, Option.getD_some, hup]
      refine ⟨trivial, ?_, ?_, ?_⟩
      · intro e he
        obtain ⟨v, hv, hve⟩ := List.mem_map.mp he
        rw [← hve]
        constructor
        · exact div_nonneg (sub_nonneg.mpr (hmnle v hv)) (le_of_lt hrange)
        · rw [div_le_one hrange]
          exact sub_le_sub_right (hmxle v hv) mn
      · exact List.mem_map.mpr ⟨mn, hmn, by simp⟩
      · exact List.mem_map.mpr ⟨mx, hmx, div_self (ne_of_gt hrange)⟩

/-- C26 (witness): over the rationals the 2x2x1 image holding (3, 1, 5, 2) has
minimum 1 and maximum 5 and becomes (1/2, 0, 1, 1/4). -/
theorem c26_normalizeIntensityRange_witness :
    (normalizeIntensityRange (ImageT.mk 2 2 1 4 4 (some [3, 1, 5, 2]) : ImageT ℚ)).elems
      = [1 / 2, 0, 1, 1 / 4] := by
  have h := ((c26_normalizeIntensityRange (ImageT.mk 2 2 1 4 4 (some [3, 1, 5, 2]) : ImageT ℚ)
    ⟨rfl, rfl, rfl⟩).2.2 1 5 (by decide) (by simp [elems])
    (by
      simp only [elems, Option.getD_some, List.mem_cons, List.mem_nil_iff, or_false]
      rintro e (h | h | h | h) <;> rw [h] <;> norm_num)
    (by simp [elems])
    (by
      simp only [elems, Option.getD_some, List.mem_cons, List.mem_nil_iff, or_false]
      rintro e (h | h | h | h) <;> rw [h] <;> norm_num)
    (by norm_num)).1
  rw [h]
  simp only [elems, Option.getD_some, List.map_cons, List.map_nil]
  norm_num

end ImageT

end Openvis3d

namespace Openvis3d

namespace ImageT

variable {T : Type}

/-! ## Rounding, and the coordinates read by region sums and resizing -/

/-- C31 (evaluation at the failing input): `ov_round(-1.75)` is
`int(-1.25) = -1`, because the conversion to `int` truncates toward zero,
while the integer nearest to -1.75, `floor(-1.75 + 1/2)`, is -2. -/
theorem c31_ov_round_truncates_negative :
    ov_round (-7 / 4) = -1 ∧ ⌊(-7 / 4 : ℚ) + 1 / 2⌋ = -2 := by
  constructor
  · have h : ¬ ((0 : ℚ) ≤ -7 / 4 + 1 / 2) := by norm_num
    simp only [ov_round, truncToInt, if_neg h]
    rw [Int.ceil_eq_iff]
    constructor <;> norm_num
  · rw [Int.floor_eq_iff]
    constructor <;> norm_num

/-- C32 (evaluation at the failing input): for the default-constructed empty
image every extent is 0, each lower bound resolves to `0 - 1 = -1` and each
upper bound to `-1`, so the loop nest of `sumAll` runs once and evaluates
`input(-1,-1,-1)`, a coordinate outside the image and outside its (null)
buffer. -/
theorem c32_sumAll_empty_reads_outside :
    sumRegionReads (new : ImageT Int) (-1) (-1) (-1) (-1) (-1) (-1) = [(-1, -1, -1)] ∧
    ¬ (new : ImageT Int).InRange (-1) (-1) (-1) ∧
    (new : ImageT Int).get (-1) (-1) (-1) = none := by
  decide

/-- C33 (evaluation at the failing input): the sub-image of the
default-constructed empty image, with all bounds defaulted, has shape
`(1, 1, 1)`: each pair of bounds resolves to `-1 .. -1`, an extent of 1. -/
theorem c33_getSubImage_of_empty_is_larger :
    (getSubImage (new : ImageT Int) (-1) (-1) (-1) (-1) (-1) (-1)).mHeight = 1 ∧
    (getSubImage (new : ImageT Int) (-1) (-1) (-1) (-1) (-1) (-1)).mWidth = 1 ∧
    (getSubImage (new : ImageT Int) (-1) (-1) (-1) (-1) (-1) (-1)).mChannels = 1 ∧
    (new : ImageT Int).mHeight = 0 := by
  decide

end ImageT

end Openvis3d

namespace Openvis3d

namespace ImageT

variable {T : Type}

theorem resolveLo_range (lo extent : Int) (h : 0 < extent) :
    0 ≤ resolveLo lo extent ∧ resolveLo lo extent ≤ extent - 1 := by
  rw [resolveLo_eq_spec lo extent h]
  exact boundLoSpec_range lo extent h

theorem resolveHi_range (hi extent : Int) (h : 0 < extent) :
    0 ≤ resolveHi hi extent ∧ resolveHi hi extent ≤ extent - 1 := by
  rw [resolveHi_eq_spec hi extent]
  exact boundHiSpec_range hi extent h

/-- On an image with positive dimensions every coordinate read by `sumRegion`
is inside the image. -/
theorem sumRegionReads_inRange (x : ImageT T) (hH : 0 < x.mHeight) (hW : 0 < x.mWidth)
    (hC : 0 < x.mChannels) (rowLo rowHi columnLo columnHi channelLo channelHi : Int) :
    ∀ p ∈ sumRegionReads x rowLo rowHi columnLo columnHi channelLo channelHi,
      x.InRange p.1 p.2.1 p.2.2 := by
  unfold sumRegionReads forFrom
  have r1 := resolveLo_range rowLo _ hH
  have r2 := resolveHi_range rowHi _ hH
  have c1 := resolveLo_range columnLo _ hW
  have c2 := resolveHi_range columnHi _ hW
  have k1 := resolveLo_range channelLo _ hC
  have k2 := resolveHi_range channelHi _ hC
  refine nest3_induct (fun reads => ∀ p ∈ reads, x.InRange p.1 p.2.1 p.2.2) _ _ _
    (fun a b c reads => reads ++ [(resolveLo rowLo x.mHeight + (a : Int),
      resolveLo columnLo x.mWidth + (b : Int), resolveLo channelLo x.mChannels + (c : Int))])
    ?_ [] ?_
  · intro a b c s ha hb hc hs p hp
    rcases List.mem_append.mp hp with h | h
    · exact hs p h
    · rw [List.mem_singleton] at h
      rw [h]
      refine ⟨?_, ?_, ?_, ?_, ?_, ?_⟩ <;> dsimp only <;> omega
  · intro p hp
    exact absurd hp (List.not_mem_nil p)

/-! ## The offset map of `operator()` -/

/-- Every offset below `H*W*C` is the offset of a coordinate inside the image. -/
theorem offset_surj (H W C n : Int) (hH : 0 < H) (hW : 0 < W) (h0 : 0 ≤ n)
    (h1 : n < H * W * C) :
    ∃ i j k, (0 ≤ i ∧ i < H) ∧ (0 ≤ j ∧ j < W) ∧ (0 ≤ k ∧ k < C) ∧
      k * (H * W) + j * H + i = n := by
  refine ⟨n % H, (n / H) % W, (n / H) / W,
    ⟨Int.emod_nonneg _ (ne_of_gt hH), Int.emod_lt_of_pos _ hH⟩,
    ⟨Int.emod_nonneg _ (ne_of_gt hW), Int.emod_lt_of_pos _ hW⟩, ⟨?_, ?_⟩, ?_⟩
  · exact Int.ediv_nonneg (Int.ediv_nonneg h0 hH.le) hW.le
  · apply Int.ediv_lt_of_lt_mul hW
    apply Int.ediv_lt_of_lt_mul hH
    calc n < H * W * C := h1
      _ = C * W * H := by ring
  · have e1 := Int.ediv_add_emod n H
    have e2 := Int.ediv_add_emod (n / H) W
    calc (n / H) / W * (H * W) + (n / H) % W * H + n % H
        = H * (W * ((n / H) / W) + (n / H) % W) + n % H := by ring
      _ = H * (n / H) + n % H := by rw [e2]
      _ = n := e1

/-- C36: for every consistent image of positive shape `(H, W, C)` the offset
computed by `operator()` is `channel*(H*W) + col*H + row`; it maps the
coordinates of `[0,H) x [0,W) x [0,C)` into `[0, H*W*C)`, which is the extent
of the buffer, it is injective on them, and every offset in `[0, H*W*C)` is the
offset of such a coordinate; a write at one coordinate inside the image is
read back there and changes the value read at no other coordinate inside the
image. -/
theorem c36_offset_bijection (s : ImageT T) (hinv : s.SizeInv) (hH : 0 < s.mHeight)
    (hW : 0 < s.mWidth) (_hC : 0 < s.mChannels) :
    (∀ i j k, s.operatorCall i j k = k * (s.mHeight * s.mWidth) + j * s.mHeight + i) ∧
    ((s.elems.length : Int) = s.mHeight * s.mWidth * s.mChannels) ∧
    (∀ i j k, s.InRange i j k →
      0 ≤ s.operatorCall i j k ∧ s.operatorCall i j k < s.mHeight * s.mWidth * s.mChannels) ∧
    (∀ i j k i2 j2 k2, s.InRange i j k → s.InRange i2 j2 k2 →
      s.operatorCall i j k = s.operatorCall i2 j2 k2 → i = i2 ∧ j = j2 ∧ k = k2) ∧
    (∀ n, 0 ≤ n → n < s.mHeight * s.mWidth * s.mChannels →
      ∃ i j k, s.InRange i j k ∧ s.operatorCall i j k = n) ∧
    (∀ i j k v, s.InRange i j k → (s.set i j k v).get i j k = some v) ∧
    (∀ i j k i2 j2 k2 v, s.InRange i j k → s.InRange i2 j2 k2 →
      ¬ (i = i2 ∧ j = j2 ∧ k = k2) → (s.set i j k v).get i2 j2 k2 = s.get i2 j2 k2) := by
  have hoff : ∀ i j k,
      s.operatorCall i j k = k * (s.mHeight * s.mWidth) + j * s.mHeight + i := by
    intro i j k
    simp only [operatorCall, hinv.2.1]
  refine ⟨hoff, ?_, ?_, ?_, ?_, ?_, ?_⟩
  · rw [hinv.2.2, hinv.1]
  · intro i j k ⟨a1, a2, a3, a4, a5, a6⟩
    rw [hoff]
    exact offset_bounds _ _ _ i j k a1 a2 a3 a4 a5 a6
  · intro i j k i2 j2 k2 ⟨a1, a2, a3, a4, _, _⟩ ⟨b1, b2, b3, b4, _, _⟩ h
    rw [hoff, hoff] at h
    exact offset_inj _ _ i j k i2 j2 k2 a1 a2 a3 a4 b1 b2 b3 b4 h
  · intro n h0 h1
    obtain ⟨i, j, k, hi, hj, hk, h⟩ := offset_surj _ _ _ n hH hW h0 h1
    exact ⟨i, j, k, ⟨hi.1, hi.2, hj.1, hj.2, hk.1, hk.2⟩, by rw [hoff, h]⟩
  · intro i j k v hin
    exact get_set_same s i j k v hinv hin
  · intro i j k i2 j2 k2 v hin hin2 hne
    exact get_set_other s i j k i2 j2 k2 v hinv hin hin2 hne

/-- C36 (witness): in the 2x3x1 image holding (1, 2, 3, 4, 5, 6) the
coordinate (1, 2, 0) has offset 5, the last element; writing 9 at (0, 1, 0)
leaves the 6 read at (1, 2, 0). -/
theorem c36_offset_bijection_witness :
    (ImageT.mk 2 3 1 6 6 (some [1, 2, 3, 4, 5, 6]) : ImageT Int).operatorCall 1 2 0 = 5 ∧
    ((ImageT.mk 2 3 1 6 6 (some [1, 2, 3, 4, 5, 6]) : ImageT Int).set 0 1 0 9).get 1 2 0
      = some 6 := by
  have h := c36_offset_bijection (ImageT.mk 2 3 1 6 6 (some [1, 2, 3, 4, 5, 6]) : ImageT Int)
    (by decide) (by decide) (by decide) (by decide)
  refine ⟨?_, ?_⟩
  · rw [h.1]
    decide
  · rw [h.2.2.2.2.2.2 0 1 0 1 2 0 9 (by decide) (by decide) (by decide)]
    decide

end ImageT

end Openvis3d

namespace Openvis3d

namespace ImageT

variable {T : Type}

/-! ## `sumAll` of a sub-image -/

end ImageT

end Openvis3d

namespace Openvis3d

/-! ## Loops over a window -/

theorem foldl_flatMap_eq {α β σ : Type} (step : σ → β → σ) (f : α → List β) :
    ∀ (l : List α) (a : σ),
      l.foldl (fun acc i => (f i).foldl step acc) a = (l.flatMap f).foldl step a := by
  intro l
  induction l with
  | nil => intro a; rfl
  | cons h t ih =>
    intro a
    rw [List.foldl_cons, List.flatMap_cons, List.foldl_append, ih]

/-- A nest of two counted loops that skips some columns and some rows and
otherwise applies `step` to the value of the tap is a fold of `step` over the
list of the values of the taps that are not skipped. -/
theorem nestLoop_eq_foldl {σ β : Type} (step : σ → β → σ) (fw fh : Int)
    (colOut : Nat → Prop) (rowOut : Nat → Prop) [DecidablePred colOut] [DecidablePred rowOut]
    (val : Nat → Nat → β) (a0 : σ) :
    forLoop fw (fun jK acc =>
        if colOut jK then acc
        else forLoop fh (fun iK acc => if rowOut iK then acc else step acc (val iK jK)) acc) a0
      = ((List.range fw.toNat).flatMap (fun jK =>
          if colOut jK then []
          else (List.range fh.toNat).flatMap (fun iK =>
            if rowOut iK then [] else [val iK jK]))).foldl step a0 := by
  rw [← foldl_flatMap_eq]
  unfold forLoop
  congr 1
  funext acc jK
  by_cases hc : colOut jK
  · simp only [hc, if_true, List.foldl_nil]
  · simp only [hc, if_false]
    rw [← foldl_flatMap_eq]
    congr 1
    funext acc2 iK
    by_cases hr : rowOut iK
    · simp only [hr, if_true, List.foldl_nil]
    · simp only [hr, if_false, List.foldl_cons, List.foldl_nil]

/-- Folding a selection `pick` (which returns one of its two arguments, related
by `R` to both) over a list: the result is related to the seed and to every
element, and is the seed or an element. -/
theorem foldl_pick_spec {β : Type} (pick : β → β → β) (R : β → β → Prop)
    (hrefl : ∀ a, R a a) (htrans : ∀ a b c, R a b → R b c → R a c)
    (hp1 : ∀ r t, R (pick r t) r) (hp2 : ∀ r t, R (pick r t) t)
    (hp3 : ∀ r t, pick r t = r ∨ pick r t = t) :
    ∀ (l : List β) (a : β),
      R (l.foldl pick a) a ∧ (∀ t ∈ l, R (l.foldl pick a) t) ∧
        (l.foldl pick a = a ∨ l.foldl pick a ∈ l) := by
  intro l
  induction l with
  | nil =>
    intro a
    exact ⟨hrefl a, fun t ht => absurd ht (List.not_mem_nil t), Or.inl rfl⟩
  | cons h t ih =>
    intro a
    obtain ⟨i1, i2, i3⟩ := ih (pick a h)
    rw [List.foldl_cons]
    refine ⟨htrans _ _ _ i1 (hp1 a h), ?_, ?_⟩
    · intro u hu
      rcases List.mem_cons.mp hu with hu | hu
      · rw [hu]
        exact htrans _ _ _ i1 (hp2 a h)
      · exact i2 u hu
    · rcases i3 with h3 | h3
      · rcases hp3 a h with h4 | h4
        · left
          rw [h3, h4]
        · right
          rw [h3, h4]
          exact List.mem_cons_self _ _
      · right
        exact List.mem_cons_of_mem _ h3

theorem foldl_snoc_eq {β : Type} (l : List β) :
    ∀ a : List β, l.foldl (fun acc v => acc ++ [v]) a = a ++ l := by
  induction l with
  | nil => intro a; simp
  | cons h t ih =>
    intro a
    rw [List.foldl_cons, ih]
    simp

namespace ImageT

variable {T : Type}

/-- Membership in the window list, by coordinates. -/
theorem mem_windowValues [Inhabited T] (x : ImageT T) (fh fw i j k : Int) (v : T) :
    v ∈ windowValues x fh fw i j k ↔
      ∃ i2 j2 : Int, (i - fh / 2 ≤ i2 ∧ i2 ≤ i - fh / 2 + fh - 1) ∧
        (j - fw / 2 ≤ j2 ∧ j2 ≤ j - fw / 2 + fw - 1) ∧
        (0 ≤ i2 ∧ i2 < x.mHeight) ∧ (0 ≤ j2 ∧ j2 < x.mWidth) ∧ v = x.pix i2 j2 k := by
  unfold windowValues
  simp only [List.mem_flatMap, List.mem_range]
  constructor
  · rintro ⟨jK, hjK, hv⟩
    by_cases hc : j - fw / 2 + (jK : Int) < 0 ∨ j - fw / 2 + (jK : Int) ≥ x.mWidth
    · rw [if_pos hc] at hv
      exact absurd hv (List.not_mem_nil v)
    · rw [if_neg hc] at hv
      simp only [List.mem_flatMap, List.mem_range] at hv
      obtain ⟨iK, hiK, hv⟩ := hv
      by_cases hr : i - fh / 2 + (iK : Int) < 0 ∨ i - fh / 2 + (iK : Int) ≥ x.mHeight
      · rw [if_pos hr] at hv
        exact absurd hv (List.not_mem_nil v)
      · rw [if_neg hr, List.mem_singleton] at hv
        push_neg at hc hr
        exact ⟨_, _, ⟨by omega, by omega⟩, ⟨by omega, by omega⟩, ⟨hr.1, hr.2⟩,
          ⟨hc.1, hc.2⟩, hv⟩
  · rintro ⟨i2, j2, ⟨a1, a2⟩, ⟨b1, b2⟩, ⟨c1, c2⟩, ⟨d1, d2⟩, hv⟩
    refine ⟨(j2 - (j - fw / 2)).toNat, by omega, ?_⟩
    have ej : j - fw / 2 + (((j2 - (j - fw / 2)).toNat : Nat) : Int) = j2 := by omega
    have hc : ¬ (j - fw / 2 + (((j2 - (j - fw / 2)).toNat : Nat) : Int) < 0 ∨
        j - fw / 2 + (((j2 - (j - fw / 2)).toNat : Nat) : Int) ≥ x.mWidth) := by
      rw [ej]
      omega
    rw [if_neg hc]
    simp only [List.mem_flatMap, List.mem_range]
    refine ⟨(i2 - (i - fh / 2)).toNat, by omega, ?_⟩
    have ei : i - fh / 2 + (((i2 - (i - fh / 2)).toNat : Nat) : Int) = i2 := by omega
    have hr : ¬ (i - fh / 2 + (((i2 - (i - fh / 2)).toNat : Nat) : Int) < 0 ∨
        i - fh / 2 + (((i2 - (i - fh / 2)).toNat : Nat) : Int) ≥ x.mHeight) := by
      rw [ei]
      omega
    rw [if_neg hr, List.mem_singleton, ei, ej]
    exact hv

/-- The window loops of the rank filters at a pixel of channel `k` inside a
consistent image: a fold of `step` over the window list. -/
theorem rankLoop_eq_foldl [Inhabited T] {σ : Type} (x : ImageT T) (hx : x.SizeInv)
    (fh fw : Int) (hfh : 1 ≤ fh) (hfw : 1 ≤ fw) (i j k : Int) (hk0 : 0 ≤ k)
    (hk1 : k < x.mChannels) (body : σ → Option T → σ) (step : σ → T → σ)
    (hbody : ∀ a v, body a (some v) = step a v) (a0 : σ) :
    forLoop fw (fun jK acc =>
        if j + ((jK : Int) - Int.tdiv fw 2) < 0 ∨ j + ((jK : Int) - Int.tdiv fw 2) ≥ x.mWidth
        then acc
        else forLoop fh (fun iK acc =>
          if i + ((iK : Int) - Int.tdiv fh 2) < 0 ∨ i + ((iK : Int) - Int.tdiv fh 2) ≥ x.mHeight
          then acc
          else body acc
            (x.get (i + ((iK : Int) - Int.tdiv fh 2)) (j + ((jK : Int) - Int.tdiv fw 2)) k))
          acc) a0
      = (windowValues x fh fw i j k).foldl step a0 := by
  have eh : Int.tdiv fh 2 = fh / 2 := Int.tdiv_eq_ediv (by omega) (by decide)
  have ew : Int.tdiv fw 2 = fw / 2 := Int.tdiv_eq_ediv (by omega) (by decide)
  have ei : ∀ iK : Nat, i + ((iK : Int) - fh / 2) = i - fh / 2 + (iK : Int) := fun iK => by ring
  have ej : ∀ jK : Nat, j + ((jK : Int) - fw / 2) = j - fw / 2 + (jK : Int) := fun jK => by ring
  unfold windowValues
  rw [← nestLoop_eq_foldl step fw fh
    (fun jK => j - fw / 2 + (jK : Int) < 0 ∨ j - fw / 2 + (jK : Int) ≥ x.mWidth)
    (fun iK => i - fh / 2 + (iK : Int) < 0 ∨ i - fh / 2 + (iK : Int) ≥ x.mHeight)
    (fun iK jK => x.pix (i - fh / 2 + (iK : Int)) (j - fw / 2 + (jK : Int)) k) a0]
  simp only [eh, ew, ei, ej]
  refine forLoop_congr _ _ _ (fun jK acc _ => ?_) a0
  by_cases hc : j - fw / 2 + (jK : Int) < 0 ∨ j - fw / 2 + (jK : Int) ≥ x.mWidth
  · simp only [hc, if_true]
  · simp only [hc, if_false]
    refine forLoop_congr _ _ _ (fun iK acc2 _ => ?_) acc
    by_cases hr : i - fh / 2 + (iK : Int) < 0 ∨ i - fh / 2 + (iK : Int) ≥ x.mHeight
    · simp only [hr, if_true]
    · simp only [hr, if_false]
      push_neg at hc hr
      rw [get_eq_some_pix x _ _ k hx ⟨hr.1, hr.2, hc.1, hc.2, hk0, hk1⟩, hbody]

/-- The pixel itself is one of the values of its window. -/
theorem center_mem_windowValues [Inhabited T] (x : ImageT T) (fh fw : Int) (hfh : 1 ≤ fh)
    (hfw : 1 ≤ fw) (i j k : Int) (hin : x.InRange i j k) :
    x.pix i j k ∈ windowValues x fh fw i j k := by
  rw [mem_windowValues]
  obtain ⟨a1, a2, a3, a4, _, _⟩ := hin
  exact ⟨i, j, ⟨by omega, by omega⟩, ⟨by omega, by omega⟩, ⟨a1, a2⟩, ⟨a3, a4⟩, rfl⟩

/-- With a 1x1 window the window list is the pixel alone. -/
theorem windowValues_one [Inhabited T] (x : ImageT T) (i j k : Int) (hin : x.InRange i j k) :
    windowValues x 1 1 i j k = [x.pix i j k] := by
  obtain ⟨a1, a2, a3, a4, _, _⟩ := hin
  have hc : ¬ (j - 1 / 2 + ((0 : Nat) : Int) < 0 ∨ j - 1 / 2 + ((0 : Nat) : Int) ≥ x.mWidth) := by
    omega
  have hr : ¬ (i - 1 / 2 + ((0 : Nat) : Int) < 0 ∨ i - 1 / 2 + ((0 : Nat) : Int) ≥ x.mHeight) := by
    omega
  have e1 : (1 : Int).toNat = 1 := rfl
  have ei : i - 1 / 2 + ((0 : Nat) : Int) = i := by omega
  have ej : j - 1 / 2 + ((0 : Nat) : Int) = j := by omega
  have e2 : List.range 1 = [0] := rfl
  rw [ej] at hc
  rw [ei] at hr
  simp only [windowValues, e1, e2, List.flatMap_cons, List.flatMap_nil,
    List.append_nil, ei, ej, if_neg hc, if_neg hr]

end ImageT

end Openvis3d

namespace Openvis3d

namespace ImageT

variable {T : Type}

/-! ## `minFilter2D` and `maxFilter2D` -/

theorem sameFrame_trans (a b c : ImageT T) (h1 : SameFrame a b) (h2 : SameFrame b c) :
    SameFrame a c := by
  obtain ⟨a1, a2, a3, a4, a5, a6⟩ := h1
  obtain ⟨b1, b2, b3, b4, b5, b6⟩ := h2
  exact ⟨a1.trans b1, a2.trans b2, a3.trans b3, a4.trans b4, a5.trans b5, a6.trans b6⟩

/-- Pixels of `minFilter2D` on a non-empty consistent image: the running
minimum over the window list, seeded with the pixel itself. -/
theorem minFilter2D_get [Inhabited T] [Zero T] [LinearOrder T] (x : ImageT T) (fh fw : Int)
    (hfh : 1 ≤ fh) (hfw : 1 ≤ fw) (hx : x.SizeInv) (hpos : 0 < x.mSize) :
    SameFrame (minFilter2D x fh fw) x ∧
    ∀ i j k, x.InRange i j k →
      (minFilter2D x fh fw).get i j k
        = some ((windowValues x fh fw i j k).foldl (fun r t => if r > t then t else r)
            (x.pix i j k)) := by
  have hsf := sameFrame_newCopy_false x hx hpos
  have hrinv := sizeInv_of_sameFrame _ _ hx hsf
  have h1 : ¬ (x.mSize = 0) := by omega
  have h2 : ¬ (fh < 1 ∨ fw < 1) := by omega
  have hfr : SameFrame (minFilter2D x fh fw) (newCopy x false) := by
    simp only [minFilter2D, h1, h2, if_false]
    exact fillPixels_sameFrame _ _
  refine ⟨sameFrame_trans _ _ _ hfr hsf, ?_⟩
  intro i j k hin
  simp only [minFilter2D, h1, h2, if_false]
  refine fillPixels_get _ _ (fun i j k =>
    (windowValues x fh fw i j k).foldl (fun r t => if r > t then t else r) (x.pix i j k))
    hrinv ?_ i j k ((inRange_of_sameFrame _ x i j k hsf).mpr hin)
  intro a b c hab
  have hab2 := (inRange_of_sameFrame _ x a b c hsf).mp hab
  rw [get_eq_some_pix x a b c hx hab2, Option.map_some']
  congr 1
  exact rankLoop_eq_foldl x hx fh fw hfh hfw a b c hab2.2.2.2.2.1 hab2.2.2.2.2.2
    (fun r e => match e with
      | some t => if t ≠ t then r else if r > t then t else r
      | none => r)
    (fun r t => if r > t then t else r) (fun r t => by simp) (x.pix a b c)

/-- Pixels of `maxFilter2D` on a non-empty consistent image. -/
theorem maxFilter2D_get [Inhabited T] [Zero T] [LinearOrder T] (x : ImageT T) (fh fw : Int)
    (hfh : 1 ≤ fh) (hfw : 1 ≤ fw) (hx : x.SizeInv) (hpos : 0 < x.mSize) :
    SameFrame (maxFilter2D x fh fw) x ∧
    ∀ i j k, x.InRange i j k →
      (maxFilter2D x fh fw).get i j k
        = some ((windowValues x fh fw i j k).foldl (fun r t => if r < t then t else r)
            (x.pix i j k)) := by
  have hsf := sameFrame_newCopy_false x hx hpos
  have hrinv := sizeInv_of_sameFrame _ _ hx hsf
  have h1 : ¬ (x.mSize = 0) := by omega
  have h2 : ¬ (fh < 1 ∨ fw < 1) := by omega
  have hfr : SameFrame (maxFilter2D x fh fw) (newCopy x false) := by
    simp only [maxFilter2D, h1, h2, if_false]
    exact fillPixels_sameFrame _ _
  refine ⟨sameFrame_trans _ _ _ hfr hsf, ?_⟩
  intro i j k hin
  simp only [maxFilter2D, h1, h2, if_false]
  refine fillPixels_get _ _ (fun i j k =>
    (windowValues x fh fw i j k).foldl (fun r t => if r < t then t else r) (x.pix i j k))
    hrinv ?_ i j k ((inRange_of_sameFrame _ x i j k hsf).mpr hin)
  intro a b c hab
  have hab2 := (inRange_of_sameFrame _ x a b c hsf).mp hab
  rw [get_eq_some_pix x a b c hx hab2, Option.map_some']
  congr 1
  exact rankLoop_eq_foldl x hx fh fw hfh hfw a b c hab2.2.2.2.2.1 hab2.2.2.2.2.2
    (fun r e => match e with
      | some t => if t ≠ t then r else if r < t then t else r
      | none => r)
    (fun r t => if r < t then t else r) (fun r t => by simp) (x.pix a b c)

/-- The running minimum over a list containing the seed is the least element
of the list. -/
theorem foldl_min_spec [LinearOrder T] (l : List T) (a : T) (ha : a ∈ l) :
    l.foldl (fun r t => if r > t then t else r) a ≤ a ∧
    l.foldl (fun r t => if r > t then t else r) a ∈ l ∧
    ∀ v ∈ l, l.foldl (fun r t => if r > t then t else r) a ≤ v := by
  obtain ⟨h1, h2, h3⟩ := foldl_pick_spec (fun (r t : T) => if r > t then t else r)
    (fun a b => a ≤ b) (fun a => le_refl a) (fun a b c => le_trans)
    (fun r t => by
      show (if r > t then t else r) ≤ r
      split_ifs with h
      · exact le_of_lt h
      · exact le_refl r)
    (fun r t => by
      show (if r > t then t else r) ≤ t
      split_ifs with h
      · exact le_refl t
      · exact not_lt.mp h)
    (fun r t => by
      show (if r > t then t else r) = r ∨ (if r > t then t else r) = t
      split_ifs
      · exact Or.inr rfl
      · exact Or.inl rfl) l a
  refine ⟨h1, ?_, h2⟩
  rcases h3 with h | h
  · rw [h]
    exact ha
  · exact h

/-- The running maximum over a list containing the seed is the greatest
element of the list. -/
theorem foldl_max_spec [LinearOrder T] (l : List T) (a : T) (ha : a ∈ l) :
    a ≤ l.foldl (fun r t => if r < t then t else r) a ∧
    l.foldl (fun r t => if r < t then t else r) a ∈ l ∧
    ∀ v ∈ l, v ≤ l.foldl (fun r t => if r < t then t else r) a := by
  obtain ⟨h1, h2, h3⟩ := foldl_pick_spec (fun (r t : T) => if r < t then t else r)
    (fun a b => b ≤ a) (fun a => le_refl a) (fun a b c hab hbc => le_trans hbc hab)
    (fun r t => by
      show r ≤ (if r < t then t else r)
      split_ifs with h
      · exact le_of_lt h
      · exact le_refl r)
    (fun r t => by
      show t ≤ (if r < t then t else r)
      split_ifs with h
      · exact le_refl t
      · exact not_lt.mp h)
    (fun r t => by
      show (if r < t then t else r) = r ∨ (if r < t then t else r) = t
      split_ifs
      · exact Or.inr rfl
      · exact Or.inl rfl) l a
  refine ⟨h1, ?_, h2⟩
  rcases h3 with h | h
  · rw [h]
    exact ha
  · exact h

theorem mem_windowValues_iff [Inhabited T] (x : ImageT T) (fh fw i j k : Int) (v : T) :
    v ∈ windowValues x fh fw i j k ↔
      ∃ i2 j2 : Int, InWindow x fh fw i j i2 j2 ∧ v = x.pix i2 j2 k := by
  rw [mem_windowValues]
  unfold InWindow
  constructor
  · rintro ⟨i2, j2, a, b, c, d, e⟩
    exact ⟨i2, j2, ⟨a, b, c, d⟩, e⟩
  · rintro ⟨i2, j2, ⟨a, b, c, d⟩, e⟩
    exact ⟨i2, j2, a, b, c, d, e⟩

end ImageT

end Openvis3d

namespace Openvis3d

namespace ImageT

variable {T : Type}

theorem minFilter2D_of_empty [Inhabited T] [Zero T] [LinearOrder T] (x : ImageT T)
    (fh fw : Int) (hz : x.mSize = 0) : minFilter2D x fh fw = new := by
  simp only [minFilter2D, hz, if_true, newCopy_of_empty x false hz]

theorem maxFilter2D_of_empty [Inhabited T] [Zero T] [LinearOrder T] (x : ImageT T)
    (fh fw : Int) (hz : x.mSize = 0) : maxFilter2D x fh fw = new := by
  simp only [maxFilter2D, hz, if_true, newCopy_of_empty x false hz]

/-- C37 (counterexample to the claim as written): the image built by
`ImageT<int>(0,5,1)` has width 5 and no buffer; both filters start from the
shape-only copy `ImageT<T> result(input,false)`, which for a source without
data is the default image, so with a 1x1 window they return an image of width
0, not the input. -/
theorem c37_min_max_filter_empty_counterexample :
    (newDims 0 5 1 : ImageT Int).mWidth = 5 ∧
    (minFilter2D (newDims 0 5 1 : ImageT Int) 1 1).mWidth = 0 ∧
    (maxFilter2D (newDims 0 5 1 : ImageT Int) 1 1).mWidth = 0 := by
  decide

/-- C37 (amended): over a linearly ordered scalar type, for every consistent
image x that is non-empty or has shape (0,0,0), and all `fh, fw >= 1`: both
filters return an image of the shape of x; at every pixel `(i,j,k)` the output
m of `minFilter2D` and the output M of `maxFilter2D` satisfy
`m <= x(i,j,k) <= M`, m is below and M is above every value of x over the
in-bounds part of the window (rows `i - fh/2 .. i - fh/2 + fh - 1`, columns
`j - fw/2 .. j - fw/2 + fw - 1`, channel k), and each of them is attained
there; and with a 1x1 window both filters return the pixel of x. -/
theorem c37_min_max_filter [Inhabited T] [Zero T] [LinearOrder T] (x : ImageT T)
    (fh fw : Int) (hfh : 1 ≤ fh) (hfw : 1 ≤ fw) (hx : x.SizeInv)
    (hne : 0 < x.mSize ∨ (x.mHeight = 0 ∧ x.mWidth = 0 ∧ x.mChannels = 0)) :
    (((minFilter2D x fh fw).mHeight = x.mHeight ∧ (minFilter2D x fh fw).mWidth = x.mWidth ∧
        (minFilter2D x fh fw).mChannels = x.mChannels) ∧
      ((maxFilter2D x fh fw).mHeight = x.mHeight ∧ (maxFilter2D x fh fw).mWidth = x.mWidth ∧
        (maxFilter2D x fh fw).mChannels = x.mChannels)) ∧
    (∀ i j k, x.InRange i j k →
      ∃ m M, (minFilter2D x fh fw).get i j k = some m ∧
        (maxFilter2D x fh fw).get i j k = some M ∧
        (m ≤ x.pix i j k ∧ x.pix i j k ≤ M) ∧
        (∀ i2 j2, InWindow x fh fw i j i2 j2 → m ≤ x.pix i2 j2 k ∧ x.pix i2 j2 k ≤ M) ∧
        (∃ i2 j2, InWindow x fh fw i j i2 j2 ∧ m = x.pix i2 j2 k) ∧
        (∃ i2 j2, InWindow x fh fw i j i2 j2 ∧ M = x.pix i2 j2 k)) ∧
    (fh = 1 → fw = 1 → ∀ i j k, x.InRange i j k →
      (minFilter2D x fh fw).get i j k = x.get i j k ∧
      (maxFilter2D x fh fw).get i j k = x.get i j k) := by
  rcases hne with hpos | ⟨h0, w0, c0⟩
  · obtain ⟨hminf, hmin⟩ := minFilter2D_get x fh fw hfh hfw hx hpos
    obtain ⟨hmaxf, hmax⟩ := maxFilter2D_get x fh fw hfh hfw hx hpos
    refine ⟨⟨⟨hminf.1, hminf.2.1, hminf.2.2.1⟩, ⟨hmaxf.1, hmaxf.2.1, hmaxf.2.2.1⟩⟩, ?_, ?_⟩
    · intro i j k hin
      have hc := center_mem_windowValues x fh fw hfh hfw i j k hin
      obtain ⟨m1, m2, m3⟩ := foldl_min_spec (windowValues x fh fw i j k) (x.pix i j k) hc
      obtain ⟨n1, n2, n3⟩ := foldl_max_spec (windowValues x fh fw i j k) (x.pix i j k) hc
      refine ⟨_, _, hmin i j k hin, hmax i j k hin, ⟨m1, n1⟩, ?_, ?_, ?_⟩
      · intro i2 j2 hw
        have hv : x.pix i2 j2 k ∈ windowValues x fh fw i j k :=
          (mem_windowValues_iff x fh fw i j k _).mpr ⟨i2, j2, hw, rfl⟩
        exact ⟨m3 _ hv, n3 _ hv⟩
      · exact (mem_windowValues_iff x fh fw i j k _).mp m2
      · exact (mem_windowValues_iff x fh fw i j k _).mp n2
    · intro e1 e2 i j k hin
      subst e1
      subst e2
      have hp : ∀ p : T, (if p > p then p else p) = p := fun p => by simp
      have hq : ∀ p : T, (if p < p then p else p) = p := fun p => by simp
      rw [hmin i j k hin, hmax i j k hin, windowValues_one x i j k hin,
        get_eq_some_pix x i j k hx hin]
      simp only [List.foldl_cons, List.foldl_nil, hp, hq, and_self]
  · have hz : x.mSize = 0 := by rw [hx.1, h0, w0, c0]; rfl
    rw [minFilter2D_of_empty x fh fw hz, maxFilter2D_of_empty x fh fw hz]
    refine ⟨⟨⟨h0.symm, w0.symm, c0.symm⟩, ⟨h0.symm, w0.symm, c0.symm⟩⟩, ?_, ?_⟩
    · intro i j k hin
      obtain ⟨p1, p2, _⟩ := hin
      omega
    · intro _ _ i j k hin
      obtain ⟨p1, p2, _⟩ := hin
      omega

/-- C37 (witness): on the 2x2x1 image holding (3, 1, 4, 2) with a 3x3 window
the window of the pixel (0,0,0) covers the whole image; the outputs there are
the minimum 1 and the maximum 4. -/
theorem c37_min_max_filter_witness :
    (minFilter2D (ImageT.mk 2 2 1 4 4 (some [3, 1, 4, 2]) : ImageT Int) 3 3).get 0 0 0 = some 1 ∧
    (maxFilter2D (ImageT.mk 2 2 1 4 4 (some [3, 1, 4, 2]) : ImageT Int) 3 3).get 0 0 0 = some 4 ∧
    ∃ m M,
      (minFilter2D (ImageT.mk 2 2 1 4 4 (some [3, 1, 4, 2]) : ImageT Int) 3 3).get 0 0 0
        = some m ∧
      (maxFilter2D (ImageT.mk 2 2 1 4 4 (some [3, 1, 4, 2]) : ImageT Int) 3 3).get 0 0 0
        = some M ∧
      m ≤ (ImageT.mk 2 2 1 4 4 (some [3, 1, 4, 2]) : ImageT Int).pix 0 0 0 ∧
      (ImageT.mk 2 2 1 4 4 (some [3, 1, 4, 2]) : ImageT Int).pix 0 0 0 ≤ M := by
  obtain ⟨m, M, h1, h2, h3, _⟩ := (c37_min_max_filter
    (ImageT.mk 2 2 1 4 4 (some [3, 1, 4, 2]) : ImageT Int) 3 3 (by decide) (by decide)
    (by decide) (Or.inl (by decide))).2.1 0 0 0 (by decide)
  exact ⟨by decide, by decide, m, M, h1, h2, h3.1, h3.2⟩

end ImageT

end Openvis3d

namespace Openvis3d

namespace ImageT

variable {T : Type}

/-! ## `medianFilter2D` -/

/-- A loop over a pair of states whose first component is updated independently
of the second, as long as the second keeps an invariant. -/
theorem foldl_fst {α β ι : Type} (Inv : β → Prop) (body : ι → α × β → α × β)
    (f : ι → α → α) :
    ∀ (l : List ι),
      (∀ i ∈ l, ∀ a b, Inv b → (body i (a, b)).1 = f i a ∧ Inv (body i (a, b)).2) →
      ∀ a b, Inv b →
        (l.foldl (fun s i => body i s) (a, b)).1 = l.foldl (fun s i => f i s) a ∧
        Inv (l.foldl (fun s i => body i s) (a, b)).2 := by
  intro l
  induction l with
  | nil => intro _ a b hb; exact ⟨rfl, hb⟩
  | cons x xs ih =>
    intro h a b hb
    rw [List.foldl_cons, List.foldl_cons]
    obtain ⟨e1, e2⟩ := h x (List.mem_cons_self _ _) a b hb
    obtain ⟨t1, t2⟩ := ih (fun i hi => h i (List.mem_cons_of_mem _ hi))
      (body x (a, b)).1 (body x (a, b)).2 e2
    exact ⟨t1.trans (by rw [e1]), t2⟩

theorem forLoop_fst {α β : Type} (Inv : β → Prop) (n : Int) (body : Nat → α × β → α × β)
    (f : Nat → α → α)
    (h : ∀ (i : Nat) a b, (i : Int) < n → Inv b →
      (body i (a, b)).1 = f i a ∧ Inv (body i (a, b)).2)
    (a : α) (b : β) (hb : Inv b) :
    (forLoop n body (a, b)).1 = forLoop n f a ∧ Inv (forLoop n body (a, b)).2 := by
  unfold forLoop
  exact foldl_fst Inv body f _
    (fun i hi a b hb => h i a b (by have := List.mem_range.mp hi; omega) hb) a b hb

theorem forLoop_id {σ : Type} (n : Int) (s : σ) : forLoop n (fun _ t => t) s = s :=
  forLoop_induct (fun t => t = s) n _ (fun _ _ _ h => h) s rfl

/-- Count and length of the scratch array after the values of `l` have been
pushed, whatever its capacity. -/
theorem foldl_pushElement_count (l : List T) :
    ∀ (buf : List T) (c : Int), 0 ≤ c →
      (l.foldl pushElement (buf, c)).2 = c + (l.length : Int) ∧
      (l.foldl pushElement (buf, c)).1.length = buf.length := by
  induction l with
  | nil => intro buf c _; simp
  | cons t ts ih =>
    intro buf c hc
    rw [List.foldl_cons]
    obtain ⟨e1, e2⟩ := ih (pushElement (buf, c) t).1 (pushElement (buf, c) t).2
      (by simp only [pushElement]; omega)
    refine ⟨e1.trans ?_, e2.trans ?_⟩
    · simp only [pushElement, List.length_cons]
      push_cast
      ring
    · simp only [pushElement, hc, if_true, List.length_set]

/-- When they fit, the pushed values are the prefix of the scratch array. -/
theorem foldl_pushElement_take (l : List T) :
    ∀ (buf : List T) (c : Nat), c + l.length ≤ buf.length →
      (l.foldl pushElement (buf, (c : Int))).1.take (c + l.length) = buf.take c ++ l := by
  induction l with
  | nil => intro buf c _; simp
  | cons t ts ih =>
    intro buf c hc
    rw [List.foldl_cons]
    simp only [List.length_cons] at hc
    have hstep : pushElement (buf, (c : Int)) t = (buf.set c t, ((c + 1 : Nat) : Int)) := by
      simp [pushElement]
    rw [hstep, List.length_cons, show c + (ts.length + 1) = (c + 1) + ts.length by omega,
      ih (buf.set c t) (c + 1) (by rw [List.length_set]; omega)]
    have hlt : c < buf.length := by omega
    have : (buf.set c t).take (c + 1) = buf.take c ++ [t] := by
      apply List.ext_getElem?
      intro n
      by_cases hn : n < c
      · rw [List.getElem?_take_of_lt (by omega), List.getElem?_append_left (by simp; omega),
          List.getElem?_take_of_lt hn, List.getElem?_set_ne (by omega)]
      · by_cases hn2 : n = c
        · subst hn2
          rw [List.getElem?_take_of_lt (by omega), List.getElem?_set_self hlt,
            List.getElem?_append_right (by simp)]
          simp [List.length_take, Nat.min_eq_left hlt.le]
        · rw [List.getElem?_eq_none (by simp; omega), List.getElem?_eq_none (by simp; omega)]
    rw [this, List.append_assoc]
    rfl

/-- The median helper called with the count `n = l.length` on a scratch array
whose first `n` elements are `l`: the value is the element at index `n/2` of
the sorted list, and the array keeps its length. -/
theorem findMedian_eq [LinearOrder T] [Zero T] (l e : List T) (hl : 0 < l.length)
    (hle : l.length ≤ e.length) (ht : e.take l.length = l) :
    (medianFilter2DHelperFunc_FindMedian (l.length : Int) e).1
      = (l.insertionSort (fun a b => a ≤ b))[l.length / 2]? ∧
    (medianFilter2DHelperFunc_FindMedian (l.length : Int) e).2.length = e.length := by
  have hn : ¬ ((l.length : Int) = 0) := by omega
  have hg : ¬ ((l.length : Int) < 0 ∨ (l.length : Int) > (e.length : Int)) := by omega
  have htake : e.take (l.length : Int).toNat = l := by
    rw [Int.toNat_ofNat, ht]
  have e1 : Int.tmod (l.length : Int) 2 = (l.length : Int) % 2 :=
    Int.tmod_eq_emod (by omega) (by decide)
  have e2 : Int.tdiv ((l.length : Int) - 1) 2 = ((l.length : Int) - 1) / 2 :=
    Int.tdiv_eq_ediv (by omega) (by decide)
  have e3 : Int.tdiv (l.length : Int) 2 = (l.length : Int) / 2 :=
    Int.tdiv_eq_ediv (by omega) (by decide)
  have hidx : l.length / 2 < (l.insertionSort (fun a b => a ≤ b)).length := by
    rw [List.length_insertionSort]
    omega
  have hlen : (l.insertionSort (fun a b => a ≤ b) ++ e.drop (l.length : Int).toNat).length
      = e.length := by
    rw [List.length_append, List.length_insertionSort, List.length_drop, Int.toNat_ofNat]
    omega
  simp only [medianFilter2DHelperFunc_FindMedian, htake, if_neg hg, if_neg hn, e1, e2, e3]
  split_ifs with hodd
  · have : (((l.length : Int) - 1) / 2).toNat = l.length / 2 := by omega
    rw [this]
    exact ⟨List.getElem?_append_left hidx, hlen⟩
  · have : ((l.length : Int) / 2).toNat = l.length / 2 := by omega
    rw [this]
    exact ⟨List.getElem?_append_left hidx, hlen⟩

/-- The median helper called with a count that exceeds the allocation. -/
theorem findMedian_overflow [LinearOrder T] [Zero T] (n : Int) (e : List T)
    (h : (e.length : Int) < n) :
    medianFilter2DHelperFunc_FindMedian n e = (none, e) := by
  have hg : n < 0 ∨ n > (e.length : Int) := Or.inr h
  simp only [medianFilter2DHelperFunc_FindMedian, if_pos hg]

theorem length_flatMap_le {ι β : Type} (f : ι → List β) (n : Nat) :
    ∀ (l : List ι), (∀ a ∈ l, (f a).length ≤ n) → (l.flatMap f).length ≤ l.length * n := by
  intro l
  induction l with
  | nil => intro _; simp
  | cons x xs ih =>
    intro h
    rw [List.flatMap_cons, List.length_append, List.length_cons, Nat.succ_mul]
    have h1 := h x (List.mem_cons_self _ _)
    have h2 := ih (fun a ha => h a (List.mem_cons_of_mem _ ha))
    omega

/-- A window of `fh` rows and `fw` columns holds at most `fh*fw` values. -/
theorem length_windowValues_le [Inhabited T] (x : ImageT T) (fh fw i j k : Int)
    (hfh : 1 ≤ fh) (hfw : 1 ≤ fw) :
    ((windowValues x fh fw i j k).length : Int) ≤ fh * fw := by
  unfold windowValues
  have h1 := length_flatMap_le (fun jK : Nat =>
    if (j - fw / 2) + (jK : Int) < 0 ∨ (j - fw / 2) + (jK : Int) ≥ x.mWidth then []
    else (List.range fh.toNat).flatMap (fun iK : Nat =>
      if (i - fh / 2) + (iK : Int) < 0 ∨ (i - fh / 2) + (iK : Int) ≥ x.mHeight then []
      else [x.pix ((i - fh / 2) + (iK : Int)) ((j - fw / 2) + (jK : Int)) k])) fh.toNat
    (List.range fw.toNat) (fun jK _ => by
      dsimp only
      split_ifs
      · simp
      · have h2 := length_flatMap_le (fun iK : Nat =>
          if (i - fh / 2) + (iK : Int) < 0 ∨ (i - fh / 2) + (iK : Int) ≥ x.mHeight then []
          else [x.pix ((i - fh / 2) + (iK : Int)) ((j - fw / 2) + (jK : Int)) k]) 1
          (List.range fh.toNat) (fun iK _ => by dsimp only; split_ifs <;> simp)
        rw [List.length_range, Nat.mul_one] at h2
        exact h2)
  rw [List.length_range] at h1
  have e1 : ((fw.toNat * fh.toNat : Nat) : Int) = fh * fw := by
    push_cast
    rw [Int.toNat_of_nonneg (by omega), Int.toNat_of_nonneg (by omega)]
    ring
  rw [← e1]
  exact_mod_cast h1


/-- The window loops of `medianFilter2D` at a pixel inside a consistent image,
started on a scratch array that can hold the window: the helper returns the
element at index `n/2` of the sorted window values, and the array keeps its
length. -/
theorem medianPixel_eq [Inhabited T] [Zero T] [LinearOrder T] (x : ImageT T)
    (fh fw : Int) (hfh : 1 ≤ fh) (hfw : 1 ≤ fw) (i j k : Int)
    (hin : x.InRange i j k) (buf : List T)
    (hcap : (windowValues x fh fw i j k).length ≤ buf.length) :
    (medianFilter2DHelperFunc_FindMedian
      ((windowValues x fh fw i j k).foldl pushElement (buf, 0)).2
      ((windowValues x fh fw i j k).foldl pushElement (buf, 0)).1).1
      = ((windowValues x fh fw i j k).insertionSort (fun a b => a ≤ b))[
          (windowValues x fh fw i j k).length / 2]? ∧
    (medianFilter2DHelperFunc_FindMedian
      ((windowValues x fh fw i j k).foldl pushElement (buf, 0)).2
      ((windowValues x fh fw i j k).foldl pushElement (buf, 0)).1).2.length = buf.length := by
  have hpos := List.length_pos_of_mem (center_mem_windowValues x fh fw hfh hfw i j k hin)
  obtain ⟨c1, c2⟩ := foldl_pushElement_count (windowValues x fh fw i j k) buf 0 (le_refl 0)
  have ht := foldl_pushElement_take (windowValues x fh fw i j k) buf 0 (by omega)
  simp only [Nat.cast_zero, zero_add, List.take_zero, List.nil_append] at ht
  rw [zero_add] at c1
  rw [c1]
  obtain ⟨m1, m2⟩ := findMedian_eq (windowValues x fh fw i j k)
    ((windowValues x fh fw i j k).foldl pushElement (buf, 0)).1 hpos (by omega) ht
  exact ⟨m1, m2.trans c2⟩

/-- The same loops on a scratch array too short for the window: the helper
runs past the allocation, no value is returned and the array is as before. -/
theorem medianPixel_overflow [Inhabited T] [Zero T] [LinearOrder T] (x : ImageT T)
    (fh fw : Int) (i j k : Int) (buf : List T)
    (hcap : buf.length < (windowValues x fh fw i j k).length) :
    (medianFilter2DHelperFunc_FindMedian
      ((windowValues x fh fw i j k).foldl pushElement (buf, 0)).2
      ((windowValues x fh fw i j k).foldl pushElement (buf, 0)).1).1 = none ∧
    (medianFilter2DHelperFunc_FindMedian
      ((windowValues x fh fw i j k).foldl pushElement (buf, 0)).2
      ((windowValues x fh fw i j k).foldl pushElement (buf, 0)).1).2.length = buf.length := by
  obtain ⟨c1, c2⟩ := foldl_pushElement_count (windowValues x fh fw i j k) buf 0 (le_refl 0)
  rw [zero_add] at c1
  rw [findMedian_overflow _ _ (by rw [c1, c2]; exact_mod_cast hcap)]
  exact ⟨rfl, c2⟩

/-- The pixel loops of `medianFilter2D` with the scratch array carried along:
when at every pixel the helper returns `e` and the scratch array keeps its
length, the image part of the final state is the plain loop nest storing `e`. -/
theorem medianLoops_eq_fillPixels [Inhabited T] [Zero T] [LinearOrder T] (x r0 : ImageT T)
    (hx : x.SizeInv) (hsf : SameFrame r0 x) (fh fw : Int) (hfh : 1 ≤ fh) (hfw : 1 ≤ fw)
    (buf0 : List T) (e : Int → Int → Int → Option T)
    (hpix : ∀ i j k, x.InRange i j k → ∀ buf : List T, buf.length = buf0.length →
      (medianFilter2DHelperFunc_FindMedian
        ((windowValues x fh fw i j k).foldl pushElement (buf, 0)).2
        ((windowValues x fh fw i j k).foldl pushElement (buf, 0)).1).1 = e i j k ∧
      (medianFilter2DHelperFunc_FindMedian
        ((windowValues x fh fw i j k).foldl pushElement (buf, 0)).2
        ((windowValues x fh fw i j k).foldl pushElement (buf, 0)).1).2.length = buf0.length) :
    (forLoop r0.mChannels (fun k st =>
      forLoop r0.mWidth (fun jResult st =>
        forLoop r0.mHeight (fun iResult st =>
          (st.1.assign iResult jResult k
            (medianFilter2DHelperFunc_FindMedian
              (forLoop fw (fun jKernel acc =>
                if (jResult : Int) + ((jKernel : Int) - Int.tdiv fw 2) < 0 ∨
                    (jResult : Int) + ((jKernel : Int) - Int.tdiv fw 2) ≥ x.mWidth then acc
                else
                  forLoop fh (fun iKernel acc =>
                    if (iResult : Int) + ((iKernel : Int) - Int.tdiv fh 2) < 0 ∨
                        (iResult : Int) + ((iKernel : Int) - Int.tdiv fh 2) ≥ x.mHeight then acc
                    else
                      match x.get ((iResult : Int) + ((iKernel : Int) - Int.tdiv fh 2))
                          ((jResult : Int) + ((jKernel : Int) - Int.tdiv fw 2)) k with
                      | some tempValue =>
                        if tempValue ≠ tempValue then acc else pushElement acc tempValue
                      | none => acc) acc) (st.2, 0)).2
              (forLoop fw (fun jKernel acc =>
                if (jResult : Int) + ((jKernel : Int) - Int.tdiv fw 2) < 0 ∨
                    (jResult : Int) + ((jKernel : Int) - Int.tdiv fw 2) ≥ x.mWidth then acc
                else
                  forLoop fh (fun iKernel acc =>
                    if (iResult : Int) + ((iKernel : Int) - Int.tdiv fh 2) < 0 ∨
                        (iResult : Int) + ((iKernel : Int) - Int.tdiv fh 2) ≥ x.mHeight then acc
                    else
                      match x.get ((iResult : Int) + ((iKernel : Int) - Int.tdiv fh 2))
                          ((jResult : Int) + ((jKernel : Int) - Int.tdiv fw 2)) k with
                      | some tempValue =>
                        if tempValue ≠ tempValue then acc else pushElement acc tempValue
                      | none => acc) acc) (st.2, 0)).1).1,
           (medianFilter2DHelperFunc_FindMedian
              (forLoop fw (fun jKernel acc =>
                if (jResult : Int) + ((jKernel : Int) - Int.tdiv fw 2) < 0 ∨
                    (jResult : Int) + ((jKernel : Int) - Int.tdiv fw 2) ≥ x.mWidth then acc
                else
                  forLoop fh (fun iKernel acc =>
                    if (iResult : Int) + ((iKernel : Int) - Int.tdiv fh 2) < 0 ∨
                        (iResult : Int) + ((iKernel : Int) - Int.tdiv fh 2) ≥ x.mHeight then acc
                    else
                      match x.get ((iResult : Int) + ((iKernel : Int) - Int.tdiv fh 2))
                          ((jResult : Int) + ((jKernel : Int) - Int.tdiv fw 2)) k with
                      | some tempValue =>
                        if tempValue ≠ tempValue then acc else pushElement acc tempValue
                      | none => acc) acc) (st.2, 0)).2
              (forLoop fw (fun jKernel acc =>
                if (jResult : Int) + ((jKernel : Int) - Int.tdiv fw 2) < 0 ∨
                    (jResult : Int) + ((jKernel : Int) - Int.tdiv fw 2) ≥ x.mWidth then acc
                else
                  forLoop fh (fun iKernel acc =>
                    if (iResult : Int) + ((iKernel : Int) - Int.tdiv fh 2) < 0 ∨
                        (iResult : Int) + ((iKernel : Int) - Int.tdiv fh 2) ≥ x.mHeight then acc
                    else
                      match x.get ((iResult : Int) + ((iKernel : Int) - Int.tdiv fh 2))
                          ((jResult : Int) + ((jKernel : Int) - Int.tdiv fw 2)) k with
                      | some tempValue =>
                        if tempValue ≠ tempValue then acc else pushElement acc tempValue
                      | none => acc) acc) (st.2, 0)).1).2)) st) st)
      (r0, buf0)).1 = fillPixels r0 e := by
  obtain ⟨f1, f2, f3, _, _, _⟩ := id hsf
  unfold fillPixels
  refine (forLoop_fst (fun b : List T => b.length = buf0.length) _ _
    (fun k r => forLoop r0.mWidth (fun j r =>
      forLoop r0.mHeight (fun i r => r.assign i j k (e i j k)) r) r) ?_ r0 buf0 rfl).1
  intro k a b hk hb
  refine forLoop_fst (fun b : List T => b.length = buf0.length) _ _
    (fun j r => forLoop r0.mHeight (fun i r => r.assign i j k (e i j k)) r) ?_ a b hb
  intro j a b hj hb
  refine forLoop_fst (fun b : List T => b.length = buf0.length) _ _
    (fun i r => r.assign i j k (e i j k)) ?_ a b hb
  intro i a b hi hb
  have hin : x.InRange (i : Int) (j : Int) (k : Int) :=
    ⟨by omega, by omega, by omega, by omega, by omega, by omega⟩
  have hloop := rankLoop_eq_foldl x hx fh fw hfh hfw (i : Int) (j : Int) (k : Int)
    hin.2.2.2.2.1 hin.2.2.2.2.2
    (fun (acc : List T × Int) t => match t with
      | some tempValue => if tempValue ≠ tempValue then acc else pushElement acc tempValue
      | none => acc)
    pushElement (fun r t => by simp) (b, 0)
  obtain ⟨p1, p2⟩ := hpix (i : Int) (j : Int) (k : Int) hin b hb
  dsimp only
  rw [← hloop] at p1 p2
  exact ⟨congrArg (fun v => a.assign (i : Int) (j : Int) (k : Int) v) p1, p2⟩


theorem fillPixels_none (r0 : ImageT T) : fillPixels r0 (fun _ _ _ => none) = r0 := by
  simp only [fillPixels, assign, forLoop_id]

/-- On a non-empty consistent image, with a window whose element count fits an
`int`, `medianFilter2D` is the plain loop nest storing at every pixel the
element at index `n/2` of the sorted window values. -/
theorem medianFilter2D_eq_fillPixels [Inhabited T] [Zero T] [LinearOrder T] (x : ImageT T)
    (fh fw : Int) (hfh : 1 ≤ fh) (hfw : 1 ≤ fw) (hcap : fh * fw ≤ 2147483647)
    (hx : x.SizeInv) (hpos : 0 < x.mSize) :
    medianFilter2D x fh fw = fillPixels (newCopy x false) (fun a b c =>
      ((windowValues x fh fw a b c).insertionSort (fun a b => a ≤ b))[
        (windowValues x fh fw a b c).length / 2]?) := by
  have hsf := sameFrame_newCopy_false x hx hpos
  have h1 : ¬ (x.mSize = 0) := by omega
  have h2 : ¬ (fh < 1 ∨ fw < 1) := by omega
  have h0 : 0 ≤ fh * fw := mul_nonneg (by omega) (by omega)
  have hw : wrapInt (fh * fw) = fh * fw := wrapInt_of_inInt _ ⟨by omega, hcap⟩
  simp only [medianFilter2D, h1, h2, if_false, newArray, hw]
  refine medianLoops_eq_fillPixels x (newCopy x false) hx hsf fh fw hfh hfw _ _ ?_
  intro i j k hin buf hb
  have hle := length_windowValues_le x fh fw i j k hfh hfw
  obtain ⟨m1, m2⟩ := medianPixel_eq x fh fw hfh hfw i j k hin buf (by
    rw [hb, List.length_replicate]
    omega)
  exact ⟨m1, m2.trans hb⟩

/-- On a non-empty consistent image, when the 32-bit product
`filterHeight*filterWidth` is 0 the scratch array holds nothing, every window
overruns it, and the model, which skips the accesses outside the allocation,
returns the zero-filled shape-only copy. -/
theorem medianFilter2D_overflow [Inhabited T] [Zero T] [LinearOrder T] (x : ImageT T)
    (fh fw : Int) (hfh : 1 ≤ fh) (hfw : 1 ≤ fw) (hcap : wrapInt (fh * fw) = 0)
    (hx : x.SizeInv) (hpos : 0 < x.mSize) :
    medianFilter2D x fh fw = newCopy x false := by
  have hsf := sameFrame_newCopy_false x hx hpos
  have h1 : ¬ (x.mSize = 0) := by omega
  have h2 : ¬ (fh < 1 ∨ fw < 1) := by omega
  have hz : (wrapInt (fh * fw)).toNat = 0 := by omega
  simp only [medianFilter2D, h1, h2, if_false, newArray, hz, List.replicate_zero]
  refine (medianLoops_eq_fillPixels x (newCopy x false) hx hsf fh fw hfh hfw []
    (fun _ _ _ => none) ?_).trans (fillPixels_none _)
  intro i j k hin buf hb
  have hl := List.length_pos_of_mem (center_mem_windowValues x fh fw hfh hfw i j k hin)
  obtain ⟨m1, m2⟩ := medianPixel_overflow x fh fw i j k buf (by rw [hb]; exact hl)
  exact ⟨m1, m2.trans hb⟩

/-- Pixels of `medianFilter2D` on a non-empty consistent image, for a window
whose element count fits an `int`. -/
theorem medianFilter2D_get [Inhabited T] [Zero T] [LinearOrder T] (x : ImageT T) (fh fw : Int)
    (hfh : 1 ≤ fh) (hfw : 1 ≤ fw) (hcap : fh * fw ≤ 2147483647) (hx : x.SizeInv)
    (hpos : 0 < x.mSize) :
    SameFrame (medianFilter2D x fh fw) x ∧
    ∀ i j k, x.InRange i j k →
      (medianFilter2D x fh fw).get i j k
        = ((windowValues x fh fw i j k).insertionSort (fun a b => a ≤ b))[
            (windowValues x fh fw i j k).length / 2]? := by
  have hsf := sameFrame_newCopy_false x hx hpos
  have hrinv := sizeInv_of_sameFrame _ _ hx hsf
  have hM := medianFilter2D_eq_fillPixels x fh fw hfh hfw hcap hx hpos
  have hfr : SameFrame (medianFilter2D x fh fw) (newCopy x false) := by
    rw [hM]
    exact fillPixels_sameFrame _ _
  refine ⟨sameFrame_trans _ _ _ hfr hsf, ?_⟩
  intro i j k hin
  have hlen : ∀ a b c, x.InRange a b c →
      (windowValues x fh fw a b c).length / 2
        < ((windowValues x fh fw a b c).insertionSort (fun a b => a ≤ b)).length := by
    intro a b c hab
    have := List.length_pos_of_mem (center_mem_windowValues x fh fw hfh hfw a b c hab)
    rw [List.length_insertionSort]
    omega
  rw [hM, fillPixels_get _ _ (fun a b c =>
      (((windowValues x fh fw a b c).insertionSort (fun a b => a ≤ b))[
        (windowValues x fh fw a b c).length / 2]?).getD default)
      hrinv ?_ i j k ((inRange_of_sameFrame _ x i j k hsf).mpr hin)]
  · rw [List.getElem?_eq_getElem (hlen i j k hin), Option.getD_some]
  · intro a b c hab
    have hab2 := (inRange_of_sameFrame _ x a b c hsf).mp hab
    dsimp only
    rw [List.getElem?_eq_getElem (hlen a b c hab2), Option.getD_some]

end ImageT

end Openvis3d

namespace Openvis3d

namespace ImageT

variable {T : Type}

/-- C40 (counterexample to the claim as written): the 1x1x1 image holding 7
filtered with a 65536x65536 window.  The scratch array is allocated with
`65536*65536` elements, which is 0 in 32-bit `int`, so the one window value 7
is stored past a zero-length allocation and the helper sorts past it; the
model, which skips such accesses, leaves the output pixel at the 0 of the
shape-only copy, which is not a value of the window. -/
theorem c40_medianFilter2D_scratch_counterexample :
    wrapInt (65536 * 65536) = 0 ∧
    (newArray (wrapInt (65536 * 65536)) : Option (List Int)) = some [] ∧
    (ImageT.mk 1 1 1 1 1 (some [7]) : ImageT Int).InRange 0 0 0 ∧
    (∀ v ∈ windowValues (ImageT.mk 1 1 1 1 1 (some [7]) : ImageT Int) 65536 65536 0 0 0,
      v = 7) ∧
    (medianFilter2D (ImageT.mk 1 1 1 1 1 (some [7]) : ImageT Int) 65536 65536).get 0 0 0
      = some 0 := by
  refine ⟨by decide, by decide, by decide, ?_, ?_⟩
  · intro v hv
    rw [mem_windowValues] at hv
    obtain ⟨i2, j2, _, _, ⟨a1, a2⟩, ⟨b1, b2⟩, rfl⟩ := hv
    have hi : i2 = 0 := by
      have : i2 < 1 := a2
      omega
    have hj : j2 = 0 := by
      have : j2 < 1 := b2
      omega
    subst hi
    subst hj
    decide
  · rw [medianFilter2D_overflow _ 65536 65536 (by decide) (by decide) (by decide) (by decide)
      (by decide)]
    decide

/-- C40 (amended): over a linearly ordered scalar type, for every non-empty
consistent image x, all `fh, fw >= 1` with `fh*fw` at most `2^31 - 1` and
every pixel `(i,j,k)`: with L the list of the n values of x over the in-bounds
part of the window (n >= 1), the output of `medianFilter2D` is the element at
index `floor(n/2)` of the ascending sort of L (a sorted permutation of L),
hence one of the values of L; with a 1x1 window it is the pixel of x; and the
result has the shape of x. -/
theorem c40_medianFilter2D [Inhabited T] [Zero T] [LinearOrder T] (x : ImageT T)
    (fh fw : Int) (hfh : 1 ≤ fh) (hfw : 1 ≤ fw) (hcap : fh * fw ≤ 2147483647)
    (hx : x.SizeInv) (hpos : 0 < x.mSize)
    (i j k : Int) (hin : x.InRange i j k) :
    ((medianFilter2D x fh fw).mHeight = x.mHeight ∧
      (medianFilter2D x fh fw).mWidth = x.mWidth ∧
      (medianFilter2D x fh fw).mChannels = x.mChannels) ∧
    (∀ v, v ∈ windowValues x fh fw i j k ↔
      ∃ i2 j2, InWindow x fh fw i j i2 j2 ∧ v = x.pix i2 j2 k) ∧
    0 < (windowValues x fh fw i j k).length ∧
    ((windowValues x fh fw i j k).insertionSort (fun a b => a ≤ b)).Sorted (fun a b => a ≤ b) ∧
    ((windowValues x fh fw i j k).insertionSort (fun a b => a ≤ b)).Perm
      (windowValues x fh fw i j k) ∧
    (medianFilter2D x fh fw).get i j k
      = ((windowValues x fh fw i j k).insertionSort (fun a b => a ≤ b))[
          (windowValues x fh fw i j k).length / 2]? ∧
    (∃ v ∈ windowValues x fh fw i j k, (medianFilter2D x fh fw).get i j k = some v) ∧
    (fh = 1 → fw = 1 → (medianFilter2D x fh fw).get i j k = x.get i j k) := by
  have hget := (medianFilter2D_get x fh fw hfh hfw hcap hx hpos).2 i j k hin
  have hsf := (medianFilter2D_get x fh fw hfh hfw hcap hx hpos).1
  have hlpos := List.length_pos_of_mem (center_mem_windowValues x fh fw hfh hfw i j k hin)
  have hperm := List.perm_insertionSort (fun (a b : T) => a ≤ b) (windowValues x fh fw i j k)
  have hidx : (windowValues x fh fw i j k).length / 2
      < ((windowValues x fh fw i j k).insertionSort (fun a b => a ≤ b)).length := by
    rw [List.length_insertionSort]
    omega
  refine ⟨⟨hsf.1, hsf.2.1, hsf.2.2.1⟩, fun v => mem_windowValues_iff x fh fw i j k v, hlpos,
    List.sorted_insertionSort (fun (a b : T) => a ≤ b) _, hperm, hget, ?_, ?_⟩
  · refine ⟨((windowValues x fh fw i j k).insertionSort (fun a b => a ≤ b))[
      (windowValues x fh fw i j k).length / 2], ?_, ?_⟩
    · exact hperm.subset (List.getElem_mem hidx)
    · rw [hget, List.getElem?_eq_getElem hidx]
  · intro e1 e2
    subst e1
    subst e2
    rw [hget, windowValues_one x i j k hin, get_eq_some_pix x i j k hx hin]
    simp [List.insertionSort, List.orderedInsert]

/-- C40 (witness): on the 2x2x1 image holding (3, 1, 4, 2) with a 3x3 window
the window of the pixel (0,0,0) holds all four values; the output is the
element at index 2 of (1, 2, 3, 4), the upper middle value 3. -/
theorem c40_medianFilter2D_witness :
    (medianFilter2D (ImageT.mk 2 2 1 4 4 (some [3, 1, 4, 2]) : ImageT Int) 3 3).get 0 0 0
      = some 3 := by
  rw [(c40_medianFilter2D (ImageT.mk 2 2 1 4 4 (some [3, 1, 4, 2]) : ImageT Int) 3 3
    (by decide) (by decide) (by decide) (by decide) (by decide) 0 0 0
    (by decide)).2.2.2.2.2.1]
  decide

end ImageT

end Openvis3d

namespace Openvis3d

/-! ## Linearity of `convolve2D` -/

theorem foldl_combineAt_range {T : Type} (f : T → T → T) (rhs : List T) :
    ∀ (k : Nat) (d : List T), k ≤ d.length → k ≤ rhs.length →
    (List.range k).foldl (fun acc i => combineAt f rhs i acc) d
      = (List.zipWith f d rhs).take k ++ d.drop k := by
  intro k
  induction k with
  | zero => intro d _ _; simp
  | succ k ih =>
    intro d hk hr
    have hlt : k < d.length := by omega
    have hrl : k < rhs.length := by omega
    have hzl : k < (List.zipWith f d rhs).length := by simp; omega
    rw [List.range_succ, List.foldl_append, ih d (by omega) (by omega)]
    have hlen : ((List.zipWith f d rhs).take k).length = k := by
      rw [List.length_take]; omega
    have hget : ((List.zipWith f d rhs).take k ++ d.drop k)[k]? = some d[k] := by
      rw [List.getElem?_append_right (by omega), hlen, Nat.sub_self,
        List.drop_eq_getElem_cons hlt]
      simp
    simp only [List.foldl_cons, List.foldl_nil, combineAt, hget,
      List.getElem?_eq_getElem hrl]
    rw [List.set_append_right _ _ (by omega), hlen, Nat.sub_self,
      List.drop_eq_getElem_cons hlt, List.set_cons_zero, List.take_succ,
      List.getElem?_eq_getElem hzl]
    simp only [Option.toList, List.append_assoc, List.singleton_append, List.getElem_zipWith]

/-- The loop `for(int i=0;i<n;i++) d[i] = f(d[i], rhs[i]);` over two buffers of
`n` elements combines them element by element. -/
theorem forLoop_combine {T : Type} (f : T → T → T) (rhs d : List T) (n : Int)
    (hd : d.length = n.toNat) (hr : rhs.length = n.toNat) :
    forLoop n (combineAt f rhs) d = List.zipWith f d rhs := by
  unfold forLoop
  rw [foldl_combineAt_range f rhs n.toNat d (by omega) (by omega)]
  have hz : (List.zipWith f d rhs).length = n.toNat := by simp [hd, hr]
  rw [← hd, List.drop_length, List.append_nil, hd, ← hz, List.take_length]

end Openvis3d

namespace Openvis3d

namespace ImageT

variable {T : Type}

/-- The input values enter `tapSum` only at coordinates inside the image. -/
theorem tapSum_congr_input [Semiring T] (Kh Kw H W : Int) (kv xv xv2 : Int → Int → T)
    (rowOf colOf : Int → Int)
    (h : ∀ r c, 0 ≤ r → r < H → 0 ≤ c → c < W → xv r c = xv2 r c) :
    tapSum Kh Kw H W kv xv rowOf colOf = tapSum Kh Kw H W kv xv2 rowOf colOf := by
  unfold tapSum
  refine Finset.sum_congr rfl (fun jK _ => ?_)
  split_ifs with hc
  · rfl
  · refine Finset.sum_congr rfl (fun iK _ => ?_)
    split_ifs with hr
    · rfl
    · push_neg at hc hr
      rw [h _ _ hr.1 hr.2 hc.1 hc.2]

theorem tapSum_add [Semiring T] (Kh Kw H W : Int) (kv xv yv : Int → Int → T)
    (rowOf colOf : Int → Int) :
    tapSum Kh Kw H W kv (fun r c => xv r c + yv r c) rowOf colOf
      = tapSum Kh Kw H W kv xv rowOf colOf + tapSum Kh Kw H W kv yv rowOf colOf := by
  unfold tapSum
  rw [← Finset.sum_add_distrib]
  refine Finset.sum_congr rfl (fun jK _ => ?_)
  split_ifs with hc
  · rw [add_zero]
  · rw [← Finset.sum_add_distrib]
    refine Finset.sum_congr rfl (fun iK _ => ?_)
    split_ifs with hr
    · rw [add_zero]
    · rw [mul_add]

theorem tapSum_mul_right [Semiring T] (Kh Kw H W : Int) (kv xv : Int → Int → T) (s : T)
    (rowOf colOf : Int → Int) :
    tapSum Kh Kw H W kv (fun r c => xv r c * s) rowOf colOf
      = tapSum Kh Kw H W kv xv rowOf colOf * s := by
  unfold tapSum
  rw [Finset.sum_mul]
  refine Finset.sum_congr rfl (fun jK _ => ?_)
  split_ifs with hc
  · rw [zero_mul]
  · rw [Finset.sum_mul]
    refine Finset.sum_congr rfl (fun iK _ => ?_)
    split_ifs with hr
    · rw [zero_mul]
    · rw [mul_assoc]

/-- Reading an image whose buffer combines the buffers of two images of the
same frame element by element. -/
theorem get_mk_zipWith (x y : ImageT T) (dx dy : List T) (f : T → T → T)
    (hdx : x.mData = some dx) (hdy : y.mData = some dy) (hH : y.mHeight = x.mHeight)
    (hHW : y.mHeightTimesWidth = x.mHeightTimesWidth) (i j k : Int) (u v : T)
    (hu : x.get i j k = some u) (hv : y.get i j k = some v) :
    (ImageT.mk x.mHeight x.mWidth x.mChannels x.mHeightTimesWidth x.mSize
      (some (List.zipWith f dx dy))).get i j k = some (f u v) := by
  simp only [get, load, operatorCallConst, hdx, hdy, hH, hHW] at hu hv ⊢
  split_ifs at hu hv ⊢ with h0
  rw [List.getElem?_zipWith, hu, hv]

/-- Reading an image whose buffer is the buffer of another image mapped by `g`. -/
theorem get_mk_map (x : ImageT T) (dx : List T) (g : T → T) (hdx : x.mData = some dx)
    (i j k : Int) (u : T) (hu : x.get i j k = some u) :
    (ImageT.mk x.mHeight x.mWidth x.mChannels x.mHeightTimesWidth x.mSize
      (some (dx.map g))).get i j k = some (g u) := by
  simp only [get, load, operatorCallConst, hdx] at hu ⊢
  split_ifs at hu ⊢ with h0
  rw [List.getElem?_map, hu]
  rfl

/-- Frame and pixels of `x + y` for non-empty consistent images of the same
shape. -/
theorem opAdd_get [Inhabited T] [Add T] (x y : ImageT T) (hx : x.SizeInv) (hy : y.SizeInv)
    (hpos : 0 < x.mSize) (hH : y.mHeight = x.mHeight) (hW : y.mWidth = x.mWidth)
    (hC : y.mChannels = x.mChannels) :
    SameFrame (opAdd x y) x ∧
    ∀ i j k, x.InRange i j k → (opAdd x y).get i j k = some (x.pix i j k + y.pix i j k) := by
  have hysize : y.mSize = x.mSize := by rw [hy.1, hx.1, hH, hW, hC]
  obtain ⟨dx, _, hdx, _, hlx, _⟩ := buffer_of_pos x hx hpos
  obtain ⟨dy, _, hdy, _, hly, hey⟩ := buffer_of_pos y hy (by omega)
  have hss : sameShape x y = true := by simp [sameShape, hH, hW, hC]
  have hE : opAdd x y = ImageT.mk x.mHeight x.mWidth x.mChannels x.mHeightTimesWidth x.mSize
      (some (List.zipWith (fun a b => a + b) dx dy)) := by
    simp only [opAdd, opAssign_new_of_sizeInv x hx hpos, opAddAssign, hss, if_true, zipLoop,
      hdx, Option.map_some', hey]
    rw [forLoop_combine _ dy dx x.mSize (by omega) (by omega)]
  rw [hE]
  refine ⟨⟨rfl, rfl, rfl, rfl, rfl, ?_⟩, ?_⟩
  · simp only [elems, Option.getD_some, hdx, List.length_zipWith]
    omega
  · intro i j k hin
    have hiny : y.InRange i j k := by
      obtain ⟨a1, a2, a3, a4, a5, a6⟩ := hin
      exact ⟨a1, by omega, a3, by omega, a5, by omega⟩
    exact get_mk_zipWith x y dx dy _ hdx hdy hH (by rw [hy.2.1, hx.2.1, hH, hW]) i j k _ _
      (get_eq_some_pix x i j k hx hin) (get_eq_some_pix y i j k hy hiny)

/-- Frame and pixels of `x * s` for a non-empty consistent image. -/
theorem opMulScalar_get [Inhabited T] [Mul T] (x : ImageT T) (s : T) (hx : x.SizeInv)
    (hpos : 0 < x.mSize) :
    SameFrame (opMulScalar x s) x ∧
    ∀ i j k, x.InRange i j k → (opMulScalar x s).get i j k = some (x.pix i j k * s) := by
  obtain ⟨dx, _, hdx, _, hlx, _⟩ := buffer_of_pos x hx hpos
  have hE : opMulScalar x s = ImageT.mk x.mHeight x.mWidth x.mChannels x.mHeightTimesWidth
      x.mSize (some (dx.map (fun v => v * s))) := by
    simp only [opMulScalar, opAssign_new_of_sizeInv x hx hpos, opMulAssignScalar, hdx,
      Option.map_some']
    rw [forLoop_update _ _ _ (by omega)]
  rw [hE]
  refine ⟨⟨rfl, rfl, rfl, rfl, rfl, ?_⟩, ?_⟩
  · simp only [elems, Option.getD_some, hdx, List.length_map]
  · intro i j k hin
    exact get_mk_map x dx _ hdx i j k _ (get_eq_some_pix x i j k hx hin)

theorem opAdd_of_empty [Inhabited T] [Add T] (x y : ImageT T) (hz : x.mSize = 0) :
    opAdd x y = new := by
  simp only [opAdd, opAssign_of_empty new x false hz, opAddAssign, zipLoop]
  split_ifs <;> rfl

theorem opMulScalar_of_empty [Inhabited T] [Mul T] (x : ImageT T) (s : T) (hz : x.mSize = 0) :
    opMulScalar x s = new := by
  simp only [opMulScalar, opAssign_of_empty new x false hz, opMulAssignScalar]
  rfl

theorem convolve2D_of_empty [Inhabited T] [Zero T] [Add T] [Mul T] (k x : ImageT T)
    (hz : x.mSize = 0) : convolve2D k x = new := by
  simp only [convolve2D, hz, or_true, if_true, newCopy_of_empty x false hz]

end ImageT

end Openvis3d

namespace Openvis3d

namespace ImageT

variable {T : Type}

theorem pix_of_get [Inhabited T] (s : ImageT T) (i j k : Int) (v : T)
    (h : s.get i j k = some v) : s.pix i j k = v := by
  simp [pix, h]

theorem convValue_congr [Inhabited T] [Semiring T] (k : ImageT T) (H W : Int)
    (xv xv2 : Int → Int → T) (i j : Int)
    (h : ∀ r c, 0 ≤ r → r < H → 0 ≤ c → c < W → xv r c = xv2 r c) :
    convValue k H W xv i j = convValue k H W xv2 i j := by
  unfold convValue
  split_ifs
  · rfl
  · exact tapSum_congr_input _ _ _ _ _ _ _ _ _ h

theorem convValue_add [Inhabited T] [Semiring T] (k : ImageT T) (H W : Int)
    (xv yv : Int → Int → T) (i j : Int) :
    convValue k H W (fun r c => xv r c + yv r c) i j
      = convValue k H W xv i j + convValue k H W yv i j := by
  unfold convValue
  split_ifs
  · rw [add_zero]
  · exact tapSum_add _ _ _ _ _ _ _ _ _

theorem convValue_mul_right [Inhabited T] [Semiring T] (k : ImageT T) (H W : Int)
    (xv : Int → Int → T) (s : T) (i j : Int) :
    convValue k H W (fun r c => xv r c * s) i j = convValue k H W xv i j * s := by
  unfold convValue
  split_ifs
  · rw [zero_mul]
  · exact tapSum_mul_right _ _ _ _ _ _ _ _ _

/-- Frame and pixels of `convolve2D(k, x)` for a consistent kernel with
non-negative dimensions and a non-empty consistent input. -/
theorem convolve2D_value [Inhabited T] [Semiring T] (k x : ImageT T) (hk : k.SizeInv)
    (hknn : k.NonNegDims) (hx : x.SizeInv) (hxs : 0 < x.mSize) :
    SameFrame (convolve2D k x) x ∧
    ∀ i j c, x.InRange i j c →
      (convolve2D k x).get i j c
        = some (convValue k x.mHeight x.mWidth (fun a b => x.pix a b c) i j) := by
  by_cases hks : k.mSize = 0
  · have hE : convolve2D k x = newCopy x false := by
      simp only [convolve2D, hks, true_or, if_true]
    rw [hE]
    refine ⟨sameFrame_newCopy_false x hx hxs, ?_⟩
    intro i j c hin
    rw [get_newCopy_false x hx hxs i j c hin]
    simp only [convValue, hks, if_true]
  · have hkc : 0 < k.mChannels := by
      have h1 := hk.1
      have h2 := hknn.2.2
      rcases lt_or_eq_of_le h2 with h | h
      · exact h
      · exfalso
        apply hks
        rw [h1, ← h, mul_zero]
    obtain ⟨hf, hg⟩ := convolve2D_get k x hk hkc hks hx hxs
    refine ⟨hf, ?_⟩
    intro i j c hin
    rw [hg i j c hin]
    simp only [convValue, hks, if_false]

/-- The kernel `ImageT<T> k(1,1,1); k = 1;`. -/
theorem convValue_unit [Inhabited T] [Semiring T] (H W : Int) (xv : Int → Int → T) (i j : Int)
    (hi0 : 0 ≤ i) (hi1 : i < H) (hj0 : 0 ≤ j) (hj1 : j < W) :
    convValue (ImageT.mk 1 1 1 1 1 (some [1]) : ImageT T) H W xv i j = xv i j := by
  have hs : ¬ ((1 : Int) = 0) := by decide
  have hm : Int.tdiv 1 2 = 0 := by decide
  have e1 : (1 : Int).toNat = 1 := rfl
  have hc : ¬ (j - ((((0 : Nat) : Int)) - 0) < 0 ∨ j - ((((0 : Nat) : Int)) - 0) ≥ W) := by
    omega
  have hr : ¬ (i - ((((0 : Nat) : Int)) - 0) < 0 ∨ i - ((((0 : Nat) : Int)) - 0) ≥ H) := by
    omega
  have hp : (ImageT.mk 1 1 1 1 1 (some [1]) : ImageT T).pix (((0 : Nat) : Int))
      (((0 : Nat) : Int)) 0 = 1 := by
    simp [pix, get, load, operatorCallConst]
  simp only [convValue, hs, if_false, tapSum, hm, e1, Finset.sum_range_one, if_neg hc,
    if_neg hr, hp, one_mul]
  congr 1 <;> omega

end ImageT

end Openvis3d

namespace Openvis3d

namespace ImageT

variable {T : Type}

/-- Additivity of `convolve2D` in its input, for non-empty consistent images of
the same shape. -/
theorem convolve2D_opAdd [Inhabited T] [Semiring T] (k x y : ImageT T) (hk : k.SizeInv)
    (hknn : k.NonNegDims) (hx : x.SizeInv) (hy : y.SizeInv) (hpos : 0 < x.mSize)
    (hH : y.mHeight = x.mHeight) (hW : y.mWidth = x.mWidth) (hC : y.mChannels = x.mChannels) :
    SameFrame (convolve2D k (opAdd x y)) x ∧
    SameFrame (opAdd (convolve2D k x) (convolve2D k y)) x ∧
    ∀ i j c, x.InRange i j c →
      (convolve2D k (opAdd x y)).get i j c
        = (opAdd (convolve2D k x) (convolve2D k y)).get i j c := by
  have hysize : y.mSize = x.mSize := by rw [hy.1, hx.1, hH, hW, hC]
  -- the sum of the inputs
  obtain ⟨hAf, hAg⟩ := opAdd_get x y hx hy hpos hH hW hC
  have hAinv := sizeInv_of_sameFrame _ _ hx hAf
  have hApos : 0 < (opAdd x y).mSize := by rw [hAf.2.2.2.2.1]; exact hpos
  obtain ⟨hcAf, hcAg⟩ := convolve2D_value k (opAdd x y) hk hknn hAinv hApos
  -- the two convolutions
  obtain ⟨hXf, hXg⟩ := convolve2D_value k x hk hknn hx hpos
  obtain ⟨hYf, hYg⟩ := convolve2D_value k y hk hknn hy (by omega)
  have hXinv := sizeInv_of_sameFrame _ _ hx hXf
  have hYinv := sizeInv_of_sameFrame _ _ hy hYf
  obtain ⟨hBf, hBg⟩ := opAdd_get (convolve2D k x) (convolve2D k y) hXinv hYinv
    (by rw [hXf.2.2.2.2.1]; exact hpos) (by rw [hYf.1, hXf.1, hH])
    (by rw [hYf.2.1, hXf.2.1, hW]) (by rw [hYf.2.2.1, hXf.2.2.1, hC])
  refine ⟨sameFrame_trans _ _ _ hcAf hAf, sameFrame_trans _ _ _ hBf hXf, ?_⟩
  intro i j c hin
  have hinA : (opAdd x y).InRange i j c := (inRange_of_sameFrame _ x i j c hAf).mpr hin
  have hinX : (convolve2D k x).InRange i j c := (inRange_of_sameFrame _ x i j c hXf).mpr hin
  have hiny : y.InRange i j c := by
    obtain ⟨a1, a2, a3, a4, a5, a6⟩ := hin
    exact ⟨a1, by omega, a3, by omega, a5, by omega⟩
  rw [hcAg i j c hinA, hBg i j c hinX, pix_of_get _ i j c _ (hXg i j c hin),
    pix_of_get _ i j c _ (hYg i j c hiny), hAf.1, hAf.2.1, hH, hW, ← convValue_add]
  congr 1
  refine convValue_congr k _ _ _ _ i j (fun r q hr0 hr1 hq0 hq1 => ?_)
  exact pix_of_get _ r q c _ (hAg r q c ⟨hr0, hr1, hq0, hq1, hin.2.2.2.2.1, hin.2.2.2.2.2⟩)

/-- Homogeneity of `convolve2D` in its input, for a non-empty consistent image. -/
theorem convolve2D_opMulScalar [Inhabited T] [Semiring T] (k x : ImageT T) (s : T)
    (hk : k.SizeInv) (hknn : k.NonNegDims) (hx : x.SizeInv) (hpos : 0 < x.mSize) :
    SameFrame (convolve2D k (opMulScalar x s)) x ∧
    SameFrame (opMulScalar (convolve2D k x) s) x ∧
    ∀ i j c, x.InRange i j c →
      (convolve2D k (opMulScalar x s)).get i j c
        = (opMulScalar (convolve2D k x) s).get i j c := by
  obtain ⟨hAf, hAg⟩ := opMulScalar_get x s hx hpos
  have hAinv := sizeInv_of_sameFrame _ _ hx hAf
  have hApos : 0 < (opMulScalar x s).mSize := by rw [hAf.2.2.2.2.1]; exact hpos
  obtain ⟨hcAf, hcAg⟩ := convolve2D_value k (opMulScalar x s) hk hknn hAinv hApos
  obtain ⟨hXf, hXg⟩ := convolve2D_value k x hk hknn hx hpos
  have hXinv := sizeInv_of_sameFrame _ _ hx hXf
  obtain ⟨hBf, hBg⟩ := opMulScalar_get (convolve2D k x) s hXinv
    (by rw [hXf.2.2.2.2.1]; exact hpos)
  refine ⟨sameFrame_trans _ _ _ hcAf hAf, sameFrame_trans _ _ _ hBf hXf, ?_⟩
  intro i j c hin
  have hinA : (opMulScalar x s).InRange i j c := (inRange_of_sameFrame _ x i j c hAf).mpr hin
  have hinX : (convolve2D k x).InRange i j c := (inRange_of_sameFrame _ x i j c hXf).mpr hin
  rw [hcAg i j c hinA, hBg i j c hinX, pix_of_get _ i j c _ (hXg i j c hin), hAf.1, hAf.2.1,
    ← convValue_mul_right]
  congr 1
  refine convValue_congr k _ _ _ _ i j (fun r q hr0 hr1 hq0 hq1 => ?_)
  exact pix_of_get _ r q c _ (hAg r q c ⟨hr0, hr1, hq0, hq1, hin.2.2.2.2.1, hin.2.2.2.2.2⟩)

/-- C38 (counterexample to the claim as written): the image built by
`ImageT<int>(0,5,1)` has width 5 and no buffer; `convolve2D` starts from the
shape-only copy `ImageT<T> result(input,false)`, which for a source without
data is the default image, so convolving it with the 1x1 kernel of value 1
returns an image of width 0, not the input. -/
theorem c38_unit_kernel_empty_counterexample :
    (newDims 0 5 1 : ImageT Int).mWidth = 5 ∧
    (convolve2D (ImageT.mk 1 1 1 1 1 (some [1])) (newDims 0 5 1 : ImageT Int)).mWidth = 0 := by
  decide

/-- C38 (amended): over a semiring of exact scalars, for every consistent
kernel k with non-negative dimensions, all consistent images x and y of the
same shape and every scalar s: `convolve2D(k, x + y)` and
`convolve2D(k, x) + convolve2D(k, y)` have the same shape and the same element
at every coordinate, and so do `convolve2D(k, x * s)` and
`convolve2D(k, x) * s`; and when x is non-empty or has shape (0,0,0),
convolving x with the 1x1 kernel whose single value is 1 returns an image of
the shape of x with the elements of x. -/
theorem c38_convolve2D_linear [Inhabited T] [Semiring T] (k x y : ImageT T) (s : T)
    (hk : k.SizeInv) (hknn : k.NonNegDims) (hx : x.SizeInv) (hy : y.SizeInv)
    (hH : y.mHeight = x.mHeight) (hW : y.mWidth = x.mWidth) (hC : y.mChannels = x.mChannels) :
    (((convolve2D k (opAdd x y)).mHeight = (opAdd (convolve2D k x) (convolve2D k y)).mHeight ∧
        (convolve2D k (opAdd x y)).mWidth = (opAdd (convolve2D k x) (convolve2D k y)).mWidth ∧
        (convolve2D k (opAdd x y)).mChannels
          = (opAdd (convolve2D k x) (convolve2D k y)).mChannels) ∧
      ∀ i j c, (convolve2D k (opAdd x y)).InRange i j c →
        (convolve2D k (opAdd x y)).get i j c
          = (opAdd (convolve2D k x) (convolve2D k y)).get i j c) ∧
    (((convolve2D k (opMulScalar x s)).mHeight = (opMulScalar (convolve2D k x) s).mHeight ∧
        (convolve2D k (opMulScalar x s)).mWidth = (opMulScalar (convolve2D k x) s).mWidth ∧
        (convolve2D k (opMulScalar x s)).mChannels
          = (opMulScalar (convolve2D k x) s).mChannels) ∧
      ∀ i j c, (convolve2D k (opMulScalar x s)).InRange i j c →
        (convolve2D k (opMulScalar x s)).get i j c
          = (opMulScalar (convolve2D k x) s).get i j c) ∧
    ((0 < x.mSize ∨ (x.mHeight = 0 ∧ x.mWidth = 0 ∧ x.mChannels = 0)) →
      ((convolve2D (ImageT.mk 1 1 1 1 1 (some [1])) x).mHeight = x.mHeight ∧
        (convolve2D (ImageT.mk 1 1 1 1 1 (some [1])) x).mWidth = x.mWidth ∧
        (convolve2D (ImageT.mk 1 1 1 1 1 (some [1])) x).mChannels = x.mChannels) ∧
      ∀ i j c, x.InRange i j c →
        (convolve2D (ImageT.mk 1 1 1 1 1 (some [1])) x).get i j c = x.get i j c) := by
  have hxs0 : 0 ≤ x.mSize := sizeInv_mSize_nonneg x hx
  have hysize : y.mSize = x.mSize := by rw [hy.1, hx.1, hH, hW, hC]
  refine ⟨?_, ?_, ?_⟩
  · by_cases hz : x.mSize = 0
    · rw [opAdd_of_empty x y hz, convolve2D_of_empty k x hz,
        convolve2D_of_empty k y (by omega), convolve2D_of_empty k new rfl,
        opAdd_of_empty new new rfl]
      exact ⟨⟨rfl, rfl, rfl⟩, fun _ _ _ _ => rfl⟩
    · obtain ⟨f1, f2, hg⟩ := convolve2D_opAdd k x y hk hknn hx hy (by omega) hH hW hC
      refine ⟨⟨f1.1.trans f2.1.symm, f1.2.1.trans f2.2.1.symm,
        f1.2.2.1.trans f2.2.2.1.symm⟩, ?_⟩
      intro i j c hin
      exact hg i j c ((inRange_of_sameFrame _ x i j c f1).mp hin)
  · by_cases hz : x.mSize = 0
    · rw [opMulScalar_of_empty x s hz, convolve2D_of_empty k x hz,
        convolve2D_of_empty k new rfl, opMulScalar_of_empty new s rfl]
      exact ⟨⟨rfl, rfl, rfl⟩, fun _ _ _ _ => rfl⟩
    · obtain ⟨f1, f2, hg⟩ := convolve2D_opMulScalar k x s hk hknn hx (by omega)
      refine ⟨⟨f1.1.trans f2.1.symm, f1.2.1.trans f2.2.1.symm,
        f1.2.2.1.trans f2.2.2.1.symm⟩, ?_⟩
      intro i j c hin
      exact hg i j c ((inRange_of_sameFrame _ x i j c f1).mp hin)
  · rintro (hpos | ⟨h0, w0, c0⟩)
    · obtain ⟨hf, hg⟩ := convolve2D_value (ImageT.mk 1 1 1 1 1 (some [1]) : ImageT T) x
        ⟨rfl, rfl, rfl⟩ ⟨Int.one_nonneg, Int.one_nonneg, Int.one_nonneg⟩ hx hpos
      refine ⟨⟨hf.1, hf.2.1, hf.2.2.1⟩, ?_⟩
      intro i j c hin
      rw [hg i j c hin, convValue_unit _ _ _ i j hin.1 hin.2.1 hin.2.2.1 hin.2.2.2.1]
      exact (get_eq_some_pix x i j c hx hin).symm
    · have hz : x.mSize = 0 := by rw [hx.1, h0, w0, c0]; rfl
      rw [convolve2D_of_empty _ x hz]
      refine ⟨⟨h0.symm, w0.symm, c0.symm⟩, ?_⟩
      intro i j c hin
      obtain ⟨p1, p2, _⟩ := hin
      omega

/-- C38 (witness): kernel (1, 2) of shape 2x1x1, x = (1, 2, 3, 4) and
y = (10, 20, 30, 40) of shape 2x2x1: at the pixel (1, 0, 0) both sides of the
additive law are `1*22 + 2*11 = 44`. -/
theorem c38_convolve2D_linear_witness :
    (convolve2D (ImageT.mk 2 1 1 2 2 (some [1, 2]))
        (opAdd (ImageT.mk 2 2 1 4 4 (some [1, 2, 3, 4]) : ImageT Int)
          (ImageT.mk 2 2 1 4 4 (some [10, 20, 30, 40])))).get 1 0 0 = some 44 ∧
    (opAdd (convolve2D (ImageT.mk 2 1 1 2 2 (some [1, 2]))
          (ImageT.mk 2 2 1 4 4 (some [1, 2, 3, 4]) : ImageT Int))
        (convolve2D (ImageT.mk 2 1 1 2 2 (some [1, 2]))
          (ImageT.mk 2 2 1 4 4 (some [10, 20, 30, 40])))).get 1 0 0 = some 44 := by
  have h := (c38_convolve2D_linear (ImageT.mk 2 1 1 2 2 (some [1, 2]))
    (ImageT.mk 2 2 1 4 4 (some [1, 2, 3, 4]) : ImageT Int)
    (ImageT.mk 2 2 1 4 4 (some [10, 20, 30, 40])) 3 (by decide) (by decide) (by decide)
    (by decide) rfl rfl rfl).1.2 1 0 0 (by decide)
  refine ⟨by decide, ?_⟩
  rw [← h]
  decide

end ImageT

end Openvis3d
